import Mathlib

/-!
Kanban board (IAED 2021, project 1): ordered indices

A shallow embedding of `main.c` / `constants.h` and a verification of the two
ordered indices kept by the task list (`ordered_by_description`,
`ordered_by_start`).

Conventions of the embedding.

* A C `int` is an `Int`; the `unsigned int` clock and start times are `Nat`s
  reduced modulo `2 ^ 32` where the C code adds to them.
* A C string is the list of its bytes before the terminating NUL (`CString`);
  `strcmp` and `strcpy` stop at a NUL byte should the list hold one.
* A C array is a total function from the `int` index to the cell; the cells
  past the live prefix hold whatever the memory held before (`setup` takes the
  uninitialised `Kanban` as its argument, as the C function does).
* `scanf` is outside the model: every command handler receives the values the
  C function scans as arguments.  `printf` is modelled by a list of `Output`
  records, one per line printed.
* The `char` arrays of a `Task` lie side by side in memory, and neither `scanf`
  nor `strcpy` limits what it writes.  The embedding keeps every string on its
  own, which is what the program does on an input whose strings fit the arrays
  they are scanned into (`fits`); the theorems on the order of the
  descriptions in the two indices are stated for such inputs.
* The `memmove` of `binary_insert` has the byte count `sizeof(int) * sz` for a
  signed `sz`: a negative `sz` becomes a count larger than any object, and
  `binary_insert` and its callers return `none` there.  No call that the
  program makes has a negative `sz`.
-/

namespace IAED

/-! ## constants.h -/

/-- A C string: the bytes before the terminating NUL. -/
abbrev CString := List Nat

def EXIT_OK : Int := 0
def KEEP_GOING : Int := 1
def STOP : Int := 0
def EQUAL : Int := 0
def AMT_TASKS : Int := 10000
def TASK_DESCRIPTION_SZ : Int := 51
def AMT_USERS : Int := 50
def USER_SZ : Int := 21
def AMT_ACTIVITIES : Int := 10
def ACTIVITY_SZ : Int := 21

/-- The bytes of "TO DO". -/
def STR_TO_DO : CString := [84, 79, 32, 68, 79]
/-- The bytes of "IN PROGRESS". -/
def STR_IN_PROGRESS : CString := [73, 78, 32, 80, 82, 79, 71, 82, 69, 83, 83]
/-- The bytes of "DONE". -/
def STR_DONE : CString := [68, 79, 78, 69]

/-- One printed line; the constructor tells the format string of `constants.h`. -/
inductive Output where
  /-- STR_SUCCESS_NEW_TASK, "task %d" -/
  | new_task (id : Int)
  | too_many_tasks
  | duplicate_description
  | invalid_duration
  /-- STR_SUCCESS_LIST_TASKS, "%d %s #%d %s" -/
  | list_task (id : Int) (activity : CString) (duration : Int) (description : CString)
  /-- STR_FAIL_LIST_TASKS_NO_SUCH_TASK, "%d: no such task" -/
  | list_no_such_task (id : Int)
  /-- STR_SUCCESS_ADVANCE_TIME, "%u" -/
  | time (now : Nat)
  | invalid_time
  | user_already_exists
  | too_many_users
  /-- STR_SUCCESS_LIST_USERS, "%s" -/
  | user (name : CString)
  /-- STR_SUCCESS_MOVE_TASK_TO_DONE, "duration=%d slack=%d" -/
  | move_done (duration slack : Int)
  | no_such_task
  | task_already_started
  | no_such_user
  | no_such_activity
  /-- STR_SUCCESS_DISPLAY_ACTIVITY, "%d %u %s" -/
  | display (id : Int) (start : Nat) (description : CString)
  /-- STR_SUCCESS_LIST_ACTIVITIES, "%s" -/
  | activity (name : CString)
  | duplicate_activity
  | invalid_description
  | too_many_activities
  deriving DecidableEq, Repr

/-! ## libc -/

/-- C `strcmp`: the difference of the first pair of bytes that differ, the end
of a list standing for the NUL terminator. -/
def strcmp : CString → CString → Int
  | [], [] => 0
  | [], b :: _ => 0 - (b : Int)
  | a :: _, [] => (a : Int) - 0
  | a :: s, b :: t =>
    if a ≠ b then (a : Int) - (b : Int) else if a = 0 then 0 else strcmp s t

/-- C `strcpy`: what the destination holds afterwards, the bytes up to the
terminator. -/
def strcpy (src : CString) : CString := src.takeWhile (fun c => c ≠ 0)

/-- C `strlen`. -/
def strlen (s : CString) : Int := ((s.takeWhile (fun c => c ≠ 0)).length : Int)

/-- C `islower` in the "C" locale. -/
def islower (c : Nat) : Bool := decide (97 ≤ c ∧ c ≤ 122)

/-- C `memmove` on an `int` array, counted in cells: cells `dest .. dest+n-1`
receive the old cells `src .. src+n-1`. -/
def memmove (a : Int → Int) (dest src n : Int) : Int → Int :=
  fun i => if dest ≤ i ∧ i < dest + n then a (src + (i - dest)) else a i

/-- The value of an `unsigned int` converted to `int` (two's complement). -/
def to_int (u : Nat) : Int :=
  if u % 2 ^ 32 < 2 ^ 31 then ((u % 2 ^ 32 : Nat) : Int) else ((u % 2 ^ 32 : Nat) : Int) - 2 ^ 32

/-- An `int` result reduced to 32 bits (two's complement wrap-around). -/
def wrap_int (x : Int) : Int := (x + 2 ^ 31) % 2 ^ 32 - 2 ^ 31

/-! ## Structs -/

structure Task where
  description : CString
  user : CString
  activity : CString
  duration : Int
  start : Nat

structure UserList where
  user : Int → CString
  amount : Int

structure ActivityList where
  activity : Int → CString
  amount : Int

structure TaskList where
  task : Int → Task
  ordered_by_description : Int → Int
  amount : Int
  ordered_by_start : Int → Int
  first_at_current_time : Int
  amount_started : Int

/-- KANBAN: the global state of the board. -/
structure Kanban where
  now : Nat
  users : UserList
  activities : ActivityList
  tasks : TaskList

/-- What a command handler leaves behind: its return value, the state it
mutated through its pointer argument, and the lines it printed. -/
structure Result (σ : Type) where
  ret : Int
  state : σ
  out : List Output

/-- Write one cell of an array. -/
def store {α : Type} (a : Int → α) (i : Int) (v : α) : Int → α :=
  fun j => if j = i then v else a j

/-! ## Vector manipulation functions -/

/-- The `while (end >= start)` loop of `binary_insert`: the pair
`(start, end)` after at most `n` iterations. -/
def binary_insert_loop (l : TaskList) (order : Int → Int) (id : Int) :
    Nat → Int → Int → Int × Int
  | 0, start, end_ => (start, end_)
  | n + 1, start, end_ =>
    if end_ ≥ start then
      let mid := (start + end_).tdiv 2
      if strcmp (l.task (order mid)).description (l.task (id - 1)).description > 0 then
        binary_insert_loop l order id n start (mid - 1)
      else
        binary_insert_loop l order id n (mid + 1) end_
    else (start, end_)

/-- The value of `start` when the loop of `binary_insert` is left: the cell
that receives the new index.  The loop is run `end - start + 1` times at
most, which `binary_insert_loop_exit` shows to be enough. -/
def binary_insert_pos (l : TaskList) (order : Int → Int) (id start end_ : Int) : Int :=
  (binary_insert_loop l order id (end_ - start + 1).toNat start end_).1

/-- TASK ORDER INSERTION: the `order` vector after the call, `none` when the
`memmove` count `sizeof(int) * sz` comes from a negative `sz`. -/
def binary_insert (l : TaskList) (order : Int → Int) (id start end_ : Int) :
    Option (Int → Int) :=
  let sz := end_
  let start := binary_insert_pos l order id start end_
  let sz := sz - (start - 1)
  if sz < 0 then none
  else
    let order := memmove order (start + 1) start sz
    some (store order start (id - 1))

/-! ## Auxiliary error checking functions -/

/-- CHECK FOR TASK DESCRIPTION DUPLICATES: the `for` loop over
`i = 0 .. amount - 1` returning 1 at the first equal description. -/
def is_task_description_duplicate (l : TaskList) (t : Task) : Int :=
  if (List.range l.amount.toNat).any
      (fun (i : Nat) => decide (strcmp t.description (l.task (i : Int)).description = EQUAL))
  then 1 else 0

/-- CHECK IF USER EXISTS -/
def is_existing_user (l : UserList) (user : CString) : Int :=
  if (List.range l.amount.toNat).any
      (fun (i : Nat) => decide (strcmp user (l.user (i : Int)) = EQUAL))
  then 1 else 0

/-- CHECK IF ACTIVITY EXISTS -/
def is_existing_activity (l : ActivityList) (activity : CString) : Int :=
  if (List.range l.amount.toNat).any
      (fun (i : Nat) => decide (strcmp activity (l.activity (i : Int)) = EQUAL))
  then 1 else 0

/-- CHECK LOWERCASE -/
def str_has_lowercase (s : CString) : Int :=
  if (s.take (strlen s).toNat).any islower then 1 else 0

/-! ## Error checking functions -/

/-- CHECK NEW TASK -/
def is_new_task_valid (l : TaskList) (t : Task) : Int × List Output :=
  if l.amount ≥ AMT_TASKS then (0, [Output.too_many_tasks])
  else if is_task_description_duplicate l t ≠ 0 then (0, [Output.duplicate_description])
  else if t.duration ≤ 0 then (0, [Output.invalid_duration])
  else (1, [])

/-- CHECK ID -/
def is_id_valid (l : TaskList) (id : Int) : Int × List Output :=
  if id < 1 ∨ id > l.amount then (0, [Output.list_no_such_task id])
  else (1, [])

/-- CHECK TIME -/
def is_time_valid (time : Int) : Int × List Output :=
  if time < 0 then (0, [Output.invalid_time])
  else (1, [])

/-- CHECK NEW USER -/
def is_new_user_valid (l : UserList) (user : CString) : Int × List Output :=
  if is_existing_user l user ≠ 0 then (0, [Output.user_already_exists])
  else if l.amount ≥ AMT_USERS then (0, [Output.too_many_users])
  else (1, [])

/-- CHECK MOVE -/
def is_move_valid (k : Kanban) (id : Int) (user activity : CString) : Int × List Output :=
  if id < 1 ∨ id > k.tasks.amount then (0, [Output.no_such_task])
  else if strcmp (k.tasks.task (id - 1)).activity activity = EQUAL then (0, [])
  else if strcmp activity STR_TO_DO = EQUAL then (0, [Output.task_already_started])
  else if is_existing_user k.users user = 0 then (0, [Output.no_such_user])
  else if is_existing_activity k.activities activity = 0 then (0, [Output.no_such_activity])
  else (1, [])

/-- CHECK ACTIVITY -/
def is_activity_valid (l : ActivityList) (activity : CString) : Int × List Output :=
  if is_existing_activity l activity = 0 then (0, [Output.no_such_activity])
  else (1, [])

/-- CHECK NEW ACTIVITY -/
def is_new_activity_valid (l : ActivityList) (activity : CString) : Int × List Output :=
  if is_existing_activity l activity ≠ 0 then (0, [Output.duplicate_activity])
  else if str_has_lowercase activity ≠ 0 then (0, [Output.invalid_description])
  else if l.amount ≥ AMT_ACTIVITIES then (0, [Output.too_many_activities])
  else (1, [])

/-! ## Printing functions -/

/-- PRINT TASK -/
def print_task (l : TaskList) (id : Int) : List Output :=
  [Output.list_task id (l.task (id - 1)).activity (l.task (id - 1)).duration
    (l.task (id - 1)).description]

/-- PRINT ACTIVITY: the `for` loop over `i = 0 .. sz - 1`. -/
def print_activity (k : Kanban) (activity : CString) (order : Int → Int) (sz : Int) :
    List Output :=
  (List.range sz.toNat).flatMap (fun (i : Nat) =>
    let t := k.tasks.task (order (i : Int))
    if strcmp t.activity activity = EQUAL then
      [Output.display (order (i : Int) + 1) t.start t.description]
    else [])

/-- APPEND USER -/
def append_user (l : UserList) (new_user : CString) : UserList :=
  { user := store l.user l.amount (strcpy new_user), amount := l.amount + 1 }

/-- APPEND ACTIVITY -/
def append_activity (l : ActivityList) (new_activity : CString) : ActivityList :=
  { activity := store l.activity l.amount (strcpy new_activity), amount := l.amount + 1 }

/-- APPEND TASK -/
def append_task (l : TaskList) (new_task : Task) : TaskList :=
  { l with task := store l.task l.amount new_task, amount := l.amount + 1 }

/-! ## Meta functions -/

/-- SETUP FUNCTION: `k` is the uninitialised `Kanban` that `main` declares. -/
def setup (k : Kanban) : Kanban :=
  let k := { k with now := 0 }
  let k := { k with users := { k.users with amount := 0 } }
  let k := { k with activities := { k.activities with amount := 0 } }
  let k := { k with tasks := { k.tasks with amount := 0 } }
  let k := { k with tasks := { k.tasks with amount_started := 0 } }
  let k := { k with tasks := { k.tasks with first_at_current_time := 0 } }
  let k := { k with activities := append_activity k.activities STR_TO_DO }
  let k := { k with activities := append_activity k.activities STR_IN_PROGRESS }
  { k with activities := append_activity k.activities STR_DONE }

/-! ## Command handling functions -/

/-- NEW TASK HANDLING, `t <duration> <description>`.  The local `Task t` is
not initialised: its `user` field keeps the bytes the stack held, the argument
`user`. -/
def new_task (l : TaskList) (duration : Int) (description user : CString) :
    Option (Result TaskList) :=
  let t : Task :=
    { description := description, user := user, activity := strcpy STR_TO_DO,
      duration := duration, start := 0 }
  let v := is_new_task_valid l t
  if v.1 ≠ 0 then
    let l := append_task l t
    match binary_insert l l.ordered_by_description l.amount 0 (l.amount - 2) with
    | none => none
    | some order =>
      let l := { l with ordered_by_description := order }
      some { ret := KEEP_GOING, state := l, out := v.2 ++ [Output.new_task l.amount] }
  else some { ret := KEEP_GOING, state := l, out := v.2 }

/-- The loop of LIST TASKS HANDLING over the ids read by `scanf`. -/
def list_tasks_ids (l : TaskList) : List Int → List Output
  | [] => []
  | id :: ids =>
    let v := is_id_valid l id
    (v.2 ++ if v.1 ≠ 0 then print_task l id else []) ++ list_tasks_ids l ids

/-- LIST TASKS HANDLING, `l [<id> <id> ...]`: `ids` is `some` of the ids read
when the command has arguments. -/
def list_tasks (l : TaskList) (ids : Option (List Int)) : Result TaskList :=
  match ids with
  | some ids => { ret := KEEP_GOING, state := l, out := list_tasks_ids l ids }
  | none =>
    { ret := KEEP_GOING, state := l,
      out := list_tasks_ids l
        ((List.range l.amount.toNat).map (fun (i : Nat) => l.ordered_by_description (i : Int) + 1)) }

/-- ADVANCE TIME HANDLING, `n <duration>`. -/
def advance_time (k : Kanban) (time : Int) : Result Kanban :=
  let v := is_time_valid time
  if v.1 ≠ 0 then
    let k := { k with now := (k.now + time.toNat) % 2 ^ 32 }
    let k := { k with tasks := { k.tasks with first_at_current_time := k.tasks.amount_started } }
    { ret := KEEP_GOING, state := k, out := v.2 ++ [Output.time k.now] }
  else { ret := KEEP_GOING, state := k, out := v.2 }

/-- NEW USER HANDLING, `u <user>`. -/
def new_user (l : UserList) (user : CString) : Result UserList :=
  let v := is_new_user_valid l user
  if v.1 ≠ 0 then { ret := KEEP_GOING, state := append_user l user, out := v.2 }
  else { ret := KEEP_GOING, state := l, out := v.2 }

/-- LIST USERS HANDLING, `u`. -/
def list_users (l : UserList) : Result UserList :=
  { ret := KEEP_GOING, state := l,
    out := (List.range l.amount.toNat).map (fun (i : Nat) => Output.user (l.user (i : Int))) }

/-- USER HANDLING, `u [<user>]`. -/
def handle_users (l : UserList) (user : Option CString) : Result UserList :=
  match user with
  | some user => new_user l user
  | none => list_users l

/-- MOVE TASK HANDLING, `m <id> <user> <activity>`. -/
def move_task (k : Kanban) (id : Int) (user activity : CString) : Option (Result Kanban) :=
  let v := is_move_valid k id user activity
  if v.1 ≠ 0 then
    let started : Option Kanban :=
      if strcmp (k.tasks.task (id - 1)).activity STR_TO_DO = EQUAL then
        let k := { k with tasks := { k.tasks with
          task := store k.tasks.task (id - 1) { k.tasks.task (id - 1) with start := k.now } } }
        match binary_insert k.tasks k.tasks.ordered_by_start id
            k.tasks.first_at_current_time (k.tasks.amount_started - 1) with
        | none => none
        | some order =>
          some { k with tasks := { k.tasks with
            ordered_by_start := order, amount_started := k.tasks.amount_started + 1 } }
      else some k
    match started with
    | none => none
    | some k =>
      let k := { k with tasks := { k.tasks with
        task := store k.tasks.task (id - 1) { k.tasks.task (id - 1) with user := strcpy user } } }
      let k := { k with tasks := { k.tasks with
        task := store k.tasks.task (id - 1)
          { k.tasks.task (id - 1) with activity := strcpy activity } } }
      if strcmp activity STR_DONE = EQUAL then
        let real_duration := to_int (k.now + (2 ^ 32 - (k.tasks.task (id - 1)).start % 2 ^ 32))
        let slack := wrap_int (real_duration - (k.tasks.task (id - 1)).duration)
        some { ret := KEEP_GOING, state := k,
               out := v.2 ++ [Output.move_done real_duration slack] }
      else some { ret := KEEP_GOING, state := k, out := v.2 }
  else some { ret := KEEP_GOING, state := k, out := v.2 }

/-- DISPLAY ACTIVITY HANDLING, `d <activity>`. -/
def display_activity (k : Kanban) (activity : CString) : Result Kanban :=
  let v := is_activity_valid k.activities activity
  if v.1 ≠ 0 then
    if strcmp activity STR_TO_DO = EQUAL then
      { ret := KEEP_GOING, state := k,
        out := v.2 ++ print_activity k activity k.tasks.ordered_by_description k.tasks.amount }
    else
      { ret := KEEP_GOING, state := k,
        out := v.2 ++ print_activity k activity k.tasks.ordered_by_start k.tasks.amount_started }
  else { ret := KEEP_GOING, state := k, out := v.2 }

/-- NEW ACTIVITY HANDLING, `a <activity>`. -/
def new_activity (l : ActivityList) (activity : CString) : Result ActivityList :=
  let v := is_new_activity_valid l activity
  if v.1 ≠ 0 then { ret := KEEP_GOING, state := append_activity l activity, out := v.2 }
  else { ret := KEEP_GOING, state := l, out := v.2 }

/-- LIST ACTIVITIES HANDLING, `a`. -/
def list_activities (l : ActivityList) : Result ActivityList :=
  { ret := KEEP_GOING, state := l,
    out := (List.range l.amount.toNat).map (fun (i : Nat) => Output.activity (l.activity (i : Int))) }

/-- ACTIVITY HANDLING, `a [<activity>]`. -/
def handle_activities (l : ActivityList) (activity : Option CString) : Result ActivityList :=
  match activity with
  | some activity => new_activity l activity
  | none => list_activities l

/-- One line of input: the command character with the values its handler
scans.  `t` carries, besides the two values scanned, the bytes found in the
`user` field of the handler's uninitialised local task. -/
inductive Command where
  | q
  | t (duration : Int) (description : CString) (user : CString)
  | l (ids : Option (List Int))
  | n (time : Int)
  | u (user : Option CString)
  | m (id : Int) (user activity : CString)
  | d (activity : CString)
  | a (activity : Option CString)
  | other
  deriving DecidableEq, Repr

/-- SELECTION FUNCTION -/
def select (k : Kanban) (cmd : Command) : Option (Result Kanban) :=
  match cmd with
  | Command.q => some { ret := STOP, state := k, out := [] }
  | Command.t duration description user =>
    (new_task k.tasks duration description user).map
      (fun r => { ret := r.ret, state := { k with tasks := r.state }, out := r.out })
  | Command.l ids =>
    let r := list_tasks k.tasks ids
    some { ret := r.ret, state := { k with tasks := r.state }, out := r.out }
  | Command.n time => some (advance_time k time)
  | Command.u user =>
    let r := handle_users k.users user
    some { ret := r.ret, state := { k with users := r.state }, out := r.out }
  | Command.m id user activity => move_task k id user activity
  | Command.d activity => some (display_activity k activity)
  | Command.a activity =>
    let r := handle_activities k.activities activity
    some { ret := r.ret, state := { k with activities := r.state }, out := r.out }
  | Command.other => some { ret := KEEP_GOING, state := k, out := [] }

/-- The `while (status == KEEP_GOING)` loop of `main` on the lines of input
`cmds`: the state reached and everything printed, when the input ends or
after the command that stops the loop. -/
def main_loop (k : Kanban) : List Command → Option (Kanban × List Output)
  | [] => some (k, [])
  | cmd :: cmds =>
    match select k cmd with
    | none => none
    | some r =>
      if r.ret = KEEP_GOING then
        match main_loop r.state cmds with
        | none => none
        | some (k, out) => some (k, r.out ++ out)
      else some (r.state, r.out)

/-- MAIN FUNCTION on the input `cmds`, from the uninitialised `kanban`. -/
def main (kanban : Kanban) (cmds : List Command) : Option (Kanban × List Output) :=
  main_loop (setup kanban) cmds

/-! ## Specification vocabulary -/

/-- The vector `order` with `v` put in at position `p`, the cells `p .. hi`
moved one place to the right. -/
def insert_at (order : Int → Int) (p v hi : Int) : Int → Int :=
  fun i => if i = p then v else if p < i ∧ i ≤ hi + 1 then order (i - 1) else order i

/-- The first `n` cells of a vector, as a list. -/
def live (order : Int → Int) (n : Int) : List Int :=
  (List.range n.toNat).map (fun (i : Nat) => order (i : Int))

/-- The facts about a board that every command keeps. -/
structure Inv (k : Kanban) : Prop where
  first_nonneg : 0 ≤ k.tasks.first_at_current_time
  first_le : k.tasks.first_at_current_time ≤ k.tasks.amount_started
  amount_nonneg : 0 ≤ k.tasks.amount
  amount_le : k.tasks.amount ≤ AMT_TASKS
  now_lt : k.now < 2 ^ 32
  descr_range : ∀ i, 0 ≤ i → i < k.tasks.amount →
    0 ≤ k.tasks.ordered_by_description i ∧ k.tasks.ordered_by_description i < k.tasks.amount
  descr_sorted : ∀ i j, 0 ≤ i → i < j → j < k.tasks.amount →
    strcmp (k.tasks.task (k.tasks.ordered_by_description i)).description
      (k.tasks.task (k.tasks.ordered_by_description j)).description < 0
  descr_onto : ∀ t, 0 ≤ t → t < k.tasks.amount →
    ∃ i, 0 ≤ i ∧ i < k.tasks.amount ∧ k.tasks.ordered_by_description i = t
  descr_unique : ∀ a b, 0 ≤ a → a < k.tasks.amount → 0 ≤ b → b < k.tasks.amount → a ≠ b →
    strcmp (k.tasks.task a).description (k.tasks.task b).description ≠ 0
  start_range : ∀ i, 0 ≤ i → i < k.tasks.amount_started →
    0 ≤ k.tasks.ordered_by_start i ∧ k.tasks.ordered_by_start i < k.tasks.amount
  start_active : ∀ i, 0 ≤ i → i < k.tasks.amount_started →
    strcmp (k.tasks.task (k.tasks.ordered_by_start i)).activity STR_TO_DO ≠ 0
  start_inj : ∀ i j, 0 ≤ i → i < j → j < k.tasks.amount_started →
    k.tasks.ordered_by_start i ≠ k.tasks.ordered_by_start j
  start_onto : ∀ t, 0 ≤ t → t < k.tasks.amount →
    strcmp (k.tasks.task t).activity STR_TO_DO ≠ 0 →
    ∃ i, 0 ≤ i ∧ i < k.tasks.amount_started ∧ k.tasks.ordered_by_start i = t
  window_sorted : ∀ i j, k.tasks.first_at_current_time ≤ i → i < j → j < k.tasks.amount_started →
    strcmp (k.tasks.task (k.tasks.ordered_by_start i)).description
      (k.tasks.task (k.tasks.ordered_by_start j)).description < 0
  window_now : ∀ i, k.tasks.first_at_current_time ≤ i → i < k.tasks.amount_started →
    (k.tasks.task (k.tasks.ordered_by_start i)).start = k.now

/-- The record that `new_task` fills in before it validates and appends it. -/
def fresh_task (duration : Int) (description user : CString) : Task :=
  { description := description, user := user, activity := strcpy STR_TO_DO,
    duration := duration, start := 0 }

/-- The line `move_task` prints after an accepted move: the real duration and
the slack when the target activity is "DONE", nothing otherwise. -/
def move_report (now start : Nat) (duration : Int) (activity : CString) : List Output :=
  if strcmp activity STR_DONE = EQUAL then
    [Output.move_done (to_int (now + (2 ^ 32 - start % 2 ^ 32)))
      (wrap_int (to_int (now + (2 ^ 32 - start % 2 ^ 32)) - duration))]
  else []

/-- The task list after an accepted move of a task that had been started. -/
def moved_started (l : TaskList) (id : Int) (user activity : CString) : TaskList :=
  { l with
    task := store l.task (id - 1)
      { l.task (id - 1) with user := strcpy user, activity := strcpy activity } }

/-- The task list in which `move_task` calls `binary_insert`: the start of
the task is stamped, its activity is still "TO DO". -/
def stamped (l : TaskList) (id : Int) (now : Nat) : TaskList :=
  { l with task := store l.task (id - 1) { l.task (id - 1) with start := now } }

/-- The task list after an accepted move of a task out of "TO DO". -/
def moved_to_do (l : TaskList) (id : Int) (now : Nat) (user activity : CString) : TaskList :=
  { l with
    task := store l.task (id - 1)
      { l.task (id - 1) with start := now, user := strcpy user, activity := strcpy activity },
    ordered_by_start := insert_at l.ordered_by_start
      (binary_insert_pos (stamped l id now) l.ordered_by_start id l.first_at_current_time
        (l.amount_started - 1)) (id - 1) (l.amount_started - 1),
    amount_started := l.amount_started + 1 }

/-- The task list after an accepted `new_task`. -/
def created (l : TaskList) (duration : Int) (description user : CString) : TaskList :=
  { l with
    task := store l.task l.amount (fresh_task duration description user),
    amount := l.amount + 1,
    ordered_by_description := insert_at l.ordered_by_description
      (binary_insert_pos (append_task l (fresh_task duration description user))
        l.ordered_by_description (l.amount + 1) 0 (l.amount - 1)) l.amount (l.amount - 1) }

/-- The ids that the "task %d" lines of an output report, in order. -/
def reported_ids : List Output → List Int
  | [] => []
  | Output.new_task id :: out => id :: reported_ids out
  | _ :: out => reported_ids out

/-- What one command does to the clock and the task list: the five ways a
command can act on them. -/
inductive Effect (k : Kanban) (cmd : Command) (r : Result Kanban) : Prop where
  /-- Clock and task list are untouched and no id is reported. -/
  | idle (hnow : r.state.now = k.now) (htasks : r.state.tasks = k.tasks)
      (hout : reported_ids r.out = [])
      (hcmd : ∀ time, cmd = Command.n time → time < 0)
  /-- An accepted `n`. -/
  | advance (time : Int) (hcmd : cmd = Command.n time) (htime : 0 ≤ time)
      (hnow : r.state.now = (k.now + time.toNat) % 2 ^ 32)
      (htasks : r.state.tasks =
        { k.tasks with first_at_current_time := k.tasks.amount_started })
      (hout : reported_ids r.out = [])
  /-- An accepted `t`. -/
  | create (duration : Int) (description user : CString)
      (hcmd : cmd = Command.t duration description user)
      (hvalid : (is_new_task_valid k.tasks (fresh_task duration description user)).1 ≠ 0)
      (hnow : r.state.now = k.now)
      (htasks : r.state.tasks = created k.tasks duration description user)
      (hout : r.out = [Output.new_task (k.tasks.amount + 1)])
  /-- An accepted `m` of a task that had left "TO DO" before. -/
  | move (id : Int) (user activity : CString) (hcmd : cmd = Command.m id user activity)
      (hvalid : (is_move_valid k id user activity).1 ≠ 0)
      (hstarted : strcmp (k.tasks.task (id - 1)).activity STR_TO_DO ≠ 0)
      (hnow : r.state.now = k.now)
      (htasks : r.state.tasks = moved_started k.tasks id user activity)
      (hout : reported_ids r.out = [])
  /-- An accepted `m` of a task in "TO DO". -/
  | start (id : Int) (user activity : CString) (hcmd : cmd = Command.m id user activity)
      (hvalid : (is_move_valid k id user activity).1 ≠ 0)
      (hto_do : strcmp (k.tasks.task (id - 1)).activity STR_TO_DO = 0)
      (hnow : r.state.now = k.now)
      (htasks : r.state.tasks = moved_to_do k.tasks id k.now user activity)
      (hout : reported_ids r.out = [])

/-- Task index `x` stands before task index `y` in the start-time index. -/
def Before (l : TaskList) (x y : Int) : Prop :=
  ∃ i j, 0 ≤ i ∧ i < j ∧ j < l.amount_started ∧
    l.ordered_by_start i = x ∧ l.ordered_by_start j = y

/-- Task index `x` stands in the current window of the start-time index, the
positions from `first_at_current_time` on. -/
def InWindow (l : TaskList) (x : Int) : Prop :=
  ∃ i, l.first_at_current_time ≤ i ∧ i < l.amount_started ∧ l.ordered_by_start i = x

/-- The time that the accepted `n` commands of an input add to the clock, up
to the command that stops the loop. -/
def clock_sum : List Command → Nat
  | [] => 0
  | Command.q :: _ => 0
  | Command.n time :: cmds => time.toNat + clock_sum cmds
  | _ :: cmds => clock_sum cmds

/-- The start-time index is in order of start time, and no start time is
later than the clock. -/
structure StartSorted (k : Kanban) : Prop where
  sorted : ∀ i j, 0 ≤ i → i < j → j < k.tasks.amount_started →
    (k.tasks.task (k.tasks.ordered_by_start i)).start ≤
      (k.tasks.task (k.tasks.ordered_by_start j)).start
  le_now : ∀ i, 0 ≤ i → i < k.tasks.amount_started →
    (k.tasks.task (k.tasks.ordered_by_start i)).start ≤ k.now

/-! ## Sample data -/

/-- A `Kanban` whose memory is all zero, a sample of what `main` hands to `setup`. -/
def zeroed : Kanban :=
  { now := 0
    users := { user := fun _ => [], amount := 0 }
    activities := { activity := fun _ => [], amount := 0 }
    tasks :=
      { task := fun _ => { description := [], user := [], activity := [], duration := 0, start := 0 }
        ordered_by_description := fun _ => 0
        amount := 0
        ordered_by_start := fun _ => 0
        first_at_current_time := 0
        amount_started := 0 } }

/-- The bytes of "u". -/
def str_u : CString := [117]
/-- The bytes of "a". -/
def str_a : CString := [97]
/-- The bytes of "b". -/
def str_b : CString := [98]
/-- The bytes of "c". -/
def str_c : CString := [99]
/-- The bytes of "banana". -/
def str_banana : CString := [98, 97, 110, 97, 110, 97]
/-- The bytes of "apple". -/
def str_apple : CString := [97, 112, 112, 108, 101]
/-- The bytes of "cherry". -/
def str_cherry : CString := [99, 104, 101, 114, 114, 121]

/-- The state that `main` reaches on an input, `zeroed` should the run fault. -/
def reached (cmds : List Command) : Kanban :=
  match main zeroed cmds with
  | some r => r.1
  | none => zeroed

/-- The lines that `main` prints on an input, none should the run fault. -/
def printed (cmds : List Command) : List Output :=
  match main zeroed cmds with
  | some r => r.2
  | none => []

/-- The insertion position in the words of the specification: `p` is the
leftmost position of `[lo, hi]` whose entry has a description that is not
strictly greater than the description of the new task `id`. -/
def leftmost_not_greater (l : TaskList) (order : Int → Int) (id lo hi p : Int) : Prop :=
  lo ≤ p ∧ p ≤ hi ∧
  ¬ strcmp (l.task (order p)).description (l.task (id - 1)).description > 0 ∧
  ∀ q, lo ≤ q → q < p →
    strcmp (l.task (order q)).description (l.task (id - 1)).description > 0

/-- The insertion position that the code computes: `p` is the leftmost
position of `[lo, hi]` whose entry has a description strictly greater than the
description of the new task `id`, and `hi + 1` when there is none. -/
def leftmost_greater (l : TaskList) (order : Int → Int) (id lo hi p : Int) : Prop :=
  lo ≤ p ∧ p ≤ hi + 1 ∧
  (p ≤ hi → strcmp (l.task (order p)).description (l.task (id - 1)).description > 0) ∧
  ∀ q, lo ≤ q → q < p →
    ¬ strcmp (l.task (order q)).description (l.task (id - 1)).description > 0

/-- Input: user "u"; tasks "b" (id 1) and "a" (id 2). -/
def window_pre : List Command :=
  [Command.u (some str_u), Command.t 1 str_b [], Command.t 1 str_a []]

/-- Input: after `window_pre`, task 1 ("b") is moved to "IN PROGRESS", then
task 2 ("a"), the clock staying at 0. -/
def window_cmds : List Command :=
  window_pre ++ [Command.m 1 str_u STR_IN_PROGRESS, Command.m 2 str_u STR_IN_PROGRESS]

/-- Input: user "u"; tasks "a" and "b"; at clock 5 task 1 is moved; the clock
is advanced twice by 2147483647, which leaves it at 3; task 2 is moved. -/
def wrap_cmds : List Command :=
  [Command.u (some str_u), Command.t 1 str_a [], Command.t 1 str_b [], Command.n 5,
   Command.m 1 str_u STR_IN_PROGRESS, Command.n 2147483647, Command.n 2147483647,
   Command.m 2 str_u STR_IN_PROGRESS]

/-- Input: user "u"; tasks "banana", "apple", "cherry"; task 1 is moved at
clock 0, task 3 at clock 5. -/
def fruit_cmds : List Command :=
  [Command.u (some str_u), Command.t 3 str_banana [], Command.t 2 str_apple [],
   Command.t 1 str_cherry [], Command.m 1 str_u STR_IN_PROGRESS, Command.n 5,
   Command.m 3 str_u STR_DONE]

/-- The task list in which `new_task` calls `binary_insert` for a third task
"b" after tasks "a" and "c": the index holds `[0, 1]`, the call is
`binary_insert l order 3 0 1`. -/
def abc_list : TaskList :=
  append_task (reached [Command.t 1 str_a [], Command.t 1 str_c []]).tasks
    (fresh_task 1 str_b [])

/-- Input: the clock is advanced to `4294967295`, the greatest 32-bit value. -/
def clock_max_cmds : List Command :=
  [Command.n 2147483647, Command.n 2147483647, Command.n 1]

/-- Input: the clock is advanced to `4294967294`. -/
def clock_high_cmds : List Command :=
  [Command.n 2147483647, Command.n 2147483647]

/-- Every start time of a task of the list fits 32 bits. -/
def StartBound (k : Kanban) : Prop :=
  ∀ t, 0 ≤ t → t < k.tasks.amount → (k.tasks.task t).start < 2 ^ 32

/-- Input: user "u"; task "a" of duration 4 is moved to "IN PROGRESS" at
clock 0; the clock is advanced to 6. -/
def slack_cmds : List Command :=
  [Command.u (some str_u), Command.t 4 str_a [], Command.m 1 str_u STR_IN_PROGRESS,
   Command.n 6]

/-- Input: user "u"; task "a" of duration 4 is moved to "IN PROGRESS" at
clock 0; the clock is advanced to `2147483648`. -/
def long_cmds : List Command :=
  [Command.u (some str_u), Command.t 4 str_a [], Command.m 1 str_u STR_IN_PROGRESS,
   Command.n 2147483647, Command.n 1]

/-- Input: user "u" and task "a", still in "TO DO". -/
def to_do_cmds : List Command :=
  [Command.u (some str_u), Command.t 1 str_a []]

/-- The line that `print_activity` prints for the task in cell `x`. -/
def display_line (l : TaskList) (x : Int) : Output :=
  Output.display (x + 1) (l.task x).start (l.task x).description

/-- The test of `print_activity`: the task in cell `x` is in `activity`. -/
def in_activity (l : TaskList) (activity : CString) (x : Int) : Bool :=
  decide (strcmp (l.task x).activity activity = EQUAL)

/-- The task indices that `display_activity` lists for `activity`, in the
order of the listing: the entries of the description index when the activity
is "TO DO", of the start-time index otherwise, whose task is in `activity`. -/
def listed (k : Kanban) (activity : CString) : List Int :=
  if strcmp activity STR_TO_DO = EQUAL then
    (live k.tasks.ordered_by_description k.tasks.amount).filter (in_activity k.tasks activity)
  else
    (live k.tasks.ordered_by_start k.tasks.amount_started).filter
      (in_activity k.tasks activity)

/-- The loop of `binary_insert` with a log: the pair `(start, end)` that
`binary_insert_loop` computes, and the values that `mid` takes, the positions
of `order` that the loop reads, in the order of the iterations. -/
def binary_insert_trace (l : TaskList) (order : Int → Int) (id : Int) :
    Nat → Int → Int → (Int × Int) × List Int
  | 0, start, end_ => ((start, end_), [])
  | n + 1, start, end_ =>
    if end_ ≥ start then
      let mid := (start + end_).tdiv 2
      if strcmp (l.task (order mid)).description (l.task (id - 1)).description > 0 then
        ((binary_insert_trace l order id n start (mid - 1)).1,
          mid :: (binary_insert_trace l order id n start (mid - 1)).2)
      else
        ((binary_insert_trace l order id n (mid + 1) end_).1,
          mid :: (binary_insert_trace l order id n (mid + 1) end_).2)
    else ((start, end_), [])

/-- The positions of `order` that the loop of a call of `binary_insert` reads. -/
def binary_insert_reads (l : TaskList) (order : Int → Int) (id start end_ : Int) : List Int :=
  (binary_insert_trace l order id (end_ - start + 1).toNat start end_).2

/-- A call `binary_insert(l, order, id, lo, hi)` on an index of `len` live
entries stays inside the arrays: the range gives a shift length that is not
negative; the loop reads live positions only, which hold indices of tasks of
the list, as `id - 1` is; the position written is at most `len`, which is
below `AMT_TASKS`; the cells that `memmove` reads are live and the cells it
writes end at `len`; and the call returns. -/
structure SafeCall (l : TaskList) (order : Int → Int) (len id lo hi : Int) : Prop where
  range : 0 ≤ lo ∧ lo ≤ hi + 1
  shift : 0 ≤ hi - (binary_insert_pos l order id lo hi - 1)
  reads : ∀ m ∈ binary_insert_reads l order id lo hi,
    0 ≤ m ∧ m < len ∧ 0 ≤ order m ∧ order m < l.amount
  new_task_index : 0 ≤ id - 1 ∧ id - 1 < l.amount
  amount_le : l.amount ≤ AMT_TASKS
  written : 0 ≤ binary_insert_pos l order id lo hi ∧ binary_insert_pos l order id lo hi ≤ len
  len_lt : len < AMT_TASKS
  moved_from : binary_insert_pos l order id lo hi +
    (hi - (binary_insert_pos l order id lo hi - 1)) ≤ len
  moved_to : binary_insert_pos l order id lo hi + 1 +
    (hi - (binary_insert_pos l order id lo hi - 1)) ≤ len + 1
  returns : ∃ order2, binary_insert l order id lo hi = some order2

/-- The entries of the start-time index before the current window started
before the current clock value, and entries with equal start time stand in
strictly increasing order of description. -/
structure PairSorted (k : Kanban) : Prop where
  before_window : ∀ i, 0 ≤ i → i < k.tasks.first_at_current_time →
    (k.tasks.task (k.tasks.ordered_by_start i)).start < k.now
  ties : ∀ i j, 0 ≤ i → i < j → j < k.tasks.amount_started →
    (k.tasks.task (k.tasks.ordered_by_start i)).start =
      (k.tasks.task (k.tasks.ordered_by_start j)).start →
    strcmp (k.tasks.task (k.tasks.ordered_by_start i)).description
      (k.tasks.task (k.tasks.ordered_by_start j)).description < 0

/-- Input: after `window_pre`, task 1 ("b") is moved to "IN PROGRESS", the
command `n 0` is given, and task 2 ("a") is moved, the clock staying at 0. -/
def zero_advance_cmds : List Command :=
  window_pre ++ [Command.m 1 str_u STR_IN_PROGRESS, Command.n 0,
    Command.m 2 str_u STR_IN_PROGRESS]

/-- The strings that the handler of a command scans fit the arrays it scans
them into, the terminator included: a description the `TASK_DESCRIPTION_SZ`
bytes of `Task.description`, a user `USER_SZ` bytes, an activity
`ACTIVITY_SZ` bytes. -/
def fits : Command → Bool
  | Command.t _ description _ => decide (strlen description < TASK_DESCRIPTION_SZ)
  | Command.u (some user) => decide (strlen user < USER_SZ)
  | Command.m _ user activity =>
    decide (strlen user < USER_SZ) && decide (strlen activity < ACTIVITY_SZ)
  | Command.d activity => decide (strlen activity < ACTIVITY_SZ)
  | Command.a (some activity) => decide (strlen activity < ACTIVITY_SZ)
  | _ => true

/-- Every description of the task list lies inside its own array of
`TASK_DESCRIPTION_SZ` bytes, the terminator included. -/
def DescriptionsFit (l : TaskList) : Prop :=
  ∀ i, 0 ≤ i → i < l.amount → strlen (l.task i).description < TASK_DESCRIPTION_SZ

/-- The effect of a call `binary_insert(l, order, id, lo, hi)` on an empty
range: the call returns, the loop leaves `start` at `lo`, the shift length
`sz` is zero, `id - 1` is written at position `lo` and every other cell of
`order` keeps its value. -/
def empty_range_write (l : TaskList) (order : Int → Int) (id lo hi : Int) : Prop :=
  ∃ order2, binary_insert l order id lo hi = some order2 ∧
    binary_insert_pos l order id lo hi = lo ∧
    hi - (binary_insert_pos l order id lo hi - 1) = 0 ∧
    order2 lo = id - 1 ∧ ∀ i, i ≠ lo → order2 i = order i

/-! ## The byte strings -/

/-- The constants and sample strings are the bytes of the texts they are
named after. -/
theorem string_bytes :
    "TO DO".toList.map Char.toNat = STR_TO_DO ∧
    "IN PROGRESS".toList.map Char.toNat = STR_IN_PROGRESS ∧
    "DONE".toList.map Char.toNat = STR_DONE ∧
    "banana".toList.map Char.toNat = str_banana ∧
    "apple".toList.map Char.toNat = str_apple ∧
    "cherry".toList.map Char.toNat = str_cherry ∧
    "abcu".toList.map Char.toNat = str_a ++ str_b ++ str_c ++ str_u := by
  decide

/-! ## Order of `strcmp` -/

theorem strcmp_self (a : CString) : strcmp a a = 0 := by
  induction a with
  | nil => simp [strcmp]
  | cons x s ih => simp [strcmp, ih]

theorem strcmp_swap (a b : CString) : strcmp b a = - strcmp a b := by
  induction a generalizing b with
  | nil => cases b <;> simp [strcmp]
  | cons x s ih =>
    cases b with
    | nil => simp [strcmp]
    | cons y t =>
      simp only [strcmp]
      by_cases hxy : x = y
      · subst hxy
        by_cases h0 : x = 0
        · simp [h0]
        · simp [h0, ih t]
      · have hyx : ¬ y = x := fun h => hxy h.symm
        simp [hxy, hyx]

/-- The sign of `strcmp` is a total preorder: the two composition rules. -/
theorem strcmp_trans (a b c : CString) :
    (strcmp a b ≤ 0 → strcmp b c ≤ 0 → strcmp a c ≤ 0) ∧
    (strcmp a b ≤ 0 → strcmp b c < 0 → strcmp a c < 0) ∧
    (strcmp a b < 0 → strcmp b c ≤ 0 → strcmp a c < 0) := by
  induction a generalizing b c with
  | nil =>
    cases b with
    | nil => cases c <;> simp [strcmp]
    | cons y t =>
      cases c with
      | nil => simp [strcmp]; omega
      | cons z u =>
        simp only [strcmp]
        split_ifs <;> omega
  | cons x s ih =>
    cases b with
    | nil =>
      cases c with
      | nil => simp [strcmp]
      | cons z u =>
        simp only [strcmp]
        split_ifs <;> omega
    | cons y t =>
      cases c with
      | nil =>
        simp only [strcmp]
        split_ifs <;> omega
      | cons z u =>
        have := ih t u
        simp only [strcmp]
        split_ifs <;> omega

theorem strcmp_strcpy_left (s t : CString) : strcmp (strcpy s) t = strcmp s t := by
  induction s generalizing t with
  | nil => simp [strcpy]
  | cons x s ih =>
    have ih2 : ∀ t, strcmp (List.takeWhile (fun c => decide (c ≠ 0)) s) t = strcmp s t := ih
    cases t with
    | nil =>
      by_cases h0 : x = 0
      · simp [strcpy, List.takeWhile, h0, strcmp]
      · simp [strcpy, List.takeWhile, h0, strcmp]
    | cons y u =>
      by_cases h0 : x = 0
      · subst h0
        by_cases hy : y = 0
        · subst hy; simp [strcpy, List.takeWhile, strcmp]
        · have : ¬ 0 = y := fun h => hy h.symm
          simp [strcpy, List.takeWhile, strcmp, this]
      · have ih3 := ih u
        simp only [strcpy] at ih3
        simp only [strcpy, List.takeWhile, h0, strcmp, ne_eq, not_false_eq_true, decide_True,
          if_false, ih3, ite_not]

theorem tdiv_mid (s e : Int) (h : s ≤ e) : s ≤ (s + e).tdiv 2 ∧ (s + e).tdiv 2 ≤ e := by
  by_cases h0 : 0 ≤ s + e
  · rw [Int.tdiv_eq_ediv h0 (by decide)]
    omega
  · have h1 : (s + e).tdiv 2 = -((-(s + e)).tdiv 2) := by
      rw [Int.neg_tdiv]; simp
    rw [h1, Int.tdiv_eq_ediv (by omega) (by decide)]
    omega

theorem binary_insert_loop_spec (l : TaskList) (order : Int → Int) (id : Int) (n : Nat) :
    ∀ s e : Int, (e - s + 1).toNat ≤ n → s ≤ e + 1 →
      s ≤ (binary_insert_loop l order id n s e).1 ∧
      (binary_insert_loop l order id n s e).1 ≤ e + 1 ∧
      (binary_insert_loop l order id n s e).2 = (binary_insert_loop l order id n s e).1 - 1 ∧
      ((binary_insert_loop l order id n s e).1 = s ∨
        ¬ strcmp (l.task (order ((binary_insert_loop l order id n s e).1 - 1))).description
            (l.task (id - 1)).description > 0) ∧
      ((binary_insert_loop l order id n s e).1 = e + 1 ∨
        strcmp (l.task (order (binary_insert_loop l order id n s e).1)).description
            (l.task (id - 1)).description > 0) := by
  induction n with
  | zero =>
    intro s e hn hse
    have : e = s - 1 := by omega
    subst this
    simp [binary_insert_loop]
  | succ n ih =>
    intro s e hn hse
    by_cases hc : e ≥ s
    · have hm := tdiv_mid s e hc
      by_cases hg : strcmp (l.task (order ((s + e).tdiv 2))).description
          (l.task (id - 1)).description > 0
      · have hr : binary_insert_loop l order id (n + 1) s e =
            binary_insert_loop l order id n s ((s + e).tdiv 2 - 1) := by
          simp [binary_insert_loop, hc, hg]
        rw [hr]
        obtain ⟨h1, h2, h3, h4, h5⟩ := ih s ((s + e).tdiv 2 - 1) (by omega) (by omega)
        refine ⟨h1, by omega, h3, h4, ?_⟩
        rcases h5 with h5 | h5
        · right
          have : (binary_insert_loop l order id n s ((s + e).tdiv 2 - 1)).1 = (s + e).tdiv 2 := by
            omega
          rw [this]; exact hg
        · right; exact h5
      · have hr : binary_insert_loop l order id (n + 1) s e =
            binary_insert_loop l order id n ((s + e).tdiv 2 + 1) e := by
          simp [binary_insert_loop, hc, hg]
        rw [hr]
        obtain ⟨h1, h2, h3, h4, h5⟩ := ih ((s + e).tdiv 2 + 1) e (by omega) (by omega)
        refine ⟨by omega, h2, h3, ?_, h5⟩
        rcases h4 with h4 | h4
        · right
          have : (binary_insert_loop l order id n ((s + e).tdiv 2 + 1) e).1 - 1 =
              (s + e).tdiv 2 := by omega
          rw [this]; exact hg
        · right; exact h4
    · have : e = s - 1 := by omega
      subst this
      simp [binary_insert_loop]

/-- The loop of `binary_insert` is left within `end - start + 1` iterations:
after that many the condition `end >= start` is false. -/
theorem binary_insert_loop_exit (l : TaskList) (order : Int → Int) (id lo hi : Int) :
    ¬ (binary_insert_loop l order id (hi - lo + 1).toNat lo hi).2 ≥
      (binary_insert_loop l order id (hi - lo + 1).toNat lo hi).1 := by
  by_cases h : lo ≤ hi + 1
  · obtain ⟨_, _, h3, _, _⟩ :=
      binary_insert_loop_spec l order id (hi - lo + 1).toNat lo hi (le_refl _) h
    omega
  · have h0 : (hi - lo + 1).toNat = 0 := by omega
    rw [h0]
    simp only [binary_insert_loop]
    omega

/-- The position chosen lies in `[start, end + 1]`; the entry to its left, if
any, is not greater than the new description, the entry at it, if any, is. -/
theorem binary_insert_pos_local (l : TaskList) (order : Int → Int) (id lo hi : Int)
    (h : lo ≤ hi + 1) :
    lo ≤ binary_insert_pos l order id lo hi ∧ binary_insert_pos l order id lo hi ≤ hi + 1 ∧
    (binary_insert_pos l order id lo hi = lo ∨
      strcmp (l.task (order (binary_insert_pos l order id lo hi - 1))).description
        (l.task (id - 1)).description ≤ 0) ∧
    (binary_insert_pos l order id lo hi = hi + 1 ∨
      strcmp (l.task (order (binary_insert_pos l order id lo hi))).description
        (l.task (id - 1)).description > 0) := by
  obtain ⟨h1, h2, _, h4, h5⟩ :=
    binary_insert_loop_spec l order id (hi - lo + 1).toNat lo hi (le_refl _) h
  refine ⟨h1, h2, ?_, h5⟩
  rcases h4 with h4 | h4
  · exact Or.inl h4
  · exact Or.inr (not_lt.mp h4)

theorem binary_insert_pos_empty (l : TaskList) (order : Int → Int) (id lo hi : Int)
    (h : hi < lo) : binary_insert_pos l order id lo hi = lo := by
  have h0 : (hi - lo + 1).toNat = 0 := by omega
  simp [binary_insert_pos, h0, binary_insert_loop]

/-- On a range sorted by description the position chosen splits the range:
entries to the left are not greater than the new description, entries from
the position on are greater. -/
theorem binary_insert_pos_sorted (l : TaskList) (order : Int → Int) (id lo hi : Int)
    (h : lo ≤ hi + 1)
    (hs : ∀ i j, lo ≤ i → i ≤ j → j ≤ hi →
      strcmp (l.task (order i)).description (l.task (order j)).description ≤ 0) :
    (∀ i, lo ≤ i → i < binary_insert_pos l order id lo hi →
      strcmp (l.task (order i)).description (l.task (id - 1)).description ≤ 0) ∧
    (∀ i, binary_insert_pos l order id lo hi ≤ i → i ≤ hi →
      strcmp (l.task (order i)).description (l.task (id - 1)).description > 0) := by
  obtain ⟨h1, h2, h3, h4⟩ := binary_insert_pos_local l order id lo hi h
  constructor
  · intro i hi1 hi2
    rcases h3 with h3 | h3
    · omega
    · exact (strcmp_trans _ _ _).1
        (hs i (binary_insert_pos l order id lo hi - 1) hi1 (by omega) (by omega)) h3
  · intro i hi1 hi2
    rcases h4 with h4 | h4
    · omega
    · have h5 := hs (binary_insert_pos l order id lo hi) i h1 hi1 hi2
      have h6 := (strcmp_trans (l.task (id - 1)).description
        (l.task (order (binary_insert_pos l order id lo hi))).description
        (l.task (order i)).description).2.2
      rw [strcmp_swap (l.task (order (binary_insert_pos l order id lo hi))).description
        (l.task (id - 1)).description] at h6
      rw [strcmp_swap (l.task (order i)).description (l.task (id - 1)).description] at h6
      omega

/-- The vector after an insertion at position `p` of a range that ends at `hi`. -/
theorem binary_insert_eq (l : TaskList) (order : Int → Int) (id lo hi : Int)
    (h : lo ≤ hi + 1) :
    binary_insert l order id lo hi =
      some (insert_at order (binary_insert_pos l order id lo hi) (id - 1) hi) := by
  obtain ⟨h1, h2, _, _⟩ := binary_insert_pos_local l order id lo hi h
  have hsz : ¬ (hi - (binary_insert_pos l order id lo hi - 1) < 0) := by omega
  simp only [binary_insert, hsz, if_false]
  congr 1
  funext i
  simp only [store, memmove, insert_at]
  by_cases hi1 : i = binary_insert_pos l order id lo hi
  · simp [hi1]
  · simp only [hi1, if_false]
    by_cases hi2 : binary_insert_pos l order id lo hi < i ∧ i ≤ hi + 1
    · have : binary_insert_pos l order id lo hi + 1 ≤ i ∧
        i < binary_insert_pos l order id lo hi + 1 +
          (hi - (binary_insert_pos l order id lo hi - 1)) := by omega
      rw [if_pos this, if_pos hi2]
      congr 1; omega
    · have : ¬ (binary_insert_pos l order id lo hi + 1 ≤ i ∧
        i < binary_insert_pos l order id lo hi + 1 +
          (hi - (binary_insert_pos l order id lo hi - 1))) := by omega
      rw [if_neg this, if_neg hi2]


/-! ## Insertion into a vector -/

theorem insert_at_pairs (R : Int → Int → Prop) (order : Int → Int) (lo p v hi : Int)
    (h1 : lo ≤ p) (h2 : p ≤ hi + 1)
    (hold : ∀ i j, lo ≤ i → i < j → j ≤ hi → R (order i) (order j))
    (hleft : ∀ i, lo ≤ i → i < p → R (order i) v)
    (hright : ∀ i, p ≤ i → i ≤ hi → R v (order i)) :
    ∀ i j, lo ≤ i → i < j → j ≤ hi + 1 →
      R (insert_at order p v hi i) (insert_at order p v hi j) := by
  intro i j hi1 hij hj
  simp only [insert_at]
  by_cases hip : i = p
  · have hjp : ¬ j = p := by omega
    have hj2 : p < j ∧ j ≤ hi + 1 := by omega
    rw [if_pos hip, if_neg hjp, if_pos hj2]
    exact hright (j - 1) (by omega) (by omega)
  · rw [if_neg hip]
    by_cases hjp : j = p
    · have hi2 : ¬ (p < i ∧ i ≤ hi + 1) := by omega
      rw [if_pos hjp, if_neg hi2]
      exact hleft i hi1 (by omega)
    · rw [if_neg hjp]
      by_cases hi2 : p < i ∧ i ≤ hi + 1
      · have hj2 : p < j ∧ j ≤ hi + 1 := by omega
        rw [if_pos hi2, if_pos hj2]
        exact hold (i - 1) (j - 1) (by omega) (by omega) (by omega)
      · rw [if_neg hi2]
        by_cases hj2 : p < j ∧ j ≤ hi + 1
        · rw [if_pos hj2]
          exact hold i (j - 1) hi1 (by omega) (by omega)
        · rw [if_neg hj2]
          exact hold i j hi1 hij (by omega)

theorem insert_at_all (P : Int → Prop) (order : Int → Int) (lo p v hi : Int)
    (h1 : lo ≤ p) (h2 : p ≤ hi + 1) (hold : ∀ i, lo ≤ i → i ≤ hi → P (order i)) (hv : P v) :
    ∀ i, lo ≤ i → i ≤ hi + 1 → P (insert_at order p v hi i) := by
  intro i hi1 hi2
  simp only [insert_at]
  by_cases hip : i = p
  · rw [if_pos hip]; exact hv
  · rw [if_neg hip]
    by_cases hi3 : p < i ∧ i ≤ hi + 1
    · rw [if_pos hi3]; exact hold (i - 1) (by omega) (by omega)
    · rw [if_neg hi3]; exact hold i hi1 (by omega)

theorem insert_at_self (order : Int → Int) (p v hi : Int) : insert_at order p v hi p = v := by
  simp [insert_at]

theorem insert_at_old (order : Int → Int) (p v hi i : Int) (h : i ≤ hi) :
    insert_at order p v hi (if i < p then i else i + 1) = order i := by
  simp only [insert_at]
  by_cases hip : i < p
  · have h1 : ¬ i = p := by omega
    have h2 : ¬ (p < i ∧ i ≤ hi + 1) := by omega
    rw [if_pos hip, if_neg h1, if_neg h2]
  · have h1 : ¬ i + 1 = p := by omega
    have h2 : p < i + 1 ∧ i + 1 ≤ hi + 1 := by omega
    rw [if_neg hip, if_neg h1, if_pos h2]
    congr 1; omega

theorem insert_at_onto (order : Int → Int) (lo p v hi t : Int)
    (hold : ∃ i, lo ≤ i ∧ i ≤ hi ∧ order i = t) :
    ∃ i, lo ≤ i ∧ i ≤ hi + 1 ∧ insert_at order p v hi i = t := by
  obtain ⟨i, hi1, hi2, hi3⟩ := hold
  refine ⟨if i < p then i else i + 1, ?_, ?_, ?_⟩
  · split_ifs <;> omega
  · split_ifs <;> omega
  · rw [insert_at_old order p v hi i hi2]; exact hi3

theorem insert_at_below (order : Int → Int) (p v hi i : Int) (h : i < p) :
    insert_at order p v hi i = order i := by
  simp only [insert_at]
  have h1 : ¬ i = p := by omega
  have h2 : ¬ (p < i ∧ i ≤ hi + 1) := by omega
  rw [if_neg h1, if_neg h2]

theorem insert_at_above (order : Int → Int) (p v hi i : Int) (h : hi + 1 < i) (hp : p ≤ hi + 1) :
    insert_at order p v hi i = order i := by
  simp only [insert_at]
  have h1 : ¬ i = p := by omega
  have h2 : ¬ (p < i ∧ i ≤ hi + 1) := by omega
  rw [if_neg h1, if_neg h2]

/-! ## The command handlers, case by case -/

theorem range_any_int (n : Int) (p : Int → Prop) [DecidablePred p] :
    (List.range n.toNat).any (fun (i : Nat) => decide (p (i : Int))) = true ↔
      ∃ i : Int, 0 ≤ i ∧ i < n ∧ p i := by
  rw [List.any_eq_true]
  constructor
  · rintro ⟨i, hi, hp⟩
    rw [List.mem_range] at hi
    exact ⟨(i : Int), by omega, by omega, of_decide_eq_true hp⟩
  · rintro ⟨i, h0, h1, hp⟩
    refine ⟨i.toNat, ?_, ?_⟩
    · rw [List.mem_range]; omega
    · have : ((i.toNat : Nat) : Int) = i := by omega
      rw [this]; exact decide_eq_true hp

theorem is_task_description_duplicate_eq_zero (l : TaskList) (t : Task) :
    is_task_description_duplicate l t = 0 ↔
      ∀ i : Int, 0 ≤ i → i < l.amount → strcmp t.description (l.task i).description ≠ 0 := by
  unfold is_task_description_duplicate
  have h := range_any_int l.amount
    (fun i => strcmp t.description (l.task i).description = EQUAL)
  by_cases hc : (List.range l.amount.toNat).any
      (fun (i : Nat) => decide (strcmp t.description (l.task (i : Int)).description = EQUAL)) = true
  · rw [if_pos hc]
    obtain ⟨i, h0, h1, h2⟩ := h.1 hc
    constructor
    · intro h3; exact absurd h3 (by decide)
    · intro h3; exact absurd h2 (h3 i h0 h1)
  · rw [if_neg hc]
    constructor
    · intro _ i h0 h1 h2
      exact hc (h.2 ⟨i, h0, h1, h2⟩)
    · intro _; rfl

theorem is_new_task_valid_iff (l : TaskList) (t : Task) :
    (is_new_task_valid l t).1 ≠ 0 ↔
      l.amount < AMT_TASKS ∧ is_task_description_duplicate l t = 0 ∧ 0 < t.duration := by
  unfold is_new_task_valid
  split_ifs with h1 h2 h3
  · simp; intro h; omega
  · simp; intro _ h; exact absurd h h2
  · simp; intro _ _; omega
  · simp
    refine ⟨by omega, ?_, by omega⟩
    exact not_not.mp h2

theorem is_new_task_valid_out (l : TaskList) (t : Task) (h : (is_new_task_valid l t).1 ≠ 0) :
    (is_new_task_valid l t).2 = [] := by
  unfold is_new_task_valid at h ⊢
  split_ifs at h ⊢ <;> simp at h ⊢

theorem new_task_reject (l : TaskList) (duration : Int) (description user : CString)
    (h : (is_new_task_valid l (fresh_task duration description user)).1 = 0) :
    new_task l duration description user =
      some ⟨KEEP_GOING, l, (is_new_task_valid l (fresh_task duration description user)).2⟩ := by
  unfold fresh_task at h
  simp only [new_task, h, ne_eq, not_true_eq_false, if_false, fresh_task]

theorem new_task_accept (l : TaskList) (duration : Int) (description user : CString)
    (h : (is_new_task_valid l (fresh_task duration description user)).1 ≠ 0)
    (hn : 0 ≤ l.amount) :
    new_task l duration description user = some ⟨KEEP_GOING,
      { l with
        task := store l.task l.amount (fresh_task duration description user),
        amount := l.amount + 1,
        ordered_by_description := insert_at l.ordered_by_description
          (binary_insert_pos (append_task l (fresh_task duration description user))
            l.ordered_by_description (l.amount + 1) 0 (l.amount - 1)) l.amount (l.amount - 1) },
      [Output.new_task (l.amount + 1)]⟩ := by
  have e1 : l.amount + 1 - 2 = l.amount - 1 := by omega
  have e2 : l.amount + 1 - 1 = l.amount := by omega
  have hb := binary_insert_eq (append_task l (fresh_task duration description user))
    l.ordered_by_description (l.amount + 1) 0 (l.amount - 1) (by omega)
  have ho := is_new_task_valid_out l _ h
  unfold fresh_task at h hb ho ⊢
  simp only [new_task, h, ne_eq, not_false_eq_true, if_true, append_task, e1] at hb ⊢
  rw [hb]
  simp only [ho, List.nil_append, e2]

theorem store_eq {α : Type} (a : Int → α) (i : Int) (v : α) : store a i v i = v := by
  simp [store]

theorem store_ne {α : Type} (a : Int → α) (i j : Int) (v : α) (h : j ≠ i) :
    store a i v j = a j := by
  simp [store, h]

theorem strcmp_ne_swap (a b : CString) (h : strcmp a b ≠ 0) : strcmp b a ≠ 0 := by
  rw [strcmp_swap a b]; omega

theorem new_task_inv (k : Kanban) (hk : Inv k) (duration : Int) (description user : CString) :
    ∃ r, new_task k.tasks duration description user = some r ∧
      Inv { k with tasks := r.state } := by
  by_cases hv : (is_new_task_valid k.tasks (fresh_task duration description user)).1 = 0
  · exact ⟨_, new_task_reject k.tasks duration description user hv, hk⟩
  · refine ⟨_, new_task_accept k.tasks duration description user hv hk.amount_nonneg, ?_⟩
    obtain ⟨hlt, hdup, _⟩ := (is_new_task_valid_iff _ _).1 hv
    rw [is_task_description_duplicate_eq_zero] at hdup
    have hdesc : (fresh_task duration description user).description = description := rfl
    have hact : (fresh_task duration description user).activity = strcpy STR_TO_DO := rfl
    rw [hdesc] at hdup
    generalize ht : fresh_task duration description user = t at hdesc hact
    have hn := hk.amount_nonneg
    -- tasks below the new cell are the old ones
    have hold : ∀ x, x < k.tasks.amount → store k.tasks.task k.tasks.amount t x = k.tasks.task x :=
      fun x hx => store_ne _ _ _ _ (by omega)
    have hnew : store k.tasks.task k.tasks.amount t k.tasks.amount = t := store_eq _ _ _
    have e2 : k.tasks.amount + 1 - 1 = k.tasks.amount := by omega
    obtain ⟨hp1, hp2, _, _⟩ := binary_insert_pos_local (append_task k.tasks t)
      k.tasks.ordered_by_description (k.tasks.amount + 1) 0 (k.tasks.amount - 1) (by omega)
    have hs := binary_insert_pos_sorted (append_task k.tasks t)
      k.tasks.ordered_by_description (k.tasks.amount + 1) 0 (k.tasks.amount - 1) (by omega)
      (by
        intro i j h0 hij hj
        simp only [append_task]
        rw [hold _ (hk.descr_range i h0 (by omega)).2, hold _ (hk.descr_range j (by omega) (by omega)).2]
        rcases eq_or_lt_of_le hij with h | h
        · rw [h, strcmp_self]
        · exact le_of_lt (hk.descr_sorted i j h0 h (by omega)))
    generalize hp : binary_insert_pos (append_task k.tasks t)
      k.tasks.ordered_by_description (k.tasks.amount + 1) 0 (k.tasks.amount - 1) = p at hp1 hp2 hs
    simp only [append_task, e2, hnew, hdesc] at hs
    obtain ⟨hleft, hright⟩ := hs
    have hleft2 : ∀ i, 0 ≤ i → i < p →
        strcmp (k.tasks.task (k.tasks.ordered_by_description i)).description description < 0 := by
      intro i h0 h1
      have h2 := hleft i h0 h1
      rw [hold _ (hk.descr_range i h0 (by omega)).2] at h2
      have h3 := strcmp_ne_swap _ _ (hdup _ (hk.descr_range i h0 (by omega)).1
        (hk.descr_range i h0 (by omega)).2)
      omega
    have hright2 : ∀ i, p ≤ i → i ≤ k.tasks.amount - 1 →
        strcmp description (k.tasks.task (k.tasks.ordered_by_description i)).description < 0 := by
      intro i h0 h1
      have h2 := hright i h0 h1
      rw [hold _ (hk.descr_range i (by omega) (by omega)).2] at h2
      rw [strcmp_swap] at h2
      omega
    refine
      { first_nonneg := hk.first_nonneg
        first_le := hk.first_le
        amount_nonneg := ?_
        amount_le := ?_
        now_lt := hk.now_lt
        descr_range := ?_
        descr_sorted := ?_
        descr_onto := ?_
        descr_unique := ?_
        start_range := ?_
        start_active := ?_
        start_inj := hk.start_inj
        start_onto := ?_
        window_sorted := ?_
        window_now := ?_ }
    · show 0 ≤ k.tasks.amount + 1
      omega
    · show k.tasks.amount + 1 ≤ AMT_TASKS
      omega
    · show ∀ i, 0 ≤ i → i < k.tasks.amount + 1 →
        0 ≤ insert_at k.tasks.ordered_by_description p k.tasks.amount (k.tasks.amount - 1) i ∧
        insert_at k.tasks.ordered_by_description p k.tasks.amount (k.tasks.amount - 1) i <
          k.tasks.amount + 1
      intro i h0 h1
      exact insert_at_all (fun x => 0 ≤ x ∧ x < k.tasks.amount + 1) _ 0 p _ _ hp1 hp2
        (fun i h0 h1 => by
          have := hk.descr_range i h0 (by omega)
          exact ⟨this.1, by omega⟩) ⟨hn, by omega⟩ i h0 (by omega)
    · show ∀ i j, 0 ≤ i → i < j → j < k.tasks.amount + 1 →
        strcmp (store k.tasks.task k.tasks.amount t (insert_at k.tasks.ordered_by_description p
          k.tasks.amount (k.tasks.amount - 1) i)).description
          (store k.tasks.task k.tasks.amount t (insert_at k.tasks.ordered_by_description p
          k.tasks.amount (k.tasks.amount - 1) j)).description < 0
      intro i j h0 hij hj
      refine insert_at_pairs (fun a b => strcmp (store k.tasks.task k.tasks.amount t a).description
        (store k.tasks.task k.tasks.amount t b).description < 0) _ 0 p _ _ hp1 hp2 ?_ ?_ ?_
        i j h0 hij (by omega)
      · intro i j h0 hij hj
        show strcmp _ _ < 0
        rw [hold _ (hk.descr_range i h0 (by omega)).2,
          hold _ (hk.descr_range j (by omega) (by omega)).2]
        exact hk.descr_sorted i j h0 hij (by omega)
      · intro i h0 h1
        show strcmp _ _ < 0
        rw [hold _ (hk.descr_range i h0 (by omega)).2, hnew, hdesc]
        exact hleft2 i h0 h1
      · intro i h0 h1
        show strcmp _ _ < 0
        rw [hold _ (hk.descr_range i (by omega) (by omega)).2, hnew, hdesc]
        exact hright2 i h0 h1
    · show ∀ x, 0 ≤ x → x < k.tasks.amount + 1 → ∃ i, 0 ≤ i ∧ i < k.tasks.amount + 1 ∧
        insert_at k.tasks.ordered_by_description p k.tasks.amount (k.tasks.amount - 1) i = x
      intro x h0 h1
      by_cases hx : x = k.tasks.amount
      · exact ⟨p, hp1, by omega, by rw [insert_at_self, hx]⟩
      · obtain ⟨i, hi0, hi1, hi2⟩ := hk.descr_onto x h0 (by omega)
        obtain ⟨j, hj0, hj1, hj2⟩ := insert_at_onto k.tasks.ordered_by_description 0 p
          k.tasks.amount (k.tasks.amount - 1) x ⟨i, hi0, by omega, hi2⟩
        exact ⟨j, hj0, by omega, hj2⟩
    · show ∀ a b, 0 ≤ a → a < k.tasks.amount + 1 → 0 ≤ b → b < k.tasks.amount + 1 → a ≠ b →
        strcmp (store k.tasks.task k.tasks.amount t a).description
          (store k.tasks.task k.tasks.amount t b).description ≠ 0
      intro a b ha0 ha1 hb0 hb1 hab
      by_cases ha : a = k.tasks.amount
      · have hb : b < k.tasks.amount := by omega
        rw [ha, hnew, hold b hb, hdesc]
        exact hdup b hb0 hb
      · have ha2 : a < k.tasks.amount := by omega
        by_cases hb : b = k.tasks.amount
        · rw [hb, hnew, hold a ha2, hdesc]
          exact strcmp_ne_swap _ _ (hdup a ha0 ha2)
        · have hb2 : b < k.tasks.amount := by omega
          rw [hold a ha2, hold b hb2]
          exact hk.descr_unique a b ha0 ha2 hb0 hb2 hab
    · show ∀ i, 0 ≤ i → i < k.tasks.amount_started →
        0 ≤ k.tasks.ordered_by_start i ∧ k.tasks.ordered_by_start i < k.tasks.amount + 1
      intro i h0 h1
      have := hk.start_range i h0 h1
      exact ⟨this.1, by omega⟩
    · show ∀ i, 0 ≤ i → i < k.tasks.amount_started →
        strcmp (store k.tasks.task k.tasks.amount t (k.tasks.ordered_by_start i)).activity
          STR_TO_DO ≠ 0
      intro i h0 h1
      rw [hold _ (hk.start_range i h0 h1).2]
      exact hk.start_active i h0 h1
    · show ∀ x, 0 ≤ x → x < k.tasks.amount + 1 →
        strcmp (store k.tasks.task k.tasks.amount t x).activity STR_TO_DO ≠ 0 →
        ∃ i, 0 ≤ i ∧ i < k.tasks.amount_started ∧ k.tasks.ordered_by_start i = x
      intro x h0 h1 h2
      by_cases hx : x = k.tasks.amount
      · rw [hx, hnew, hact, strcmp_strcpy_left, strcmp_self] at h2
        exact absurd rfl h2
      · have hx2 : x < k.tasks.amount := by omega
        rw [hold x hx2] at h2
        exact hk.start_onto x h0 hx2 h2
    · show ∀ i j, k.tasks.first_at_current_time ≤ i → i < j → j < k.tasks.amount_started →
        strcmp (store k.tasks.task k.tasks.amount t (k.tasks.ordered_by_start i)).description
          (store k.tasks.task k.tasks.amount t (k.tasks.ordered_by_start j)).description < 0
      intro i j h0 hij hj
      have hf := hk.first_nonneg
      rw [hold _ (hk.start_range i (by omega) (by omega)).2,
        hold _ (hk.start_range j (by omega) hj).2]
      exact hk.window_sorted i j h0 hij hj
    · show ∀ i, k.tasks.first_at_current_time ≤ i → i < k.tasks.amount_started →
        (store k.tasks.task k.tasks.amount t (k.tasks.ordered_by_start i)).start = k.now
      intro i h0 h1
      have hf := hk.first_nonneg
      rw [hold _ (hk.start_range i (by omega) h1).2]
      exact hk.window_now i h0 h1

theorem store_store {α : Type} (a : Int → α) (i : Int) (v w : α) :
    store (store a i v) i w = store a i w := by
  funext j
  simp only [store]
  split_ifs <;> rfl

theorem is_move_valid_iff (k : Kanban) (id : Int) (user activity : CString) :
    (is_move_valid k id user activity).1 ≠ 0 ↔
      1 ≤ id ∧ id ≤ k.tasks.amount ∧
      strcmp (k.tasks.task (id - 1)).activity activity ≠ 0 ∧
      strcmp activity STR_TO_DO ≠ 0 ∧
      is_existing_user k.users user ≠ 0 ∧
      is_existing_activity k.activities activity ≠ 0 := by
  unfold is_move_valid EQUAL
  split_ifs with h1 h2 h3 h4 h5
  · simp; intro _ h; omega
  · simp; intro _ _ h; exact absurd h2 h
  · simp; intro _ _ _ h; exact absurd h3 h
  · simp; intro _ _ _ _ h; exact absurd h4 h
  · simp; intro _ _ _ _ _; exact h5
  · simp
    exact ⟨by omega, by omega, h2, h3, h4, h5⟩

theorem is_move_valid_out (k : Kanban) (id : Int) (user activity : CString)
    (h : (is_move_valid k id user activity).1 ≠ 0) :
    (is_move_valid k id user activity).2 = [] := by
  unfold is_move_valid at h ⊢
  split_ifs at h ⊢ <;> simp at h ⊢

theorem move_task_reject (k : Kanban) (id : Int) (user activity : CString)
    (h : (is_move_valid k id user activity).1 = 0) :
    move_task k id user activity =
      some ⟨KEEP_GOING, k, (is_move_valid k id user activity).2⟩ := by
  simp only [move_task, h, ne_eq, not_true_eq_false, if_false]

theorem move_task_started (k : Kanban) (id : Int) (user activity : CString)
    (h : (is_move_valid k id user activity).1 ≠ 0)
    (hs : strcmp (k.tasks.task (id - 1)).activity STR_TO_DO ≠ 0) :
    move_task k id user activity = some ⟨KEEP_GOING,
      { k with tasks := moved_started k.tasks id user activity },
      move_report k.now (k.tasks.task (id - 1)).start (k.tasks.task (id - 1)).duration
        activity⟩ := by
  have ho := is_move_valid_out k id user activity h
  have hs2 : ¬ strcmp (k.tasks.task (id - 1)).activity STR_TO_DO = EQUAL := hs
  simp only [move_task, h, ne_eq, not_false_eq_true, if_true, hs2, if_false, ho,
    List.nil_append, store_store, store_eq, moved_started, move_report]
  split_ifs <;> rfl

theorem move_task_to_do (k : Kanban) (id : Int) (user activity : CString)
    (h : (is_move_valid k id user activity).1 ≠ 0)
    (hs : strcmp (k.tasks.task (id - 1)).activity STR_TO_DO = 0)
    (hw : k.tasks.first_at_current_time ≤ k.tasks.amount_started) :
    move_task k id user activity = some ⟨KEEP_GOING,
      { k with tasks := moved_to_do k.tasks id k.now user activity },
      move_report k.now k.now (k.tasks.task (id - 1)).duration activity⟩ := by
  have ho := is_move_valid_out k id user activity h
  have hs2 : strcmp (k.tasks.task (id - 1)).activity STR_TO_DO = EQUAL := hs
  have hb := binary_insert_eq (stamped k.tasks id k.now) k.tasks.ordered_by_start id
    k.tasks.first_at_current_time (k.tasks.amount_started - 1) (by omega)
  simp only [stamped] at hb
  simp only [move_task, h, ne_eq, not_false_eq_true, if_true, hs2, ho,
    List.nil_append, hb, store_store, store_eq, moved_to_do, move_report, stamped]
  split_ifs <;> rfl

theorem moved_started_task (l : TaskList) (id : Int) (user activity : CString) (x : Int) :
    ((moved_started l id user activity).task x).description = (l.task x).description ∧
    ((moved_started l id user activity).task x).start = (l.task x).start ∧
    ((moved_started l id user activity).task x).duration = (l.task x).duration ∧
    ((moved_started l id user activity).task x).activity =
      if x = id - 1 then strcpy activity else (l.task x).activity := by
  simp only [moved_started, store]
  by_cases h : x = id - 1
  · simp [h]
  · simp [h]

theorem move_started_inv (k : Kanban) (hk : Inv k) (id : Int) (user activity : CString)
    (h : (is_move_valid k id user activity).1 ≠ 0)
    (hs : strcmp (k.tasks.task (id - 1)).activity STR_TO_DO ≠ 0) :
    Inv { k with tasks := moved_started k.tasks id user activity } := by
  obtain ⟨hid1, hid2, _, hact, _, _⟩ := (is_move_valid_iff k id user activity).1 h
  have htask := moved_started_task k.tasks id user activity
  refine
    { first_nonneg := hk.first_nonneg
      first_le := hk.first_le
      amount_nonneg := hk.amount_nonneg
      amount_le := hk.amount_le
      now_lt := hk.now_lt
      descr_range := hk.descr_range
      descr_sorted := ?_
      descr_onto := hk.descr_onto
      descr_unique := ?_
      start_range := hk.start_range
      start_active := ?_
      start_inj := hk.start_inj
      start_onto := ?_
      window_sorted := ?_
      window_now := ?_ }
  · intro i j h0 hij hj
    show strcmp ((moved_started k.tasks id user activity).task _).description
      ((moved_started k.tasks id user activity).task _).description < 0
    rw [(htask _).1, (htask _).1]
    exact hk.descr_sorted i j h0 hij hj
  · intro a b ha0 ha1 hb0 hb1 hab
    show strcmp ((moved_started k.tasks id user activity).task _).description
      ((moved_started k.tasks id user activity).task _).description ≠ 0
    rw [(htask _).1, (htask _).1]
    exact hk.descr_unique a b ha0 ha1 hb0 hb1 hab
  · intro i h0 h1
    show strcmp ((moved_started k.tasks id user activity).task _).activity STR_TO_DO ≠ 0
    rw [(htask _).2.2.2]
    split_ifs
    · rw [strcmp_strcpy_left]; exact hact
    · exact hk.start_active i h0 h1
  · intro x h0 h1 h2
    show ∃ i, 0 ≤ i ∧ i < k.tasks.amount_started ∧ k.tasks.ordered_by_start i = x
    have h3 : strcmp ((moved_started k.tasks id user activity).task x).activity STR_TO_DO ≠ 0 := h2
    rw [(htask _).2.2.2] at h3
    by_cases hx : x = id - 1
    · rw [hx]
      exact hk.start_onto (id - 1) (by omega) (by omega) hs
    · rw [if_neg hx] at h3
      exact hk.start_onto x h0 h1 h3
  · intro i j h0 hij hj
    show strcmp ((moved_started k.tasks id user activity).task _).description
      ((moved_started k.tasks id user activity).task _).description < 0
    rw [(htask _).1, (htask _).1]
    exact hk.window_sorted i j h0 hij hj
  · intro i h0 h1
    show ((moved_started k.tasks id user activity).task _).start = k.now
    rw [(htask _).2.1]
    exact hk.window_now i h0 h1

theorem stamped_description (l : TaskList) (id : Int) (now : Nat) (x : Int) :
    ((stamped l id now).task x).description = (l.task x).description := by
  simp only [stamped, store]
  by_cases h : x = id - 1
  · simp [h]
  · simp [h]

theorem moved_to_do_task (l : TaskList) (id : Int) (now : Nat) (user activity : CString)
    (x : Int) :
    ((moved_to_do l id now user activity).task x).description = (l.task x).description ∧
    ((moved_to_do l id now user activity).task x).duration = (l.task x).duration ∧
    ((moved_to_do l id now user activity).task x).start =
      (if x = id - 1 then now else (l.task x).start) ∧
    ((moved_to_do l id now user activity).task x).activity =
      if x = id - 1 then strcpy activity else (l.task x).activity := by
  simp only [moved_to_do, store]
  by_cases h : x = id - 1
  · simp [h]
  · simp [h]

/-- Where `move_task` puts a task that leaves "TO DO": inside the current
window, after the entries of the window with a smaller description and before
those with a greater one. -/
theorem move_to_do_pos (k : Kanban) (hk : Inv k) (id : Int)
    (hid1 : 1 ≤ id) (hid2 : id ≤ k.tasks.amount)
    (hs : strcmp (k.tasks.task (id - 1)).activity STR_TO_DO = 0) :
    k.tasks.first_at_current_time ≤
      binary_insert_pos (stamped k.tasks id k.now) k.tasks.ordered_by_start id
        k.tasks.first_at_current_time (k.tasks.amount_started - 1) ∧
    binary_insert_pos (stamped k.tasks id k.now) k.tasks.ordered_by_start id
        k.tasks.first_at_current_time (k.tasks.amount_started - 1) ≤ k.tasks.amount_started ∧
    (∀ i, 0 ≤ i → i < k.tasks.amount_started → k.tasks.ordered_by_start i ≠ id - 1) ∧
    (∀ i, k.tasks.first_at_current_time ≤ i →
      i < binary_insert_pos (stamped k.tasks id k.now) k.tasks.ordered_by_start id
        k.tasks.first_at_current_time (k.tasks.amount_started - 1) →
      strcmp (k.tasks.task (k.tasks.ordered_by_start i)).description
        (k.tasks.task (id - 1)).description < 0) ∧
    (∀ i, binary_insert_pos (stamped k.tasks id k.now) k.tasks.ordered_by_start id
        k.tasks.first_at_current_time (k.tasks.amount_started - 1) ≤ i →
      i < k.tasks.amount_started →
      strcmp (k.tasks.task (id - 1)).description
        (k.tasks.task (k.tasks.ordered_by_start i)).description < 0) := by
  have hf := hk.first_nonneg
  have hfl := hk.first_le
  obtain ⟨hp1, hp2, _, _⟩ := binary_insert_pos_local (stamped k.tasks id k.now)
    k.tasks.ordered_by_start id k.tasks.first_at_current_time (k.tasks.amount_started - 1)
    (by omega)
  have hsrt := binary_insert_pos_sorted (stamped k.tasks id k.now)
    k.tasks.ordered_by_start id k.tasks.first_at_current_time (k.tasks.amount_started - 1)
    (by omega)
    (by
      intro i j h0 hij hj
      rw [stamped_description, stamped_description]
      rcases eq_or_lt_of_le hij with h | h
      · rw [h, strcmp_self]
      · exact le_of_lt (hk.window_sorted i j h0 h (by omega)))
  have hnotin : ∀ i, 0 ≤ i → i < k.tasks.amount_started → k.tasks.ordered_by_start i ≠ id - 1 := by
    intro i h0 h1 h2
    have := hk.start_active i h0 h1
    rw [h2] at this
    exact this hs
  generalize binary_insert_pos (stamped k.tasks id k.now) k.tasks.ordered_by_start id
    k.tasks.first_at_current_time (k.tasks.amount_started - 1) = p at hp1 hp2 hsrt
  obtain ⟨hleft, hright⟩ := hsrt
  refine ⟨hp1, by omega, hnotin, ?_, ?_⟩
  · intro i h0 h1
    have h2 := hleft i h0 h1
    rw [stamped_description, stamped_description] at h2
    have hr := hk.start_range i (by omega) (by omega)
    have h3 := hk.descr_unique (k.tasks.ordered_by_start i) (id - 1) hr.1 hr.2 (by omega)
      (by omega) (hnotin i (by omega) (by omega))
    omega
  · intro i h0 h1
    have h2 := hright i h0 (by omega)
    rw [stamped_description, stamped_description, strcmp_swap] at h2
    omega

theorem move_to_do_inv (k : Kanban) (hk : Inv k) (id : Int) (user activity : CString)
    (h : (is_move_valid k id user activity).1 ≠ 0)
    (hs : strcmp (k.tasks.task (id - 1)).activity STR_TO_DO = 0) :
    Inv { k with tasks := moved_to_do k.tasks id k.now user activity } := by
  obtain ⟨hid1, hid2, _, hact, _, _⟩ := (is_move_valid_iff k id user activity).1 h
  have htask := moved_to_do_task k.tasks id k.now user activity
  obtain ⟨hp1, hp2, hnotin, hleft, hright⟩ := move_to_do_pos k hk id hid1 hid2 hs
  have hf := hk.first_nonneg
  have hfl := hk.first_le
  have hobs : (moved_to_do k.tasks id k.now user activity).ordered_by_start =
      insert_at k.tasks.ordered_by_start
        (binary_insert_pos (stamped k.tasks id k.now) k.tasks.ordered_by_start id
          k.tasks.first_at_current_time (k.tasks.amount_started - 1)) (id - 1)
        (k.tasks.amount_started - 1) := rfl
  generalize binary_insert_pos (stamped k.tasks id k.now) k.tasks.ordered_by_start id
    k.tasks.first_at_current_time (k.tasks.amount_started - 1) = p at hp1 hp2 hleft hright hobs
  have hold : ∀ i, 0 ≤ i → i < k.tasks.amount_started →
      (moved_to_do k.tasks id k.now user activity).task (k.tasks.ordered_by_start i) =
        k.tasks.task (k.tasks.ordered_by_start i) := by
    intro i h0 h1
    simp only [moved_to_do]
    exact store_ne _ _ _ _ (hnotin i h0 h1)
  refine
    { first_nonneg := hk.first_nonneg
      first_le := ?_
      amount_nonneg := hk.amount_nonneg
      amount_le := hk.amount_le
      now_lt := hk.now_lt
      descr_range := hk.descr_range
      descr_sorted := ?_
      descr_onto := hk.descr_onto
      descr_unique := ?_
      start_range := ?_
      start_active := ?_
      start_inj := ?_
      start_onto := ?_
      window_sorted := ?_
      window_now := ?_ }
  · show k.tasks.first_at_current_time ≤ k.tasks.amount_started + 1
    omega
  · intro i j h0 hij hj
    show strcmp ((moved_to_do k.tasks id k.now user activity).task _).description
      ((moved_to_do k.tasks id k.now user activity).task _).description < 0
    rw [(htask _).1, (htask _).1]
    exact hk.descr_sorted i j h0 hij hj
  · intro a b ha0 ha1 hb0 hb1 hab
    show strcmp ((moved_to_do k.tasks id k.now user activity).task _).description
      ((moved_to_do k.tasks id k.now user activity).task _).description ≠ 0
    rw [(htask _).1, (htask _).1]
    exact hk.descr_unique a b ha0 ha1 hb0 hb1 hab
  · intro i h0 h1
    show 0 ≤ (moved_to_do k.tasks id k.now user activity).ordered_by_start i ∧
      (moved_to_do k.tasks id k.now user activity).ordered_by_start i < k.tasks.amount
    have h1 : i < k.tasks.amount_started + 1 := h1
    rw [hobs]
    exact insert_at_all (fun x => 0 ≤ x ∧ x < k.tasks.amount) _ 0 p _ _ (by omega) (by omega)
      (fun i h0 h1 => hk.start_range i h0 (by omega)) ⟨by omega, by omega⟩ i h0 (by omega)
  · intro i h0 h1
    show strcmp ((moved_to_do k.tasks id k.now user activity).task
      ((moved_to_do k.tasks id k.now user activity).ordered_by_start i)).activity STR_TO_DO ≠ 0
    have h1 : i < k.tasks.amount_started + 1 := h1
    rw [hobs]
    refine insert_at_all (fun x => strcmp ((moved_to_do k.tasks id k.now user activity).task
      x).activity STR_TO_DO ≠ 0) _ 0 p _ _ (by omega) (by omega) ?_ ?_ i h0 (by omega)
    · intro i h0 h1
      show strcmp _ _ ≠ 0
      rw [hold i h0 (by omega)]
      exact hk.start_active i h0 (by omega)
    · show strcmp _ _ ≠ 0
      rw [(htask _).2.2.2, if_pos rfl, strcmp_strcpy_left]
      exact hact
  · intro i j h0 hij hj
    show (moved_to_do k.tasks id k.now user activity).ordered_by_start i ≠
      (moved_to_do k.tasks id k.now user activity).ordered_by_start j
    have hj : j < k.tasks.amount_started + 1 := hj
    rw [hobs]
    exact insert_at_pairs (fun a b => a ≠ b) _ 0 p _ _ (by omega) (by omega)
      (fun i j h0 hij hj => hk.start_inj i j h0 hij (by omega))
      (fun i h0 h1 => hnotin i h0 (by omega))
      (fun i h0 h1 => Ne.symm (hnotin i (by omega) (by omega))) i j h0 hij (by omega)
  · intro x h0 h1 h2
    show ∃ i, 0 ≤ i ∧ i < k.tasks.amount_started + 1 ∧
      (moved_to_do k.tasks id k.now user activity).ordered_by_start i = x
    have h3 : strcmp ((moved_to_do k.tasks id k.now user activity).task x).activity
      STR_TO_DO ≠ 0 := h2
    rw [hobs]
    by_cases hx : x = id - 1
    · exact ⟨p, by omega, by omega, by rw [insert_at_self, hx]⟩
    · rw [(htask _).2.2.2, if_neg hx] at h3
      obtain ⟨i, hi0, hi1, hi2⟩ := hk.start_onto x h0 h1 h3
      obtain ⟨j, hj0, hj1, hj2⟩ := insert_at_onto k.tasks.ordered_by_start 0 p (id - 1)
        (k.tasks.amount_started - 1) x ⟨i, hi0, by omega, hi2⟩
      exact ⟨j, hj0, by omega, hj2⟩
  · intro i j h0 hij hj
    show strcmp ((moved_to_do k.tasks id k.now user activity).task
      ((moved_to_do k.tasks id k.now user activity).ordered_by_start i)).description
      ((moved_to_do k.tasks id k.now user activity).task
      ((moved_to_do k.tasks id k.now user activity).ordered_by_start j)).description < 0
    have hj : j < k.tasks.amount_started + 1 := hj
    have h0 : k.tasks.first_at_current_time ≤ i := h0
    rw [hobs]
    refine insert_at_pairs (fun a b => strcmp
      ((moved_to_do k.tasks id k.now user activity).task a).description
      ((moved_to_do k.tasks id k.now user activity).task b).description < 0) _
      k.tasks.first_at_current_time p _ _ hp1 (by omega) ?_ ?_ ?_ i j h0 hij (by omega)
    · intro i j h0 hij hj
      show strcmp _ _ < 0
      rw [(htask _).1, (htask _).1]
      exact hk.window_sorted i j h0 hij (by omega)
    · intro i h0 h1
      show strcmp _ _ < 0
      rw [(htask _).1, (htask _).1]
      exact hleft i h0 h1
    · intro i h0 h1
      show strcmp _ _ < 0
      rw [(htask _).1, (htask _).1]
      exact hright i h0 (by omega)
  · intro i h0 h1
    show ((moved_to_do k.tasks id k.now user activity).task
      ((moved_to_do k.tasks id k.now user activity).ordered_by_start i)).start = k.now
    have h1 : i < k.tasks.amount_started + 1 := h1
    have h0 : k.tasks.first_at_current_time ≤ i := h0
    rw [hobs]
    refine insert_at_all (fun x => ((moved_to_do k.tasks id k.now user activity).task
      x).start = k.now) _ k.tasks.first_at_current_time p _ _ hp1 (by omega) ?_ ?_ i h0 (by omega)
    · intro i h0 h1
      show _ = k.now
      rw [hold i (by omega) (by omega)]
      exact hk.window_now i h0 (by omega)
    · show _ = k.now
      rw [(htask _).2.2.1, if_pos rfl]

theorem move_task_inv (k : Kanban) (hk : Inv k) (id : Int) (user activity : CString) :
    ∃ r, move_task k id user activity = some r ∧ Inv r.state := by
  by_cases hv : (is_move_valid k id user activity).1 = 0
  · exact ⟨_, move_task_reject k id user activity hv, hk⟩
  · by_cases hs : strcmp (k.tasks.task (id - 1)).activity STR_TO_DO = 0
    · exact ⟨_, move_task_to_do k id user activity hv hs hk.first_le,
        move_to_do_inv k hk id user activity hv hs⟩
    · exact ⟨_, move_task_started k id user activity hv hs,
        move_started_inv k hk id user activity hv hs⟩

theorem advance_time_state (k : Kanban) (time : Int) :
    (advance_time k time).state =
      if 0 ≤ time then
        { k with
          now := (k.now + time.toNat) % 2 ^ 32,
          tasks := { k.tasks with first_at_current_time := k.tasks.amount_started } }
      else k := by
  unfold advance_time is_time_valid
  by_cases h : time < 0
  · have : ¬ 0 ≤ time := by omega
    simp [h, this]
  · have : 0 ≤ time := by omega
    simp [h, this]

theorem advance_time_inv (k : Kanban) (hk : Inv k) (time : Int) :
    Inv (advance_time k time).state := by
  rw [advance_time_state]
  split_ifs
  · exact
      { first_nonneg := le_trans hk.first_nonneg hk.first_le
        first_le := le_refl _
        amount_nonneg := hk.amount_nonneg
        amount_le := hk.amount_le
        now_lt := Nat.mod_lt _ (by decide)
        descr_range := hk.descr_range
        descr_sorted := hk.descr_sorted
        descr_onto := hk.descr_onto
        descr_unique := hk.descr_unique
        start_range := hk.start_range
        start_active := hk.start_active
        start_inj := hk.start_inj
        start_onto := hk.start_onto
        window_sorted := fun i j h0 hij hj => by
          have h0 : k.tasks.amount_started ≤ i := h0
          have hj : j < k.tasks.amount_started := hj
          omega
        window_now := fun i h0 h1 => by
          have h0 : k.tasks.amount_started ≤ i := h0
          have hj : i < k.tasks.amount_started := h1
          omega }
  · exact hk

theorem setup_inv (kanban : Kanban) : Inv (setup kanban) := by
  refine
    { first_nonneg := le_refl _
      first_le := le_refl _
      amount_nonneg := le_refl _
      amount_le := by show (0 : Int) ≤ AMT_TASKS; decide
      now_lt := by show 0 < 2 ^ 32; decide
      descr_range := ?_
      descr_sorted := ?_
      descr_onto := ?_
      descr_unique := ?_
      start_range := ?_
      start_active := ?_
      start_inj := ?_
      start_onto := ?_
      window_sorted := ?_
      window_now := ?_ }
  all_goals
    intros
    simp only [setup] at *
    omega

theorem select_inv (k : Kanban) (hk : Inv k) (cmd : Command) :
    ∃ r, select k cmd = some r ∧ Inv r.state := by
  cases cmd with
  | q => exact ⟨_, rfl, hk⟩
  | t duration description user =>
    obtain ⟨r, hr, hi⟩ := new_task_inv k hk duration description user
    exact ⟨_, by simp only [select, hr, Option.map_some']; rfl, hi⟩
  | l ids =>
    refine ⟨_, rfl, ?_⟩
    cases ids <;> exact hk
  | n time => exact ⟨_, rfl, advance_time_inv k hk time⟩
  | u user =>
    refine ⟨_, rfl, ?_⟩
    exact
      { first_nonneg := hk.first_nonneg
        first_le := hk.first_le
        amount_nonneg := hk.amount_nonneg
        amount_le := hk.amount_le
        now_lt := hk.now_lt
        descr_range := hk.descr_range
        descr_sorted := hk.descr_sorted
        descr_onto := hk.descr_onto
        descr_unique := hk.descr_unique
        start_range := hk.start_range
        start_active := hk.start_active
        start_inj := hk.start_inj
        start_onto := hk.start_onto
        window_sorted := hk.window_sorted
        window_now := hk.window_now }
  | m id user activity => exact move_task_inv k hk id user activity
  | d activity =>
    refine ⟨_, rfl, ?_⟩
    simp only [display_activity]
    split_ifs <;> exact hk
  | a activity =>
    refine ⟨_, rfl, ?_⟩
    exact
      { first_nonneg := hk.first_nonneg
        first_le := hk.first_le
        amount_nonneg := hk.amount_nonneg
        amount_le := hk.amount_le
        now_lt := hk.now_lt
        descr_range := hk.descr_range
        descr_sorted := hk.descr_sorted
        descr_onto := hk.descr_onto
        descr_unique := hk.descr_unique
        start_range := hk.start_range
        start_active := hk.start_active
        start_inj := hk.start_inj
        start_onto := hk.start_onto
        window_sorted := hk.window_sorted
        window_now := hk.window_now }
  | other => exact ⟨_, rfl, hk⟩

/-- A property that `select` keeps holds after the whole input, and the loop
of `main` returns. -/
theorem main_loop_keeps (P : Kanban → Prop)
    (hstep : ∀ k cmd, P k → ∃ r, select k cmd = some r ∧ P r.state) :
    ∀ (cmds : List Command) (k : Kanban), P k → ∃ r, main_loop k cmds = some r ∧ P r.1 := by
  intro cmds
  induction cmds with
  | nil => intro k hk; exact ⟨_, rfl, hk⟩
  | cons cmd cmds ih =>
    intro k hk
    obtain ⟨r, hr, hp⟩ := hstep k cmd hk
    by_cases hret : r.ret = KEEP_GOING
    · obtain ⟨r2, hr2, hp2⟩ := ih r.state hp
      refine ⟨(r2.1, r.out ++ r2.2), ?_, hp2⟩
      simp only [main_loop, hr, hret, if_true, hr2]
    · refine ⟨(r.state, r.out), ?_, hp⟩
      simp only [main_loop, hr, hret, if_false]

theorem main_inv (kanban : Kanban) (cmds : List Command) :
    ∃ r, main kanban cmds = some r ∧ Inv r.1 :=
  main_loop_keeps Inv (fun k cmd hk => select_inv k hk cmd) cmds (setup kanban) (setup_inv kanban)

theorem reported_ids_nil (out : List Output)
    (h : ∀ o ∈ out, ∀ id, o ≠ Output.new_task id) : reported_ids out = [] := by
  induction out with
  | nil => rfl
  | cons o out ih =>
    have h1 := h o (List.mem_cons_self _ _)
    have h2 := ih (fun o ho => h o (List.mem_cons_of_mem _ ho))
    cases o <;> first | exact h2 | exact absurd rfl (h1 _)

theorem reported_ids_append (a b : List Output) :
    reported_ids (a ++ b) = reported_ids a ++ reported_ids b := by
  induction a with
  | nil => rfl
  | cons o a ih =>
    cases o <;> simp [reported_ids, ih]

theorem reported_ids_list_tasks_ids (l : TaskList) (ids : List Int) :
    reported_ids (list_tasks_ids l ids) = [] := by
  induction ids with
  | nil => rfl
  | cons id ids ih =>
    simp only [list_tasks_ids, reported_ids_append, ih, List.append_nil, is_id_valid, print_task]
    split_ifs <;> simp [reported_ids] at *

theorem reported_ids_print_activity (k : Kanban) (activity : CString) (order : Int → Int)
    (sz : Int) : reported_ids (print_activity k activity order sz) = [] := by
  apply reported_ids_nil
  intro o ho id
  simp only [print_activity, List.mem_flatMap] at ho
  obtain ⟨i, _, hi⟩ := ho
  split_ifs at hi
  · simp at hi; rw [hi]; simp
  · simp at hi

theorem reported_ids_move_report (now start : Nat) (duration : Int) (activity : CString) :
    reported_ids (move_report now start duration activity) = [] := by
  unfold move_report
  split_ifs <;> rfl

theorem reported_ids_is_move_valid (k : Kanban) (id : Int) (user activity : CString) :
    reported_ids (is_move_valid k id user activity).2 = [] := by
  unfold is_move_valid
  split_ifs <;> rfl

theorem reported_ids_is_new_task_valid (l : TaskList) (t : Task) :
    reported_ids (is_new_task_valid l t).2 = [] := by
  unfold is_new_task_valid
  split_ifs <;> rfl

theorem select_effect (k : Kanban) (hk : Inv k) (cmd : Command) :
    ∃ r, select k cmd = some r ∧ Inv r.state ∧ Effect k cmd r ∧
      (cmd ≠ Command.q → r.ret = KEEP_GOING) := by
  cases cmd with
  | q =>
    exact ⟨_, rfl, hk, Effect.idle rfl rfl rfl (fun _ h => by cases h), fun h => absurd rfl h⟩
  | t duration description user =>
    by_cases hv : (is_new_task_valid k.tasks (fresh_task duration description user)).1 = 0
    · have h1 := new_task_reject k.tasks duration description user hv
      refine ⟨_, by simp only [select, h1, Option.map_some']; rfl, hk, ?_, fun _ => rfl⟩
      exact Effect.idle rfl rfl (reported_ids_is_new_task_valid _ _) (fun _ h => by cases h)
    · have h1 := new_task_accept k.tasks duration description user hv hk.amount_nonneg
      obtain ⟨r, hr, hi⟩ := new_task_inv k hk duration description user
      rw [h1] at hr
      cases hr
      refine ⟨_, by simp only [select, h1, Option.map_some']; rfl, hi, ?_, fun _ => rfl⟩
      exact Effect.create duration description user rfl hv rfl rfl rfl
  | l ids =>
    refine ⟨_, rfl, ?_, ?_, fun _ => ?_⟩
    · cases ids <;> exact hk
    · refine Effect.idle ?_ ?_ ?_ (fun _ h => by cases h)
      · cases ids <;> rfl
      · cases ids <;> rfl
      · cases ids <;> exact reported_ids_list_tasks_ids _ _
    · cases ids <;> rfl
  | n time =>
    refine ⟨_, rfl, advance_time_inv k hk time, ?_, fun _ => ?_⟩
    · by_cases ht : time < 0
      · refine Effect.idle ?_ ?_ ?_ (fun t h => by cases h; exact ht)
        · simp [advance_time, is_time_valid, ht]
        · simp [advance_time, is_time_valid, ht]
        · simp [advance_time, is_time_valid, ht, reported_ids]
      · refine Effect.advance time rfl (by omega) ?_ ?_ ?_
        · simp [advance_time, is_time_valid, ht]
        · simp [advance_time, is_time_valid, ht]
        · simp [advance_time, is_time_valid, ht, reported_ids]
    · simp only [advance_time]
      split_ifs <;> rfl
  | u user =>
    obtain ⟨r, hr, hi⟩ := select_inv k hk (Command.u user)
    refine ⟨_, hr, hi, ?_, fun _ => ?_⟩
    · cases hr
      refine Effect.idle rfl rfl ?_ (fun _ h => by cases h)
      apply reported_ids_nil
      intro o ho id
      cases user with
      | none =>
        simp only [handle_users, list_users, List.mem_map] at ho
        obtain ⟨i, _, hi⟩ := ho
        rw [← hi]; simp
      | some user =>
        simp only [handle_users, new_user, is_new_user_valid] at ho
        split_ifs at ho <;> simp at ho <;> simp [ho]
    · cases hr
      cases user with
      | none => rfl
      | some user =>
        simp only [handle_users, new_user]
        split_ifs <;> rfl
  | m id user activity =>
    by_cases hv : (is_move_valid k id user activity).1 = 0
    · refine ⟨_, move_task_reject k id user activity hv, hk, ?_, fun _ => rfl⟩
      exact Effect.idle rfl rfl (reported_ids_is_move_valid _ _ _ _) (fun _ h => by cases h)
    · by_cases hs : strcmp (k.tasks.task (id - 1)).activity STR_TO_DO = 0
      · refine ⟨_, move_task_to_do k id user activity hv hs hk.first_le,
          move_to_do_inv k hk id user activity hv hs, ?_, fun _ => rfl⟩
        exact Effect.start id user activity rfl hv hs rfl rfl (reported_ids_move_report _ _ _ _)
      · refine ⟨_, move_task_started k id user activity hv hs,
          move_started_inv k hk id user activity hv hs, ?_, fun _ => rfl⟩
        exact Effect.move id user activity rfl hv hs rfl rfl (reported_ids_move_report _ _ _ _)
  | d activity =>
    obtain ⟨r, hr, hi⟩ := select_inv k hk (Command.d activity)
    refine ⟨_, hr, hi, ?_, fun _ => ?_⟩
    · cases hr
      refine Effect.idle ?_ ?_ ?_ (fun _ h => by cases h)
      · simp only [display_activity]; split_ifs <;> rfl
      · simp only [display_activity]; split_ifs <;> rfl
      · simp only [display_activity, is_activity_valid]
        split_ifs <;> simp [reported_ids, reported_ids_append, reported_ids_print_activity]
    · cases hr
      simp only [display_activity]; split_ifs <;> rfl
  | a activity =>
    obtain ⟨r, hr, hi⟩ := select_inv k hk (Command.a activity)
    refine ⟨_, hr, hi, ?_, fun _ => ?_⟩
    · cases hr
      refine Effect.idle rfl rfl ?_ (fun _ h => by cases h)
      apply reported_ids_nil
      intro o ho id
      cases activity with
      | none =>
        simp only [handle_activities, list_activities, List.mem_map] at ho
        obtain ⟨i, _, hi⟩ := ho
        rw [← hi]; simp
      | some activity =>
        simp only [handle_activities, new_activity, is_new_activity_valid] at ho
        split_ifs at ho <;> simp at ho <;> simp [ho]
    · cases hr
      cases activity with
      | none => rfl
      | some activity =>
        simp only [handle_activities, new_activity]
        split_ifs <;> rfl
  | other =>
    exact ⟨_, rfl, hk, Effect.idle rfl rfl rfl (fun _ h => by cases h), fun _ => rfl⟩

/-! ## Runs of the main loop -/

/-- One turn of the loop of `main` from a board that satisfies `Inv`. -/
theorem main_loop_cons (k : Kanban) (hk : Inv k) (cmd : Command) (cmds : List Command) :
    ∃ r, select k cmd = some r ∧ Inv r.state ∧ Effect k cmd r ∧
      (cmd = Command.q → main_loop k (cmd :: cmds) = some (r.state, r.out)) ∧
      (cmd ≠ Command.q → main_loop k (cmd :: cmds) =
        (main_loop r.state cmds).map (fun x => (x.1, r.out ++ x.2))) := by
  obtain ⟨r, hr, hi, he, hret⟩ := select_effect k hk cmd
  refine ⟨r, hr, hi, he, ?_, ?_⟩
  · intro hq
    subst hq
    cases hr
    rfl
  · intro hq
    simp only [main_loop, hr, hret hq, if_true]
    cases main_loop r.state cmds with
    | none => rfl
    | some x => rfl

theorem main_loop_induct (C : Command → Prop) (P : Kanban → Prop)
    (hstep : ∀ k cmd r, C cmd → Inv k → P k → select k cmd = some r → Effect k cmd r →
      P r.state) :
    ∀ (cmds : List Command) (k : Kanban) (res : Kanban × List Output),
      (∀ c ∈ cmds, C c) → Inv k → P k → main_loop k cmds = some res →
      P res.1 ∧ Inv res.1 := by
  intro cmds
  induction cmds with
  | nil =>
    intro k res _ hk hp h
    cases h
    exact ⟨hp, hk⟩
  | cons cmd cmds ih =>
    intro k res hc hk hp h
    obtain ⟨r, hr, hi, he, hq1, hq2⟩ := main_loop_cons k hk cmd cmds
    have hpr := hstep k cmd r (hc cmd (List.mem_cons_self _ _)) hk hp hr he
    by_cases hq : cmd = Command.q
    · rw [hq1 hq] at h
      cases h
      exact ⟨hpr, hi⟩
    · rw [hq2 hq] at h
      cases hm : main_loop r.state cmds with
      | none => rw [hm] at h; cases h
      | some x =>
        rw [hm] at h
        cases h
        exact ih r.state x (fun c hc2 => hc c (List.mem_cons_of_mem _ hc2)) hi hpr hm

theorem main_loop_append (pre rest : List Command) :
    ∀ (k s : Kanban) (o : List Output), Inv k → Command.q ∉ pre →
      main_loop k pre = some (s, o) →
      main_loop k (pre ++ rest) = (main_loop s rest).map (fun x => (x.1, o ++ x.2)) := by
  induction pre with
  | nil =>
    intro k s o _ _ h
    cases h
    rw [List.nil_append]
    cases main_loop k rest with
    | none => rfl
    | some x => rfl
  | cons cmd pre ih =>
    intro k s o hk hq h
    have hq1 : cmd ≠ Command.q := fun h => hq (by rw [h]; exact List.mem_cons_self _ _)
    have hq2 : Command.q ∉ pre := fun h => hq (List.mem_cons_of_mem _ h)
    obtain ⟨r, hr, hi, _, _, hc⟩ := main_loop_cons k hk cmd pre
    obtain ⟨r2, hr2, _, _, _, hc2⟩ := main_loop_cons k hk cmd (pre ++ rest)
    have hrr : r = r2 := by
      rw [hr] at hr2
      exact Option.some.inj hr2
    subst hrr
    rw [hc hq1] at h
    rw [List.cons_append, hc2 hq1]
    cases hm : main_loop r.state pre with
    | none => rw [hm] at h; cases h
    | some x =>
      rw [hm] at h
      cases h
      rw [ih r.state x.1 x.2 hi hq2 hm]
      cases main_loop x.1 rest with
      | none => rfl
      | some y => simp [List.append_assoc]

theorem before_insert (l : TaskList) (p v : Int) (x y : Int) (h : Before l x y) :
    Before { l with
      ordered_by_start := insert_at l.ordered_by_start p v (l.amount_started - 1),
      amount_started := l.amount_started + 1 } x y := by
  obtain ⟨i, j, h0, hij, hj, hx, hy⟩ := h
  refine ⟨if i < p then i else i + 1, if j < p then j else j + 1, ?_, ?_, ?_, ?_, ?_⟩
  · split_ifs <;> omega
  · split_ifs <;> omega
  · show _ < l.amount_started + 1
    split_ifs <;> omega
  · show insert_at l.ordered_by_start p v (l.amount_started - 1) _ = x
    rw [insert_at_old _ _ _ _ _ (by omega)]; exact hx
  · show insert_at l.ordered_by_start p v (l.amount_started - 1) _ = y
    rw [insert_at_old _ _ _ _ _ (by omega)]; exact hy

theorem before_step (k : Kanban) (cmd : Command) (r : Result Kanban) (he : Effect k cmd r)
    (x y : Int) (h : Before k.tasks x y) : Before r.state.tasks x y := by
  cases he with
  | idle _ htasks _ _ => rw [htasks]; exact h
  | advance _ _ _ _ htasks _ => rw [htasks]; exact h
  | create _ _ _ _ _ _ htasks _ => rw [htasks]; exact h
  | move _ _ _ _ _ _ _ htasks _ => rw [htasks]; exact h
  | start id user activity _ _ _ _ htasks _ =>
    rw [htasks]
    exact before_insert k.tasks _ (id - 1) x y h

theorem in_window_step (k : Kanban) (hk : Inv k) (cmd : Command) (r : Result Kanban)
    (he : Effect k cmd r) (hn : ∀ time, cmd ≠ Command.n time)
    (x : Int) (h : InWindow k.tasks x) : InWindow r.state.tasks x := by
  cases he with
  | idle _ htasks _ _ => rw [htasks]; exact h
  | advance time hcmd _ _ _ _ => exact absurd hcmd (hn time)
  | create _ _ _ _ _ _ htasks _ => rw [htasks]; exact h
  | move _ _ _ _ _ _ _ htasks _ => rw [htasks]; exact h
  | start id user activity _ hvalid hto_do _ htasks _ =>
    rw [htasks]
    obtain ⟨hid1, hid2, _⟩ := (is_move_valid_iff k id user activity).1 hvalid
    obtain ⟨hp1, hp2, _⟩ := move_to_do_pos k hk id hid1 hid2 hto_do
    obtain ⟨i, h0, h1, hx⟩ := h
    refine ⟨if i < binary_insert_pos (stamped k.tasks id k.now) k.tasks.ordered_by_start id
        k.tasks.first_at_current_time (k.tasks.amount_started - 1) then i else i + 1,
      ?_, ?_, ?_⟩
    · show k.tasks.first_at_current_time ≤ _
      split_ifs <;> omega
    · show _ < k.tasks.amount_started + 1
      split_ifs <;> omega
    · show insert_at k.tasks.ordered_by_start _ (id - 1) (k.tasks.amount_started - 1) _ = x
      rw [insert_at_old _ _ _ _ _ (by omega)]; exact hx

theorem description_step (k : Kanban) (cmd : Command) (r : Result Kanban)
    (he : Effect k cmd r) (x : Int) (hx : x < k.tasks.amount) :
    (r.state.tasks.task x).description = (k.tasks.task x).description ∧
    k.tasks.amount ≤ r.state.tasks.amount := by
  cases he with
  | idle _ htasks _ _ => rw [htasks]; exact ⟨rfl, le_refl _⟩
  | advance _ _ _ _ htasks _ => rw [htasks]; exact ⟨rfl, le_refl _⟩
  | create duration description user _ _ _ htasks _ =>
    rw [htasks]
    refine ⟨?_, ?_⟩
    · show (store k.tasks.task k.tasks.amount _ x).description = _
      rw [store_ne _ _ _ _ (by omega)]
    · show k.tasks.amount ≤ k.tasks.amount + 1
      omega
  | move id user activity _ _ _ _ htasks _ =>
    rw [htasks]
    exact ⟨(moved_started_task k.tasks id user activity x).1, le_refl _⟩
  | start id user activity _ _ _ _ htasks _ =>
    rw [htasks]
    exact ⟨(moved_to_do_task k.tasks id k.now user activity x).1, le_refl _⟩

/-- A task that leaves "TO DO" lands in the current window. -/
theorem start_in_window (k : Kanban) (hk : Inv k) (id : Int) (user activity : CString)
    (hvalid : (is_move_valid k id user activity).1 ≠ 0)
    (hto_do : strcmp (k.tasks.task (id - 1)).activity STR_TO_DO = 0) :
    InWindow (moved_to_do k.tasks id k.now user activity) (id - 1) := by
  obtain ⟨hid1, hid2, _⟩ := (is_move_valid_iff k id user activity).1 hvalid
  obtain ⟨hp1, hp2, _⟩ := move_to_do_pos k hk id hid1 hid2 hto_do
  refine ⟨binary_insert_pos (stamped k.tasks id k.now) k.tasks.ordered_by_start id
    k.tasks.first_at_current_time (k.tasks.amount_started - 1), hp1, ?_, ?_⟩
  · show _ < k.tasks.amount_started + 1
    omega
  · show insert_at k.tasks.ordered_by_start _ (id - 1) (k.tasks.amount_started - 1) _ = id - 1
    exact insert_at_self _ _ _ _

/-- A task that leaves "TO DO" is put before or after a task of the current
window according to the order of their descriptions. -/
theorem start_orders (k : Kanban) (hk : Inv k) (id : Int) (user activity : CString)
    (hvalid : (is_move_valid k id user activity).1 ≠ 0)
    (hto_do : strcmp (k.tasks.task (id - 1)).activity STR_TO_DO = 0)
    (a : Int) (ha : InWindow k.tasks a) :
    (strcmp (k.tasks.task a).description (k.tasks.task (id - 1)).description < 0 →
      Before (moved_to_do k.tasks id k.now user activity) a (id - 1)) ∧
    (¬ strcmp (k.tasks.task a).description (k.tasks.task (id - 1)).description < 0 →
      Before (moved_to_do k.tasks id k.now user activity) (id - 1) a) := by
  obtain ⟨hid1, hid2, _⟩ := (is_move_valid_iff k id user activity).1 hvalid
  obtain ⟨hp1, hp2, _, hleft, hright⟩ := move_to_do_pos k hk id hid1 hid2 hto_do
  have hf := hk.first_nonneg
  obtain ⟨i, h0, h1, hx⟩ := ha
  have hobs : (moved_to_do k.tasks id k.now user activity).ordered_by_start =
      insert_at k.tasks.ordered_by_start
        (binary_insert_pos (stamped k.tasks id k.now) k.tasks.ordered_by_start id
          k.tasks.first_at_current_time (k.tasks.amount_started - 1)) (id - 1)
        (k.tasks.amount_started - 1) := rfl
  have has : (moved_to_do k.tasks id k.now user activity).amount_started =
      k.tasks.amount_started + 1 := rfl
  generalize binary_insert_pos (stamped k.tasks id k.now) k.tasks.ordered_by_start id
    k.tasks.first_at_current_time (k.tasks.amount_started - 1) = p at hp1 hp2 hleft hright hobs
  by_cases hip : i < p
  · have hlt := hleft i h0 hip
    rw [hx] at hlt
    refine ⟨fun _ => ⟨i, p, by omega, hip, by rw [has]; omega, ?_, ?_⟩, fun h => absurd hlt h⟩
    · rw [hobs, insert_at_below _ _ _ _ _ hip]; exact hx
    · rw [hobs, insert_at_self]
  · have hgt := hright i (by omega) h1
    rw [hx] at hgt
    refine ⟨fun h => ?_, fun _ => ⟨p, i + 1, by omega, by omega, by rw [has]; omega, ?_, ?_⟩⟩
    · rw [strcmp_swap] at hgt; omega
    · rw [hobs, insert_at_self]
    · have := insert_at_old k.tasks.ordered_by_start p (id - 1) (k.tasks.amount_started - 1) i
        (by omega)
      rw [if_neg hip] at this
      rw [hobs, this]; exact hx

theorem run_inv (cmds : List Command) (k : Kanban) (res : Kanban × List Output)
    (hk : Inv k) (h : main_loop k cmds = some res) : Inv res.1 :=
  (main_loop_induct (fun _ => True) (fun _ => True) (fun _ _ _ _ _ _ _ _ => trivial)
    cmds k res (fun _ _ => trivial) hk trivial h).2

theorem run_before (cmds : List Command) (k : Kanban) (res : Kanban × List Output)
    (hk : Inv k) (h : main_loop k cmds = some res) (x y : Int) (hb : Before k.tasks x y) :
    Before res.1.tasks x y :=
  (main_loop_induct (fun _ => True) (fun k => Before k.tasks x y)
    (fun k cmd r _ _ hp _ he => before_step k cmd r he x y hp)
    cmds k res (fun _ _ => trivial) hk hb h).1

theorem run_in_window (cmds : List Command) (k : Kanban) (res : Kanban × List Output)
    (hk : Inv k) (hn : ∀ c ∈ cmds, ∀ time, c ≠ Command.n time)
    (h : main_loop k cmds = some res) (x : Int) (hw : InWindow k.tasks x) :
    InWindow res.1.tasks x :=
  (main_loop_induct (fun c => ∀ time, c ≠ Command.n time) (fun k => InWindow k.tasks x)
    (fun k cmd r hc hk hp _ he => in_window_step k hk cmd r he hc x hp)
    cmds k res hn hk hw h).1

theorem run_description (cmds : List Command) (k : Kanban) (res : Kanban × List Output)
    (hk : Inv k) (h : main_loop k cmds = some res) (x : Int) (hx : x < k.tasks.amount) :
    (res.1.tasks.task x).description = (k.tasks.task x).description := by
  have := (main_loop_induct (fun _ => True)
    (fun k2 => x < k2.tasks.amount ∧
      (k2.tasks.task x).description = (k.tasks.task x).description)
    (fun k2 cmd r _ _ hp _ he => by
      have hd := description_step k2 cmd r he x hp.1
      exact ⟨by omega, by rw [hd.1]; exact hp.2⟩)
    cmds k res (fun _ _ => trivial) hk ⟨hx, rfl⟩ h).1
  exact this.2

theorem start_index_inj (k : Kanban) (hk : Inv k) (i j : Int) (hi0 : 0 ≤ i)
    (hi1 : i < k.tasks.amount_started) (hj0 : 0 ≤ j) (hj1 : j < k.tasks.amount_started)
    (h : k.tasks.ordered_by_start i = k.tasks.ordered_by_start j) : i = j := by
  rcases lt_trichotomy i j with hlt | heq | hgt
  · exact absurd h (hk.start_inj i j hi0 hlt hj1)
  · exact heq
  · exact absurd h.symm (hk.start_inj j i hj0 hgt hi1)

/-- The run of a move out of "TO DO" followed by further commands. -/
theorem run_start (k : Kanban) (hk : Inv k) (id : Int) (user activity : CString)
    (hvalid : (is_move_valid k id user activity).1 ≠ 0)
    (hto_do : strcmp (k.tasks.task (id - 1)).activity STR_TO_DO = 0)
    (cmds : List Command) (res : Kanban × List Output)
    (h : main_loop k (Command.m id user activity :: cmds) = some res) :
    ∃ res2, main_loop { k with tasks := moved_to_do k.tasks id k.now user activity } cmds =
        some res2 ∧ res2.1 = res.1 ∧
      Inv { k with tasks := moved_to_do k.tasks id k.now user activity } := by
  obtain ⟨r, hr, hi, _, _, hc⟩ := main_loop_cons k hk (Command.m id user activity) cmds
  have hm := move_task_to_do k id user activity hvalid hto_do hk.first_le
  have hr2 : move_task k id user activity = some r := hr
  rw [hm] at hr2
  have hr3 := Option.some.inj hr2
  subst hr3
  rw [hc (by intro h; cases h)] at h
  cases hm2 : main_loop { k with tasks := moved_to_do k.tasks id k.now user activity } cmds with
  | none =>
    exfalso
    have : main_loop (Result.mk KEEP_GOING
      { k with tasks := moved_to_do k.tasks id k.now user activity }
      (move_report k.now k.now (k.tasks.task (id - 1)).duration activity)).state cmds = none := hm2
    rw [this] at h
    cases h
  | some x =>
    have : main_loop (Result.mk KEEP_GOING
      { k with tasks := moved_to_do k.tasks id k.now user activity }
      (move_report k.now k.now (k.tasks.task (id - 1)).duration activity)).state cmds =
        some x := hm2
    rw [this] at h
    cases h
    exact ⟨x, rfl, rfl, hi⟩

theorem map_out_eq_some (o : Option (Kanban × List Output)) (out : List Output)
    (y : Kanban × List Output) (h : o.map (fun x => (x.1, out ++ x.2)) = some y) :
    ∃ x, o = some x ∧ x.1 = y.1 ∧ y.2 = out ++ x.2 := by
  cases o with
  | none => cases h
  | some x =>
    have := Option.some.inj h
    exact ⟨x, rfl, by rw [← this], by rw [← this]⟩

theorem start_sorted_step (k : Kanban) (hk : Inv k) (hs : StartSorted k) (cmd : Command)
    (r : Result Kanban) (he : Effect k cmd r)
    (hw : ∀ time, cmd = Command.n time → k.now + time.toNat < 2 ^ 32) :
    StartSorted r.state := by
  cases he with
  | idle hnow htasks _ _ =>
    exact ⟨by rw [htasks]; exact hs.sorted, by rw [htasks, hnow]; exact hs.le_now⟩
  | advance time hcmd _ hnow htasks _ =>
    refine ⟨by rw [htasks]; exact hs.sorted, ?_⟩
    rw [htasks, hnow, Nat.mod_eq_of_lt (hw time hcmd)]
    intro i h0 h1
    exact le_trans (hs.le_now i h0 h1) (Nat.le_add_right _ _)
  | create duration description user _ _ hnow htasks _ =>
    have hold : ∀ i, 0 ≤ i → i < k.tasks.amount_started →
        (created k.tasks duration description user).task (k.tasks.ordered_by_start i) =
          k.tasks.task (k.tasks.ordered_by_start i) := by
      intro i h0 h1
      exact store_ne _ _ _ _ (by have := (hk.start_range i h0 h1).2; omega)
    refine ⟨?_, ?_⟩ <;> rw [htasks]
    · intro i j h0 hij hj
      have hj : j < k.tasks.amount_started := hj
      show ((created k.tasks duration description user).task (k.tasks.ordered_by_start i)).start ≤
        ((created k.tasks duration description user).task (k.tasks.ordered_by_start j)).start
      rw [hold i h0 (by omega), hold j (by omega) hj]
      exact hs.sorted i j h0 hij hj
    · intro i h0 h1
      have h1 : i < k.tasks.amount_started := h1
      show ((created k.tasks duration description user).task
        (k.tasks.ordered_by_start i)).start ≤ r.state.now
      rw [hold i h0 h1, hnow]
      exact hs.le_now i h0 h1
  | move id user activity _ _ _ hnow htasks _ =>
    refine ⟨?_, ?_⟩ <;> rw [htasks]
    · intro i j h0 hij hj
      show ((moved_started k.tasks id user activity).task _).start ≤
        ((moved_started k.tasks id user activity).task _).start
      rw [(moved_started_task _ _ _ _ _).2.1, (moved_started_task _ _ _ _ _).2.1]
      exact hs.sorted i j h0 hij hj
    · intro i h0 h1
      show ((moved_started k.tasks id user activity).task _).start ≤ r.state.now
      rw [(moved_started_task _ _ _ _ _).2.1, hnow]
      exact hs.le_now i h0 h1
  | start id user activity _ hvalid hto_do hnow htasks _ =>
    obtain ⟨hid1, hid2, _⟩ := (is_move_valid_iff k id user activity).1 hvalid
    obtain ⟨hp1, hp2, hnotin, _, _⟩ := move_to_do_pos k hk id hid1 hid2 hto_do
    have hf := hk.first_nonneg
    have hobs : (moved_to_do k.tasks id k.now user activity).ordered_by_start =
        insert_at k.tasks.ordered_by_start
          (binary_insert_pos (stamped k.tasks id k.now) k.tasks.ordered_by_start id
            k.tasks.first_at_current_time (k.tasks.amount_started - 1)) (id - 1)
          (k.tasks.amount_started - 1) := rfl
    generalize binary_insert_pos (stamped k.tasks id k.now) k.tasks.ordered_by_start id
      k.tasks.first_at_current_time (k.tasks.amount_started - 1) = p at hp1 hp2 hobs
    have hold : ∀ i, 0 ≤ i → i < k.tasks.amount_started →
        ((moved_to_do k.tasks id k.now user activity).task (k.tasks.ordered_by_start i)).start =
          (k.tasks.task (k.tasks.ordered_by_start i)).start := by
      intro i h0 h1
      rw [(moved_to_do_task _ _ _ _ _ _).2.2.1, if_neg (hnotin i h0 h1)]
    have hnew : ((moved_to_do k.tasks id k.now user activity).task (id - 1)).start = k.now := by
      rw [(moved_to_do_task _ _ _ _ _ _).2.2.1, if_pos rfl]
    refine ⟨?_, ?_⟩ <;> rw [htasks]
    · intro i j h0 hij hj
      have hj : j < k.tasks.amount_started + 1 := hj
      show ((moved_to_do k.tasks id k.now user activity).task
        ((moved_to_do k.tasks id k.now user activity).ordered_by_start i)).start ≤
        ((moved_to_do k.tasks id k.now user activity).task
        ((moved_to_do k.tasks id k.now user activity).ordered_by_start j)).start
      rw [hobs]
      refine insert_at_pairs (fun a b =>
        ((moved_to_do k.tasks id k.now user activity).task a).start ≤
        ((moved_to_do k.tasks id k.now user activity).task b).start) _ 0 p _ _
        (by omega) (by omega) ?_ ?_ ?_ i j h0 hij (by omega)
      · intro i j h0 hij hj
        show _ ≤ _
        rw [hold i h0 (by omega), hold j (by omega) (by omega)]
        exact hs.sorted i j h0 hij (by omega)
      · intro i h0 h1
        show _ ≤ _
        rw [hold i h0 (by omega), hnew]
        exact hs.le_now i h0 (by omega)
      · intro i h0 h1
        show _ ≤ _
        rw [hold i (by omega) (by omega), hnew, hk.window_now i (by omega) (by omega)]
    · intro i h0 h1
      have h1 : i < k.tasks.amount_started + 1 := h1
      show ((moved_to_do k.tasks id k.now user activity).task
        ((moved_to_do k.tasks id k.now user activity).ordered_by_start i)).start ≤ r.state.now
      rw [hobs, hnow]
      refine insert_at_all (fun a =>
        ((moved_to_do k.tasks id k.now user activity).task a).start ≤ k.now) _ 0 p _ _
        (by omega) (by omega) ?_ ?_ i h0 (by omega)
      · intro i h0 h1
        show _ ≤ _
        rw [hold i h0 (by omega)]
        exact hs.le_now i h0 (by omega)
      · show _ ≤ _
        rw [hnew]

theorem effect_now (k : Kanban) (cmd : Command) (cmds : List Command) (r : Result Kanban)
    (he : Effect k cmd r) (hq : cmd ≠ Command.q)
    (hw : k.now + clock_sum (cmd :: cmds) < 2 ^ 32) :
    (∀ time, cmd = Command.n time → k.now + time.toNat < 2 ^ 32) ∧
    r.state.now + clock_sum cmds < 2 ^ 32 := by
  cases he with
  | advance time hcmd _ hnow _ _ =>
    subst hcmd
    simp only [clock_sum] at hw
    refine ⟨fun t ht => by cases ht; omega, ?_⟩
    rw [hnow, Nat.mod_eq_of_lt (by omega)]
    omega
  | idle hnow _ _ hneg =>
    rw [hnow]
    cases cmd with
    | q => exact absurd rfl hq
    | n time =>
      have := hneg time rfl
      simp only [clock_sum] at hw
      exact ⟨fun t ht => by cases ht; omega, by omega⟩
    | _ => exact ⟨fun t ht => (by cases ht), by simpa only [clock_sum] using hw⟩
  | create _ _ _ hcmd _ hnow _ _ =>
    subst hcmd
    rw [hnow]
    exact ⟨fun t ht => (by cases ht), by simpa only [clock_sum] using hw⟩
  | move _ _ _ hcmd _ _ hnow _ _ =>
    subst hcmd
    rw [hnow]
    exact ⟨fun t ht => (by cases ht), by simpa only [clock_sum] using hw⟩
  | start _ _ _ hcmd _ _ hnow _ _ =>
    subst hcmd
    rw [hnow]
    exact ⟨fun t ht => (by cases ht), by simpa only [clock_sum] using hw⟩

theorem run_start_sorted (cmds : List Command) :
    ∀ (k : Kanban) (res : Kanban × List Output), Inv k → StartSorted k →
      k.now + clock_sum cmds < 2 ^ 32 → main_loop k cmds = some res → StartSorted res.1 := by
  induction cmds with
  | nil =>
    intro k res _ hs _ h
    cases h
    exact hs
  | cons cmd cmds ih =>
    intro k res hk hs hw h
    obtain ⟨r, _, hi, he, hq1, hq2⟩ := main_loop_cons k hk cmd cmds
    by_cases hq : cmd = Command.q
    · rw [hq1 hq] at h
      cases h
      exact start_sorted_step k hk hs cmd r he (fun t ht => by rw [hq] at ht; cases ht)
    · obtain ⟨hw1, hw2⟩ := effect_now k cmd cmds r he hq hw
      rw [hq2 hq] at h
      obtain ⟨x, hx, hxs, _⟩ := map_out_eq_some _ _ _ h
      rw [← hxs]
      exact ih r.state x hi (start_sorted_step k hk hs cmd r he hw1) hw2 hx

theorem setup_start_sorted (kanban : Kanban) : StartSorted (setup kanban) := by
  constructor
  · intro i j h0 hij hj
    simp only [setup] at hj
    omega
  · intro i h0 h1
    simp only [setup] at h1
    omega

/-! ## The live prefix as a list -/

theorem live_getElem? (order : Int → Int) (n : Int) (j : Nat) :
    (live order n)[j]? = if (j : Int) < n then some (order (j : Int)) else none := by
  unfold live
  rw [List.getElem?_map]
  by_cases h : (j : Int) < n
  · have h2 : j < n.toNat := by omega
    rw [List.getElem?_range h2, if_pos h]
    rfl
  · have h2 : n.toNat ≤ j := by omega
    rw [List.getElem?_eq_none (by rw [List.length_range]; exact h2), if_neg h]
    rfl

theorem live_length (order : Int → Int) (n : Int) : (live order n).length = n.toNat := by
  simp [live]

theorem live_mem (order : Int → Int) (n : Int) (v : Int) :
    v ∈ live order n ↔ ∃ i, 0 ≤ i ∧ i < n ∧ order i = v := by
  unfold live
  rw [List.mem_map]
  constructor
  · rintro ⟨j, hj, hv⟩
    rw [List.mem_range] at hj
    exact ⟨(j : Int), by omega, by omega, hv⟩
  · rintro ⟨i, h0, h1, hv⟩
    refine ⟨i.toNat, ?_, ?_⟩
    · rw [List.mem_range]; omega
    · have : ((i.toNat : Nat) : Int) = i := by omega
      rw [this]; exact hv

theorem live_nodup (order : Int → Int) (n : Int)
    (h : ∀ i j, 0 ≤ i → i < n → 0 ≤ j → j < n → order i = order j → i = j) :
    (live order n).Nodup := by
  unfold live
  refine List.Nodup.map_on ?_ (List.nodup_range _)
  intro x hx y hy hxy
  rw [List.mem_range] at hx hy
  have := h (x : Int) (y : Int) (by omega) (by omega) (by omega) (by omega) hxy
  omega

theorem insert_at_erase (order : Int → Int) (p v hi : Int) (h0 : 0 ≤ p) (h1 : p ≤ hi + 1) :
    (live (insert_at order p v hi) (hi + 2)).eraseIdx p.toNat = live order (hi + 1) := by
  apply List.ext_getElem?
  intro j
  rw [List.getElem?_eraseIdx, live_getElem?]
  by_cases hj : j < p.toNat
  · rw [if_pos hj, live_getElem?]
    have h2 : (j : Int) < hi + 2 := by omega
    have h3 : (j : Int) < hi + 1 := by omega
    rw [if_pos h2, if_pos h3, insert_at_below _ _ _ _ _ (by omega)]
  · rw [if_neg hj, live_getElem?, live_getElem?]
    by_cases h2 : (j : Int) < hi + 1
    · have h3 : ((j + 1 : Nat) : Int) < hi + 2 := by omega
      rw [if_pos h2, if_pos h3]
      have := insert_at_old order p v hi (j : Int) (by omega)
      rw [if_neg (by omega)] at this
      have e : ((j + 1 : Nat) : Int) = (j : Int) + 1 := by omega
      rw [e, this]
    · have h3 : ¬ ((j + 1 : Nat) : Int) < hi + 2 := by omega
      rw [if_neg h2, if_neg h3]

theorem effect_reported (k : Kanban) (cmd : Command) (r : Result Kanban) (he : Effect k cmd r) :
    (r.state.tasks.amount = k.tasks.amount ∧ reported_ids r.out = []) ∨
    (r.state.tasks.amount = k.tasks.amount + 1 ∧ reported_ids r.out = [k.tasks.amount + 1]) := by
  cases he with
  | idle _ htasks hout _ => exact Or.inl ⟨by rw [htasks], hout⟩
  | advance _ _ _ _ htasks hout => exact Or.inl ⟨by rw [htasks], hout⟩
  | create _ _ _ _ _ _ htasks hout => exact Or.inr ⟨by rw [htasks]; rfl, by rw [hout]; rfl⟩
  | move _ _ _ _ _ _ _ htasks hout => exact Or.inl ⟨by rw [htasks]; rfl, hout⟩
  | start _ _ _ _ _ _ _ htasks hout => exact Or.inl ⟨by rw [htasks]; rfl, hout⟩

theorem ids_from_succ (a : Int) (n : Nat) :
    (List.range (n + 1)).map (fun (i : Nat) => a + 1 + (i : Int)) =
      (a + 1) :: (List.range n).map (fun (i : Nat) => a + 1 + 1 + (i : Int)) := by
  rw [List.range_succ_eq_map, List.map_cons, List.map_map]
  congr 1
  · simp
  · apply List.map_congr_left
    intro i _
    simp only [Function.comp, Nat.succ_eq_add_one, Nat.cast_add, Nat.cast_one]
    omega

/-- The ids reported during a run are the consecutive numbers after the
number of tasks at its start, up to the number of tasks at its end. -/
theorem run_reported_ids (cmds : List Command) :
    ∀ (k : Kanban) (res : Kanban × List Output), Inv k → main_loop k cmds = some res →
      k.tasks.amount ≤ res.1.tasks.amount ∧
      reported_ids res.2 = (List.range (res.1.tasks.amount - k.tasks.amount).toNat).map
        (fun (i : Nat) => k.tasks.amount + 1 + (i : Int)) := by
  induction cmds with
  | nil =>
    intro k res _ h
    cases h
    simp [reported_ids]
  | cons cmd cmds ih =>
    intro k res hk h
    obtain ⟨r, _, hi, he, hq1, hq2⟩ := main_loop_cons k hk cmd cmds
    have hrep := effect_reported k cmd r he
    by_cases hq : cmd = Command.q
    · rw [hq1 hq] at h
      cases h
      subst hq
      cases he with
      | idle _ htasks hout _ =>
        refine ⟨by rw [htasks], ?_⟩
        show reported_ids r.out = _
        rw [hout, htasks]
        simp
      | advance _ hcmd _ _ _ _ => cases hcmd
      | create _ _ _ hcmd _ _ _ _ => cases hcmd
      | move _ _ _ hcmd _ _ _ _ _ => cases hcmd
      | start _ _ _ hcmd _ _ _ _ _ => cases hcmd
    · rw [hq2 hq] at h
      obtain ⟨x, hx, hxs, hxo⟩ := map_out_eq_some _ _ _ h
      obtain ⟨h1, h2⟩ := ih r.state x hi hx
      rw [hxo, reported_ids_append, h2, ← hxs]
      rcases hrep with ⟨ha, ho⟩ | ⟨ha, ho⟩
      · rw [ha] at h1 ⊢
        rw [ho]
        exact ⟨h1, rfl⟩
      · rw [ha] at h1 ⊢
        rw [ho]
        refine ⟨by omega, ?_⟩
        have e : (x.1.tasks.amount - k.tasks.amount).toNat =
            (x.1.tasks.amount - (k.tasks.amount + 1)).toNat + 1 := by omega
        rw [e, ids_from_succ]
        rfl

/-! ## The clock -/

theorem main_reached_inv (kanban : Kanban) (cmds : List Command) (r : Kanban × List Output)
    (h : main kanban cmds = some r) : Inv r.1 :=
  run_inv cmds (setup kanban) r (setup_inv kanban) h

theorem effect_now_eq (k : Kanban) (cmd : Command) (r : Result Kanban) (he : Effect k cmd r)
    (hn : ∀ time, cmd ≠ Command.n time) : r.state.now = k.now := by
  cases he with
  | idle hnow _ _ _ => exact hnow
  | advance time hcmd _ _ _ _ => exact absurd hcmd (hn time)
  | create _ _ _ _ _ hnow _ _ => exact hnow
  | move _ _ _ _ _ _ hnow _ _ => exact hnow
  | start _ _ _ _ _ _ hnow _ _ => exact hnow

/-- The clock after a run is the sum of the accepted advances, modulo `2 ^ 32`. -/
theorem run_now (cmds : List Command) :
    ∀ (k : Kanban) (res : Kanban × List Output), Inv k → main_loop k cmds = some res →
      res.1.now = (k.now + clock_sum cmds) % 2 ^ 32 := by
  induction cmds with
  | nil =>
    intro k res hk h
    cases h
    have := hk.now_lt
    simp only [clock_sum, Nat.add_zero]
    rw [Nat.mod_eq_of_lt this]
  | cons cmd cmds ih =>
    intro k res hk h
    obtain ⟨r, _, hi, he, hq1, hq2⟩ := main_loop_cons k hk cmd cmds
    have hlt := hk.now_lt
    by_cases hq : cmd = Command.q
    · rw [hq1 hq] at h
      cases h
      subst hq
      have := effect_now_eq k Command.q r he (fun t h => by cases h)
      show r.state.now = _
      rw [this]
      simp only [clock_sum, Nat.add_zero]
      rw [Nat.mod_eq_of_lt hlt]
    · rw [hq2 hq] at h
      obtain ⟨x, hx, hxs, _⟩ := map_out_eq_some _ _ _ h
      have h2 := ih r.state x hi hx
      rw [← hxs, h2]
      cases he with
      | advance time hcmd htime hnow _ _ =>
        subst hcmd
        rw [hnow]
        simp only [clock_sum]
        omega
      | idle hnow _ _ hneg =>
        rw [hnow]
        cases cmd with
        | q => exact absurd rfl hq
        | n time =>
          have := hneg time rfl
          simp only [clock_sum]
          have e : time.toNat = 0 := by omega
          rw [e, Nat.zero_add]
        | _ => simp only [clock_sum]
      | create _ _ _ hcmd _ hnow _ _ => subst hcmd; rw [hnow]; simp only [clock_sum]
      | move _ _ _ hcmd _ _ hnow _ _ => subst hcmd; rw [hnow]; simp only [clock_sum]
      | start _ _ _ hcmd _ _ hnow _ _ => subst hcmd; rw [hnow]; simp only [clock_sum]

theorem advance_time_accept (k : Kanban) (time : Int) (h : 0 ≤ time) :
    advance_time k time = ⟨KEEP_GOING,
      { k with
        now := (k.now + time.toNat) % 2 ^ 32,
        tasks := { k.tasks with first_at_current_time := k.tasks.amount_started } },
      [Output.time ((k.now + time.toNat) % 2 ^ 32)]⟩ := by
  have ht : ¬ time < 0 := by omega
  simp [advance_time, is_time_valid, ht]

theorem advance_time_reject (k : Kanban) (time : Int) (h : time < 0) :
    advance_time k time = ⟨KEEP_GOING, k, [Output.invalid_time]⟩ := by
  simp [advance_time, is_time_valid, h]

/-! ## Validation -/

theorem is_existing_user_ne_zero (l : UserList) (user : CString) :
    is_existing_user l user ≠ 0 ↔
      ∃ i : Int, 0 ≤ i ∧ i < l.amount ∧ strcmp user (l.user i) = 0 := by
  unfold is_existing_user
  have h := range_any_int l.amount (fun i => strcmp user (l.user i) = EQUAL)
  by_cases hc : (List.range l.amount.toNat).any
      (fun (i : Nat) => decide (strcmp user (l.user (i : Int)) = EQUAL)) = true
  · rw [if_pos hc]
    exact ⟨fun _ => h.1 hc, fun _ => by decide⟩
  · rw [if_neg hc]
    exact ⟨fun h0 => absurd rfl h0, fun h1 => absurd (h.2 h1) hc⟩

theorem is_existing_activity_ne_zero (l : ActivityList) (activity : CString) :
    is_existing_activity l activity ≠ 0 ↔
      ∃ i : Int, 0 ≤ i ∧ i < l.amount ∧ strcmp activity (l.activity i) = 0 := by
  unfold is_existing_activity
  have h := range_any_int l.amount (fun i => strcmp activity (l.activity i) = EQUAL)
  by_cases hc : (List.range l.amount.toNat).any
      (fun (i : Nat) => decide (strcmp activity (l.activity (i : Int)) = EQUAL)) = true
  · rw [if_pos hc]
    exact ⟨fun _ => h.1 hc, fun _ => by decide⟩
  · rw [if_neg hc]
    exact ⟨fun h0 => absurd rfl h0, fun h1 => absurd (h.2 h1) hc⟩

theorem is_move_valid_bit (k : Kanban) (id : Int) (user activity : CString) :
    (is_move_valid k id user activity).1 = 0 ∨ (is_move_valid k id user activity).1 = 1 := by
  unfold is_move_valid
  split_ifs <;> simp

theorem is_new_task_valid_bit (l : TaskList) (t : Task) :
    (is_new_task_valid l t).1 = 0 ∨ (is_new_task_valid l t).1 = 1 := by
  unfold is_new_task_valid
  split_ifs <;> simp

/-! ## Start times and the report of a move -/

theorem start_bound_step (k : Kanban) (hk : Inv k) (hb : StartBound k) (cmd : Command)
    (r : Result Kanban) (he : Effect k cmd r) : StartBound r.state := by
  unfold StartBound at *
  cases he with
  | idle _ htasks _ _ => rw [htasks]; exact hb
  | advance _ _ _ _ htasks _ => rw [htasks]; exact hb
  | create duration description user _ _ _ htasks _ =>
    rw [htasks]
    intro t h0 h1
    have h1 : t < k.tasks.amount + 1 := h1
    show (store k.tasks.task k.tasks.amount (fresh_task duration description user) t).start < _
    by_cases ht : t = k.tasks.amount
    · rw [ht, store_eq]
      show 0 < 2 ^ 32
      decide
    · rw [store_ne _ _ _ _ ht]
      exact hb t h0 (by omega)
  | move id user activity _ _ _ _ htasks _ =>
    rw [htasks]
    intro t h0 h1
    rw [(moved_started_task k.tasks id user activity t).2.1]
    exact hb t h0 h1
  | start id user activity _ _ _ _ htasks _ =>
    rw [htasks]
    intro t h0 h1
    rw [(moved_to_do_task k.tasks id k.now user activity t).2.2.1]
    split_ifs
    · exact hk.now_lt
    · exact hb t h0 h1

theorem main_start_bound (kanban : Kanban) (cmds : List Command) (r : Kanban × List Output)
    (h : main kanban cmds = some r) : StartBound r.1 :=
  (main_loop_induct (fun _ => True) StartBound
    (fun k cmd r _ hk hp _ he => start_bound_step k hk hp cmd r he)
    cmds (setup kanban) r (fun _ _ => trivial) (setup_inv kanban)
    (fun t h0 h1 => by
      have h1 : t < 0 := h1
      omega) h).1

theorem wrap_int_of_range (x : Int) (h0 : -(2 ^ 31) ≤ x) (h1 : x < 2 ^ 31) : wrap_int x = x := by
  unfold wrap_int
  omega

/-- The difference of two 32-bit unsigned values, converted to `int`. -/
theorem to_int_sub (now start : Nat) (hs : start < 2 ^ 32) :
    to_int (now + (2 ^ 32 - start % 2 ^ 32)) = wrap_int ((now : Int) - (start : Int)) := by
  unfold to_int wrap_int
  rw [Nat.mod_eq_of_lt hs]
  split_ifs <;> omega

theorem strcmp_strcpy_self (s : CString) : strcmp (strcpy s) s = 0 := by
  rw [strcmp_strcpy_left, strcmp_self]

theorem move_report_done (now start : Nat) (duration : Int) (activity : CString)
    (h : strcmp activity STR_DONE = 0) :
    move_report now start duration activity =
      [Output.move_done (to_int (now + (2 ^ 32 - start % 2 ^ 32)))
        (wrap_int (to_int (now + (2 ^ 32 - start % 2 ^ 32)) - duration))] := by
  have h2 : strcmp activity STR_DONE = EQUAL := h
  simp only [move_report, h2, if_true]

theorem move_report_other (now start : Nat) (duration : Int) (activity : CString)
    (h : strcmp activity STR_DONE ≠ 0) : move_report now start duration activity = [] := by
  have h2 : ¬ strcmp activity STR_DONE = EQUAL := h
  simp only [move_report, h2, if_false]

/-! ## The listing of an activity -/

theorem strcmp_eq_trans (a b c : CString) (h1 : strcmp a b = 0) (h2 : strcmp b c = 0) :
    strcmp a c = 0 := by
  have t1 := (strcmp_trans a b c).1 (by omega) (by omega)
  have t2 := (strcmp_trans c b a).1 (by rw [strcmp_swap b c]; omega)
    (by rw [strcmp_swap a b]; omega)
  rw [strcmp_swap a c] at t2
  omega

theorem flatMap_filter_map {α β : Type} (l : List Nat) (g : Nat → α) (p : α → Bool)
    (f : α → β) :
    l.flatMap (fun (i : Nat) => if p (g i) = true then [f (g i)] else []) =
      ((l.map g).filter p).map f := by
  induction l with
  | nil => rfl
  | cons i l ih =>
    rw [List.flatMap_cons, ih, List.map_cons]
    by_cases h : p (g i) = true
    · rw [if_pos h, List.filter_cons_of_pos h, List.map_cons]
      rfl
    · rw [if_neg h, List.filter_cons_of_neg h]
      rfl

/-- The lines of `print_activity` are the lines of the entries of the vector
whose task is in the activity, in the order of the vector. -/
theorem print_activity_eq (k : Kanban) (activity : CString) (order : Int → Int) (sz : Int) :
    print_activity k activity order sz =
      ((live order sz).filter (in_activity k.tasks activity)).map (display_line k.tasks) := by
  unfold print_activity live
  rw [← flatMap_filter_map (List.range sz.toNat) (fun (i : Nat) => order (i : Int))
    (in_activity k.tasks activity) (display_line k.tasks)]
  congr 1
  funext i
  simp only [in_activity, display_line, decide_eq_true_eq]

theorem display_activity_eq (k : Kanban) (activity : CString)
    (h : is_existing_activity k.activities activity ≠ 0) :
    display_activity k activity =
      ⟨KEEP_GOING, k, (listed k activity).map (display_line k.tasks)⟩ := by
  have h2 : ¬ is_existing_activity k.activities activity = 0 := h
  unfold display_activity listed is_activity_valid
  simp only [h2, if_false, ne_eq, one_ne_zero, not_false_eq_true, if_true, List.nil_append,
    print_activity_eq]
  split_ifs <;> rfl

theorem display_line_injective (l : TaskList) (x y : Int)
    (h : display_line l x = display_line l y) : x = y := by
  simp only [display_line, Output.display.injEq] at h
  omega

theorem descr_index_inj (k : Kanban) (hk : Inv k) (i j : Int) (hi0 : 0 ≤ i)
    (hi1 : i < k.tasks.amount) (hj0 : 0 ≤ j) (hj1 : j < k.tasks.amount)
    (h : k.tasks.ordered_by_description i = k.tasks.ordered_by_description j) : i = j := by
  rcases lt_trichotomy i j with hlt | heq | hgt
  · have := hk.descr_sorted i j hi0 hlt hj1
    rw [h, strcmp_self] at this
    omega
  · exact heq
  · have := hk.descr_sorted j i hj0 hgt hi1
    rw [h, strcmp_self] at this
    omega

theorem listed_nodup (k : Kanban) (hk : Inv k) (activity : CString) :
    (listed k activity).Nodup := by
  unfold listed
  split_ifs
  · exact List.Nodup.filter _ (live_nodup _ _ (descr_index_inj k hk))
  · exact List.Nodup.filter _ (live_nodup _ _ (start_index_inj k hk))

theorem mem_listed (k : Kanban) (hk : Inv k) (activity : CString) (t : Int) :
    t ∈ listed k activity ↔
      0 ≤ t ∧ t < k.tasks.amount ∧ strcmp (k.tasks.task t).activity activity = 0 := by
  unfold listed
  split_ifs with ha
  · rw [List.mem_filter, live_mem]
    simp only [in_activity, decide_eq_true_eq, EQUAL]
    constructor
    · rintro ⟨⟨i, h0, h1, hi⟩, hp⟩
      have := hk.descr_range i h0 h1
      rw [hi] at this
      exact ⟨this.1, this.2, hp⟩
    · rintro ⟨h0, h1, hp⟩
      exact ⟨hk.descr_onto t h0 h1, hp⟩
  · rw [List.mem_filter, live_mem]
    simp only [in_activity, decide_eq_true_eq, EQUAL]
    constructor
    · rintro ⟨⟨i, h0, h1, hi⟩, hp⟩
      have := hk.start_range i h0 h1
      rw [hi] at this
      exact ⟨this.1, this.2, hp⟩
    · rintro ⟨h0, h1, hp⟩
      refine ⟨hk.start_onto t h0 h1 ?_, hp⟩
      intro htd
      apply ha
      have h2 : strcmp activity (k.tasks.task t).activity = 0 := by
        rw [strcmp_swap (k.tasks.task t).activity activity]; omega
      exact strcmp_eq_trans _ _ _ h2 htd

/-! ## Bounds of the indices -/

/-- The logged loop computes what the loop of the model computes. -/
theorem binary_insert_trace_fst (l : TaskList) (order : Int → Int) (id : Int) (n : Nat) :
    ∀ s e : Int, (binary_insert_trace l order id n s e).1 = binary_insert_loop l order id n s e := by
  induction n with
  | zero => intro s e; rfl
  | succ n ih =>
    intro s e
    simp only [binary_insert_trace, binary_insert_loop]
    split_ifs
    · exact ih _ _
    · exact ih _ _
    · rfl

/-- The loop reads positions of its range only. -/
theorem binary_insert_trace_range (l : TaskList) (order : Int → Int) (id : Int) (n : Nat) :
    ∀ s e : Int, ∀ m ∈ (binary_insert_trace l order id n s e).2, s ≤ m ∧ m ≤ e := by
  induction n with
  | zero =>
    intro s e m hm
    simp only [binary_insert_trace, List.not_mem_nil] at hm
  | succ n ih =>
    intro s e m hm
    simp only [binary_insert_trace] at hm
    by_cases hc : e ≥ s
    · have hmid := tdiv_mid s e hc
      rw [if_pos hc] at hm
      by_cases hg : strcmp (l.task (order ((s + e).tdiv 2))).description
          (l.task (id - 1)).description > 0
      · rw [if_pos hg] at hm
        rcases List.mem_cons.1 hm with h | h
        · omega
        · have := ih s ((s + e).tdiv 2 - 1) m h
          omega
      · rw [if_neg hg] at hm
        rcases List.mem_cons.1 hm with h | h
        · omega
        · have := ih ((s + e).tdiv 2 + 1) e m h
          omega
    · rw [if_neg hc] at hm
      simp only [List.not_mem_nil] at hm

theorem binary_insert_reads_range (l : TaskList) (order : Int → Int) (id lo hi : Int) :
    ∀ m ∈ binary_insert_reads l order id lo hi, lo ≤ m ∧ m ≤ hi :=
  binary_insert_trace_range l order id _ lo hi

/-- The tasks of the start-time index are as many as the index is long, and
none of them is a given task in "TO DO": there are fewer than `amount`. -/
theorem started_lt_amount (k : Kanban) (hk : Inv k) (t : Int) (h0 : 0 ≤ t)
    (h1 : t < k.tasks.amount) (ht : strcmp (k.tasks.task t).activity STR_TO_DO = 0) :
    k.tasks.amount_started < k.tasks.amount := by
  have hf := hk.first_nonneg
  have hfl := hk.first_le
  have hcard := Finset.card_le_card_of_injOn
    (s := Finset.range k.tasks.amount_started.toNat)
    (t := (Finset.range k.tasks.amount.toNat).erase t.toNat)
    (fun (i : Nat) => (k.tasks.ordered_by_start (i : Int)).toNat)
    (by
      intro i hi
      rw [Finset.mem_range] at hi
      have hr := hk.start_range (i : Int) (by omega) (by omega)
      have ha := hk.start_active (i : Int) (by omega) (by omega)
      show (k.tasks.ordered_by_start (i : Int)).toNat ∈ _
      rw [Finset.mem_erase, Finset.mem_range]
      refine ⟨?_, by omega⟩
      intro heq
      have : k.tasks.ordered_by_start (i : Int) = t := by omega
      rw [this] at ha
      exact ha ht)
    (by
      intro i hi j hj hij
      have hi : i < k.tasks.amount_started.toNat := by simpa using hi
      have hj : j < k.tasks.amount_started.toNat := by simpa using hj
      have hri := hk.start_range (i : Int) (by omega) (by omega)
      have hrj := hk.start_range (j : Int) (by omega) (by omega)
      have hij : (k.tasks.ordered_by_start (i : Int)).toNat =
        (k.tasks.ordered_by_start (j : Int)).toNat := hij
      have := start_index_inj k hk (i : Int) (j : Int) (by omega) (by omega) (by omega)
        (by omega) (by omega)
      omega)
  rw [Finset.card_range, Finset.card_erase_of_mem (by rw [Finset.mem_range]; omega),
    Finset.card_range] at hcard
  omega

theorem started_le_amount (k : Kanban) (hk : Inv k) :
    k.tasks.amount_started ≤ k.tasks.amount := by
  have hn := hk.amount_nonneg
  have hf := hk.first_nonneg
  have hfl := hk.first_le
  have hcard := Finset.card_le_card_of_injOn
    (s := Finset.range k.tasks.amount_started.toNat)
    (t := Finset.range k.tasks.amount.toNat)
    (fun (i : Nat) => (k.tasks.ordered_by_start (i : Int)).toNat)
    (by
      intro i hi
      rw [Finset.mem_range] at hi
      have hr := hk.start_range (i : Int) (by omega) (by omega)
      show (k.tasks.ordered_by_start (i : Int)).toNat ∈ _
      rw [Finset.mem_range]
      omega)
    (by
      intro i hi j hj hij
      have hi : i < k.tasks.amount_started.toNat := by simpa using hi
      have hj : j < k.tasks.amount_started.toNat := by simpa using hj
      have hri := hk.start_range (i : Int) (by omega) (by omega)
      have hrj := hk.start_range (j : Int) (by omega) (by omega)
      have hij : (k.tasks.ordered_by_start (i : Int)).toNat =
        (k.tasks.ordered_by_start (j : Int)).toNat := hij
      have := start_index_inj k hk (i : Int) (j : Int) (by omega) (by omega) (by omega)
        (by omega) (by omega)
      omega)
  rw [Finset.card_range, Finset.card_range] at hcard
  omega

theorem safe_call_new_task (k : Kanban) (hk : Inv k) (duration : Int)
    (description user : CString)
    (hv : (is_new_task_valid k.tasks (fresh_task duration description user)).1 ≠ 0) :
    SafeCall (append_task k.tasks (fresh_task duration description user))
      (append_task k.tasks (fresh_task duration description user)).ordered_by_description
      k.tasks.amount
      (append_task k.tasks (fresh_task duration description user)).amount 0
      ((append_task k.tasks (fresh_task duration description user)).amount - 2) := by
  obtain ⟨hlt, _, _⟩ := (is_new_task_valid_iff _ _).1 hv
  have hn := hk.amount_nonneg
  have ea : (append_task k.tasks (fresh_task duration description user)).amount =
      k.tasks.amount + 1 := rfl
  have eo : (append_task k.tasks (fresh_task duration description user)).ordered_by_description =
      k.tasks.ordered_by_description := rfl
  rw [ea, eo]
  obtain ⟨hp1, hp2, _, _⟩ := binary_insert_pos_local
    (append_task k.tasks (fresh_task duration description user))
    k.tasks.ordered_by_description (k.tasks.amount + 1) 0 (k.tasks.amount + 1 - 2) (by omega)
  exact
    { range := ⟨le_refl _, by omega⟩
      shift := by omega
      reads := fun m hm => by
        have hr := binary_insert_reads_range _ _ _ _ _ m hm
        have hd := hk.descr_range m hr.1 (by omega)
        rw [ea]
        exact ⟨hr.1, by omega, hd.1, by omega⟩
      new_task_index := by rw [ea]; omega
      amount_le := by rw [ea]; omega
      written := ⟨hp1, by omega⟩
      len_lt := hlt
      moved_from := by omega
      moved_to := by omega
      returns := ⟨_, binary_insert_eq _ _ _ _ _ (by omega)⟩ }

theorem safe_call_move_task (k : Kanban) (hk : Inv k) (id : Int) (user activity : CString)
    (hv : (is_move_valid k id user activity).1 ≠ 0)
    (ht : strcmp (k.tasks.task (id - 1)).activity STR_TO_DO = 0) :
    SafeCall (stamped k.tasks id k.now) k.tasks.ordered_by_start k.tasks.amount_started id
      k.tasks.first_at_current_time (k.tasks.amount_started - 1) := by
  obtain ⟨hid1, hid2, _⟩ := (is_move_valid_iff k id user activity).1 hv
  have hf := hk.first_nonneg
  have hfl := hk.first_le
  have hal := hk.amount_le
  have hlt := started_lt_amount k hk (id - 1) (by omega) (by omega) ht
  have ea : (stamped k.tasks id k.now).amount = k.tasks.amount := rfl
  obtain ⟨hp1, hp2, _, _⟩ := binary_insert_pos_local (stamped k.tasks id k.now)
    k.tasks.ordered_by_start id k.tasks.first_at_current_time (k.tasks.amount_started - 1)
    (by omega)
  exact
    { range := ⟨hf, by omega⟩
      shift := by omega
      reads := fun m hm => by
        have hr := binary_insert_reads_range _ _ _ _ _ m hm
        have hd := hk.start_range m (by omega) (by omega)
        rw [ea]
        exact ⟨by omega, by omega, hd.1, hd.2⟩
      new_task_index := by rw [ea]; omega
      amount_le := by rw [ea]; exact hal
      written := ⟨by omega, by omega⟩
      len_lt := by omega
      moved_from := by omega
      moved_to := by omega
      returns := ⟨_, binary_insert_eq _ _ _ _ _ (by omega)⟩ }

/-! ## Order of the start-time index by start time and description -/

theorem pair_sorted_step (k : Kanban) (hk : Inv k) (hs : StartSorted k) (hp : PairSorted k)
    (cmd : Command) (r : Result Kanban) (he : Effect k cmd r)
    (hw : ∀ time, cmd = Command.n time → 0 ≤ time →
      0 < time ∧ k.now + time.toNat < 2 ^ 32) :
    PairSorted r.state := by
  cases he with
  | idle hnow htasks _ _ =>
    exact ⟨by rw [htasks, hnow]; exact hp.before_window, by rw [htasks]; exact hp.ties⟩
  | advance time hcmd htime hnow htasks _ =>
    obtain ⟨hpos, hnw⟩ := hw time hcmd htime
    refine ⟨?_, by rw [htasks]; exact hp.ties⟩
    rw [htasks, hnow, Nat.mod_eq_of_lt hnw]
    intro i h0 h1
    have h1 : i < k.tasks.amount_started := h1
    have := hs.le_now i h0 h1
    show (k.tasks.task (k.tasks.ordered_by_start i)).start < k.now + time.toNat
    omega
  | create duration description user _ _ hnow htasks _ =>
    have hold : ∀ i, 0 ≤ i → i < k.tasks.amount_started →
        (created k.tasks duration description user).task (k.tasks.ordered_by_start i) =
          k.tasks.task (k.tasks.ordered_by_start i) := by
      intro i h0 h1
      exact store_ne _ _ _ _ (by have := (hk.start_range i h0 h1).2; omega)
    have hfl := hk.first_le
    refine ⟨?_, ?_⟩ <;> rw [htasks]
    · intro i h0 h1
      have h1 : i < k.tasks.first_at_current_time := h1
      show ((created k.tasks duration description user).task
        (k.tasks.ordered_by_start i)).start < r.state.now
      rw [hold i h0 (by omega), hnow]
      exact hp.before_window i h0 h1
    · intro i j h0 hij hj
      have hj : j < k.tasks.amount_started := hj
      show ((created k.tasks duration description user).task (k.tasks.ordered_by_start i)).start =
        ((created k.tasks duration description user).task (k.tasks.ordered_by_start j)).start →
        strcmp ((created k.tasks duration description user).task
          (k.tasks.ordered_by_start i)).description
          ((created k.tasks duration description user).task
          (k.tasks.ordered_by_start j)).description < 0
      rw [hold i h0 (by omega), hold j (by omega) hj]
      exact hp.ties i j h0 hij hj
  | move id user activity _ _ _ hnow htasks _ =>
    refine ⟨?_, ?_⟩ <;> rw [htasks]
    · intro i h0 h1
      show ((moved_started k.tasks id user activity).task _).start < r.state.now
      rw [(moved_started_task _ _ _ _ _).2.1, hnow]
      exact hp.before_window i h0 h1
    · intro i j h0 hij hj
      show ((moved_started k.tasks id user activity).task _).start =
        ((moved_started k.tasks id user activity).task _).start →
        strcmp ((moved_started k.tasks id user activity).task _).description
          ((moved_started k.tasks id user activity).task _).description < 0
      rw [(moved_started_task _ _ _ _ _).2.1, (moved_started_task _ _ _ _ _).2.1,
        (moved_started_task _ _ _ _ _).1, (moved_started_task _ _ _ _ _).1]
      exact hp.ties i j h0 hij hj
  | start id user activity _ hvalid hto_do hnow htasks _ =>
    obtain ⟨hid1, hid2, _⟩ := (is_move_valid_iff k id user activity).1 hvalid
    obtain ⟨hp1, hp2, hnotin, hleft, hright⟩ := move_to_do_pos k hk id hid1 hid2 hto_do
    have hf := hk.first_nonneg
    have hfl := hk.first_le
    have hobs : (moved_to_do k.tasks id k.now user activity).ordered_by_start =
        insert_at k.tasks.ordered_by_start
          (binary_insert_pos (stamped k.tasks id k.now) k.tasks.ordered_by_start id
            k.tasks.first_at_current_time (k.tasks.amount_started - 1)) (id - 1)
          (k.tasks.amount_started - 1) := rfl
    generalize binary_insert_pos (stamped k.tasks id k.now) k.tasks.ordered_by_start id
      k.tasks.first_at_current_time (k.tasks.amount_started - 1) = p
      at hp1 hp2 hleft hright hobs
    have hold : ∀ i, 0 ≤ i → i < k.tasks.amount_started →
        ((moved_to_do k.tasks id k.now user activity).task (k.tasks.ordered_by_start i)).start =
          (k.tasks.task (k.tasks.ordered_by_start i)).start := by
      intro i h0 h1
      rw [(moved_to_do_task _ _ _ _ _ _).2.2.1, if_neg (hnotin i h0 h1)]
    have hnew : ((moved_to_do k.tasks id k.now user activity).task (id - 1)).start = k.now := by
      rw [(moved_to_do_task _ _ _ _ _ _).2.2.1, if_pos rfl]
    have hdesc : ∀ x, ((moved_to_do k.tasks id k.now user activity).task x).description =
        (k.tasks.task x).description := fun x => (moved_to_do_task _ _ _ _ _ _).1
    refine ⟨?_, ?_⟩ <;> rw [htasks]
    · intro i h0 h1
      have h1 : i < k.tasks.first_at_current_time := h1
      show ((moved_to_do k.tasks id k.now user activity).task
        ((moved_to_do k.tasks id k.now user activity).ordered_by_start i)).start < r.state.now
      rw [hobs, insert_at_below _ _ _ _ _ (by omega), hold i h0 (by omega), hnow]
      exact hp.before_window i h0 h1
    · intro i j h0 hij hj
      have hj : j < k.tasks.amount_started + 1 := hj
      show ((moved_to_do k.tasks id k.now user activity).task
        ((moved_to_do k.tasks id k.now user activity).ordered_by_start i)).start =
        ((moved_to_do k.tasks id k.now user activity).task
        ((moved_to_do k.tasks id k.now user activity).ordered_by_start j)).start →
        strcmp ((moved_to_do k.tasks id k.now user activity).task
          ((moved_to_do k.tasks id k.now user activity).ordered_by_start i)).description
          ((moved_to_do k.tasks id k.now user activity).task
          ((moved_to_do k.tasks id k.now user activity).ordered_by_start j)).description < 0
      rw [hobs]
      refine insert_at_pairs (fun a b =>
        ((moved_to_do k.tasks id k.now user activity).task a).start =
          ((moved_to_do k.tasks id k.now user activity).task b).start →
        strcmp ((moved_to_do k.tasks id k.now user activity).task a).description
          ((moved_to_do k.tasks id k.now user activity).task b).description < 0) _ 0 p _ _
        (by omega) (by omega) ?_ ?_ ?_ i j h0 hij (by omega)
      · intro i j h0 hij hj
        show _ = _ → strcmp _ _ < 0
        rw [hold i h0 (by omega), hold j (by omega) (by omega), hdesc, hdesc]
        exact hp.ties i j h0 hij (by omega)
      · intro i h0 h1
        show _ = _ → strcmp _ _ < 0
        rw [hold i h0 (by omega), hnew, hdesc, hdesc]
        intro heq
        by_cases hi : k.tasks.first_at_current_time ≤ i
        · exact hleft i hi h1
        · have := hp.before_window i h0 (by omega)
          omega
      · intro i h0 h1
        show _ = _ → strcmp _ _ < 0
        rw [hdesc, hdesc]
        intro _
        exact hright i h0 (by omega)

theorem run_pair_sorted (cmds : List Command) :
    ∀ (k : Kanban) (res : Kanban × List Output), Inv k → StartSorted k → PairSorted k →
      (∀ c ∈ cmds, c ≠ Command.n 0) → k.now + clock_sum cmds < 2 ^ 32 →
      main_loop k cmds = some res → StartSorted res.1 ∧ PairSorted res.1 := by
  induction cmds with
  | nil =>
    intro k res _ hs hp _ _ h
    cases h
    exact ⟨hs, hp⟩
  | cons cmd cmds ih =>
    intro k res hk hs hp hz hw h
    obtain ⟨r, _, hi, he, hq1, hq2⟩ := main_loop_cons k hk cmd cmds
    have hcz : cmd ≠ Command.n 0 := hz cmd (List.mem_cons_self _ _)
    by_cases hq : cmd = Command.q
    · rw [hq1 hq] at h
      cases h
      exact ⟨start_sorted_step k hk hs cmd r he (fun t ht => by rw [hq] at ht; cases ht),
        pair_sorted_step k hk hs hp cmd r he (fun t ht => by rw [hq] at ht; cases ht)⟩
    · obtain ⟨hw1, hw2⟩ := effect_now k cmd cmds r he hq hw
      rw [hq2 hq] at h
      obtain ⟨x, hx, hxs, _⟩ := map_out_eq_some _ _ _ h
      rw [← hxs]
      have hstep : ∀ time, cmd = Command.n time → 0 ≤ time →
          0 < time ∧ k.now + time.toNat < 2 ^ 32 := by
        intro time ht h0
        refine ⟨?_, hw1 time ht⟩
        rcases eq_or_lt_of_le h0 with h1 | h1
        · rw [← h1] at ht
          exact absurd ht hcz
        · exact h1
      exact ih r.state x hi (start_sorted_step k hk hs cmd r he hw1)
        (pair_sorted_step k hk hs hp cmd r he hstep)
        (fun c hc => hz c (List.mem_cons_of_mem _ hc)) hw2 hx

theorem setup_pair_sorted (kanban : Kanban) : PairSorted (setup kanban) := by
  constructor
  · intro i h0 h1
    simp only [setup] at h1
    omega
  · intro i j h0 hij hj
    simp only [setup] at hj
    omega

/-! ## Insertion into an empty range -/

theorem binary_insert_empty_range (l : TaskList) (order : Int → Int) (id lo hi : Int)
    (h : lo = hi + 1) : empty_range_write l order id lo hi := by
  have hp := binary_insert_pos_empty l order id lo hi (by omega)
  refine ⟨_, binary_insert_eq l order id lo hi (by omega), hp, by rw [hp]; omega, ?_, ?_⟩
  · rw [hp, insert_at_self]
  · intro i hi1
    rw [hp]
    simp only [insert_at]
    rw [if_neg hi1, if_neg (by omega)]

/-! ## Strings inside their arrays -/

theorem descriptions_fit_step (k : Kanban) (hp : DescriptionsFit k.tasks) (cmd : Command)
    (hc : fits cmd = true) (r : Result Kanban) (he : Effect k cmd r) :
    DescriptionsFit r.state.tasks := by
  unfold DescriptionsFit at *
  cases he with
  | idle _ htasks _ _ => rw [htasks]; exact hp
  | advance _ _ _ _ htasks _ => rw [htasks]; exact hp
  | create duration description user hcmd _ _ htasks _ =>
    rw [htasks]
    intro t h0 h1
    have h1 : t < k.tasks.amount + 1 := h1
    show strlen (store k.tasks.task k.tasks.amount
      (fresh_task duration description user) t).description < _
    by_cases ht : t = k.tasks.amount
    · rw [ht, store_eq]
      rw [hcmd] at hc
      exact of_decide_eq_true hc
    · rw [store_ne _ _ _ _ ht]
      exact hp t h0 (by omega)
  | move id user activity _ _ _ _ htasks _ =>
    rw [htasks]
    intro t h0 h1
    rw [(moved_started_task k.tasks id user activity t).1]
    exact hp t h0 h1
  | start id user activity _ _ _ _ htasks _ =>
    rw [htasks]
    intro t h0 h1
    rw [(moved_to_do_task k.tasks id k.now user activity t).1]
    exact hp t h0 h1

/-- On an input whose strings fit their arrays every description that the
program stores lies inside its own array. -/
theorem main_descriptions_fit (kanban : Kanban) (cmds : List Command)
    (hfit : ∀ c ∈ cmds, fits c = true) (r : Kanban × List Output)
    (h : main kanban cmds = some r) : DescriptionsFit r.1.tasks :=
  (main_loop_induct (fun c => fits c = true) (fun k => DescriptionsFit k.tasks)
    (fun k cmd r hc _ hp _ he => descriptions_fit_step k hp cmd hc r he)
    cmds (setup kanban) r hfit (setup_inv kanban)
    (fun t h0 h1 => by
      have h1 : t < 0 := h1
      omega) h).1

/-- A `t` command fits when its description has at most 50 bytes before the
terminator, an `m` command when its user and its activity have at most 20. -/
theorem fits_iff (id duration : Int) (description garbage user activity : CString) :
    (fits (Command.t duration description garbage) = true ↔ strlen description ≤ 50) ∧
    (fits (Command.m id user activity) = true ↔ strlen user ≤ 20 ∧ strlen activity ≤ 20) := by
  constructor
  · simp only [fits, TASK_DESCRIPTION_SZ, decide_eq_true_eq]
    omega
  · simp only [fits, USER_SZ, ACTIVITY_SZ, Bool.and_eq_true, decide_eq_true_eq]
    omega

/-! ## The claims -/

/-- C2 fails as stated: task 1 ("b") and task 2 ("a") leave "TO DO" at clock 0,
task 1 first, with no `n` command in between, and the start-time index holds
task 2 (index 1) before task 1 (index 0). -/
theorem C2_counterexample :
    main zeroed window_cmds = some (reached window_cmds, printed window_cmds) ∧
    (is_move_valid (reached window_pre) 1 str_u STR_IN_PROGRESS).1 ≠ 0 ∧
    strcmp ((reached window_pre).tasks.task (1 - 1)).activity STR_TO_DO = 0 ∧
    (is_move_valid (reached (window_pre ++ [Command.m 1 str_u STR_IN_PROGRESS])) 2 str_u
      STR_IN_PROGRESS).1 ≠ 0 ∧
    strcmp ((reached (window_pre ++ [Command.m 1 str_u STR_IN_PROGRESS])).tasks.task
      (2 - 1)).activity STR_TO_DO = 0 ∧
    ((reached window_cmds).tasks.task (1 - 1)).start =
      ((reached window_cmds).tasks.task (2 - 1)).start ∧
    (reached window_cmds).tasks.amount_started = 2 ∧
    (reached window_cmds).tasks.ordered_by_start 0 = 2 - 1 ∧
    (reached window_cmds).tasks.ordered_by_start 1 = 1 - 1 := by
  refine ⟨rfl, ?_, ?_, ?_, ?_, ?_, ?_, ?_, ?_⟩ <;> decide

/-- C2 (as amended): on an input whose strings fit the arrays they are scanned
into, every description stored lies inside its own array, and two tasks moved
out of "TO DO" in the same window stand in the start-time index in the order
of their descriptions, not in the order of their activation. -/
theorem C2_same_window_order_by_description (kanban : Kanban)
    (pre mid post : List Command) (idA idB : Int) (userA actA userB actB : CString)
    (s0 s1 s2 : Kanban) (out0 out1 out2 : List Output)
    (hq0 : Command.q ∉ pre) (hq1 : Command.q ∉ mid)
    (hn : ∀ time, Command.n time ∉ mid)
    (hfit : ∀ c ∈ pre ++ Command.m idA userA actA :: (mid ++ Command.m idB userB actB :: post),
      fits c = true)
    (h0 : main kanban pre = some (s0, out0))
    (hA : (is_move_valid s0 idA userA actA).1 ≠ 0)
    (hA2 : strcmp (s0.tasks.task (idA - 1)).activity STR_TO_DO = 0)
    (h1 : main kanban (pre ++ Command.m idA userA actA :: mid) = some (s1, out1))
    (hB : (is_move_valid s1 idB userB actB).1 ≠ 0)
    (hB2 : strcmp (s1.tasks.task (idB - 1)).activity STR_TO_DO = 0)
    (h2 : main kanban (pre ++ Command.m idA userA actA ::
      (mid ++ Command.m idB userB actB :: post)) = some (s2, out2)) :
    DescriptionsFit s2.tasks ∧
    (∃ i j, 0 ≤ i ∧ i < s2.tasks.amount_started ∧ 0 ≤ j ∧ j < s2.tasks.amount_started ∧
      s2.tasks.ordered_by_start i = idA - 1 ∧ s2.tasks.ordered_by_start j = idB - 1) ∧
    (∀ i j, 0 ≤ i → i < s2.tasks.amount_started → 0 ≤ j → j < s2.tasks.amount_started →
      s2.tasks.ordered_by_start i = idA - 1 → s2.tasks.ordered_by_start j = idB - 1 →
      (i < j ↔ strcmp (s2.tasks.task (idA - 1)).description
        (s2.tasks.task (idB - 1)).description < 0)) := by
  refine ⟨main_descriptions_fit kanban _ hfit (s2, out2) h2, ?_⟩
  have hk0 : Inv (setup kanban) := setup_inv kanban
  have hs0 : Inv s0 := run_inv pre (setup kanban) (s0, out0) hk0 h0
  -- the run up to the second move
  have e1 := main_loop_append pre (Command.m idA userA actA :: mid) (setup kanban) s0 out0
    hk0 hq0 h0
  have h1b : main_loop (setup kanban) (pre ++ Command.m idA userA actA :: mid) =
    some (s1, out1) := h1
  rw [e1] at h1b
  obtain ⟨x1, hx1, hx1s, _⟩ := map_out_eq_some _ _ _ h1b
  obtain ⟨y1, hy1, hy1s, hiA⟩ := run_start s0 hs0 idA userA actA hA hA2 mid x1 hx1
  have hwA := start_in_window s0 hs0 idA userA actA hA hA2
  have hw1 : InWindow y1.1.tasks (idA - 1) :=
    run_in_window mid _ y1 hiA (fun c hc time he => hn time (he ▸ hc)) hy1 _ hwA
  have hs1 : Inv y1.1 := run_inv mid _ y1 hiA hy1
  have hys : y1.1 = s1 := by rw [hy1s, hx1s]
  rw [hys] at hw1 hs1
  -- the second move and the rest of the run
  have hq01 : Command.q ∉ pre ++ Command.m idA userA actA :: mid := by
    intro h
    rcases List.mem_append.1 h with h | h
    · exact hq0 h
    · rcases List.mem_cons.1 h with h | h
      · cases h
      · exact hq1 h
  have e2 := main_loop_append (pre ++ Command.m idA userA actA :: mid)
    (Command.m idB userB actB :: post) (setup kanban) s1 out1 hk0 hq01 h1
  have h2b : main_loop (setup kanban) ((pre ++ Command.m idA userA actA :: mid) ++
      Command.m idB userB actB :: post) = some (s2, out2) := by
    rw [List.append_assoc, List.cons_append]; exact h2
  rw [e2] at h2b
  obtain ⟨x2, hx2, hx2s, _⟩ := map_out_eq_some _ _ _ h2b
  obtain ⟨y2, hy2, hy2s, hiB⟩ := run_start s1 hs1 idB userB actB hB hB2 post x2 hx2
  have hs2 : Inv s2 := by
    have := run_inv post _ y2 hiB hy2
    rw [hy2s, hx2s] at this
    exact this
  have hy2s2 : y2.1 = s2 := by rw [hy2s, hx2s]
  have hord := start_orders s1 hs1 idB userB actB hB hB2 (idA - 1) hw1
  -- the descriptions are those of the state of the second move
  obtain ⟨hB1, hB3, _⟩ := (is_move_valid_iff s1 idB userB actB).1 hB
  have hAr : idA - 1 < s1.tasks.amount := by
    obtain ⟨i, hi0, hi1, hi2⟩ := hw1
    have := hs1.start_range i (le_trans hs1.first_nonneg hi0) hi1
    rw [hi2] at this
    exact this.2
  have hdA : (s2.tasks.task (idA - 1)).description = (s1.tasks.task (idA - 1)).description := by
    have := run_description post _ y2 hiB hy2 (idA - 1) hAr
    rw [hy2s2] at this
    rw [this]
    exact (moved_to_do_task s1.tasks idB s1.now userB actB (idA - 1)).1
  have hdB : (s2.tasks.task (idB - 1)).description = (s1.tasks.task (idB - 1)).description := by
    have := run_description post _ y2 hiB hy2 (idB - 1) (by show idB - 1 < s1.tasks.amount; omega)
    rw [hy2s2] at this
    rw [this]
    exact (moved_to_do_task s1.tasks idB s1.now userB actB (idB - 1)).1
  rw [hdA, hdB]
  by_cases hlt : strcmp (s1.tasks.task (idA - 1)).description
      (s1.tasks.task (idB - 1)).description < 0
  · have hb := run_before post _ y2 hiB hy2 _ _ (hord.1 hlt)
    rw [hy2s2] at hb
    obtain ⟨i, j, hi0, hij, hj1, hi, hj⟩ := hb
    refine ⟨⟨i, j, hi0, by omega, by omega, hj1, hi, hj⟩, ?_⟩
    intro i2 j2 hi20 hi21 hj20 hj21 hi2 hj2
    have ei := start_index_inj s2 hs2 i2 i hi20 hi21 hi0 (by omega) (by rw [hi2, hi])
    have ej := start_index_inj s2 hs2 j2 j hj20 hj21 (by omega) hj1 (by rw [hj2, hj])
    constructor
    · intro _; exact hlt
    · intro _; omega
  · have hb := run_before post _ y2 hiB hy2 _ _ (hord.2 hlt)
    rw [hy2s2] at hb
    obtain ⟨j, i, hj0, hji, hi1, hj, hi⟩ := hb
    refine ⟨⟨i, j, by omega, hi1, hj0, by omega, hi, hj⟩, ?_⟩
    intro i2 j2 hi20 hi21 hj20 hj21 hi2 hj2
    have ei := start_index_inj s2 hs2 i2 i hi20 hi21 (by omega) hi1 (by rw [hi2, hi])
    have ej := start_index_inj s2 hs2 j2 j hj20 hj21 hj0 (by omega) (by rw [hj2, hj])
    constructor
    · intro _; omega
    · intro h; exact absurd h hlt

/-- C2 (amended) on the input `window_pre`, move of task 1, a new task "c",
move of task 2, `n 5`: task 1 ("b") stands after task 2 ("a"). -/
theorem C2_same_window_witness :
    DescriptionsFit (reached (window_pre ++ Command.m 1 str_u STR_IN_PROGRESS ::
      ([Command.t 1 str_c []] ++ Command.m 2 str_u STR_IN_PROGRESS ::
        [Command.n 5]))).tasks ∧
    (∃ i j, 0 ≤ i ∧
      i < (reached (window_pre ++ Command.m 1 str_u STR_IN_PROGRESS ::
        ([Command.t 1 str_c []] ++ Command.m 2 str_u STR_IN_PROGRESS ::
          [Command.n 5]))).tasks.amount_started ∧ 0 ≤ j ∧
      j < (reached (window_pre ++ Command.m 1 str_u STR_IN_PROGRESS ::
        ([Command.t 1 str_c []] ++ Command.m 2 str_u STR_IN_PROGRESS ::
          [Command.n 5]))).tasks.amount_started ∧
      (reached (window_pre ++ Command.m 1 str_u STR_IN_PROGRESS ::
        ([Command.t 1 str_c []] ++ Command.m 2 str_u STR_IN_PROGRESS ::
          [Command.n 5]))).tasks.ordered_by_start i = 1 - 1 ∧
      (reached (window_pre ++ Command.m 1 str_u STR_IN_PROGRESS ::
        ([Command.t 1 str_c []] ++ Command.m 2 str_u STR_IN_PROGRESS ::
          [Command.n 5]))).tasks.ordered_by_start j = 2 - 1) ∧
    (∀ i j, 0 ≤ i →
      i < (reached (window_pre ++ Command.m 1 str_u STR_IN_PROGRESS ::
        ([Command.t 1 str_c []] ++ Command.m 2 str_u STR_IN_PROGRESS ::
          [Command.n 5]))).tasks.amount_started → 0 ≤ j →
      j < (reached (window_pre ++ Command.m 1 str_u STR_IN_PROGRESS ::
        ([Command.t 1 str_c []] ++ Command.m 2 str_u STR_IN_PROGRESS ::
          [Command.n 5]))).tasks.amount_started →
      (reached (window_pre ++ Command.m 1 str_u STR_IN_PROGRESS ::
        ([Command.t 1 str_c []] ++ Command.m 2 str_u STR_IN_PROGRESS ::
          [Command.n 5]))).tasks.ordered_by_start i = 1 - 1 →
      (reached (window_pre ++ Command.m 1 str_u STR_IN_PROGRESS ::
        ([Command.t 1 str_c []] ++ Command.m 2 str_u STR_IN_PROGRESS ::
          [Command.n 5]))).tasks.ordered_by_start j = 2 - 1 →
      (i < j ↔ strcmp
        ((reached (window_pre ++ Command.m 1 str_u STR_IN_PROGRESS ::
          ([Command.t 1 str_c []] ++ Command.m 2 str_u STR_IN_PROGRESS ::
            [Command.n 5]))).tasks.task (1 - 1)).description
        ((reached (window_pre ++ Command.m 1 str_u STR_IN_PROGRESS ::
          ([Command.t 1 str_c []] ++ Command.m 2 str_u STR_IN_PROGRESS ::
            [Command.n 5]))).tasks.task (2 - 1)).description < 0)) :=
  C2_same_window_order_by_description zeroed window_pre [Command.t 1 str_c []] [Command.n 5]
    1 2 str_u STR_IN_PROGRESS str_u STR_IN_PROGRESS
    (reached window_pre)
    (reached (window_pre ++ Command.m 1 str_u STR_IN_PROGRESS :: [Command.t 1 str_c []]))
    (reached (window_pre ++ Command.m 1 str_u STR_IN_PROGRESS ::
      ([Command.t 1 str_c []] ++ Command.m 2 str_u STR_IN_PROGRESS :: [Command.n 5])))
    (printed window_pre)
    (printed (window_pre ++ Command.m 1 str_u STR_IN_PROGRESS :: [Command.t 1 str_c []]))
    (printed (window_pre ++ Command.m 1 str_u STR_IN_PROGRESS ::
      ([Command.t 1 str_c []] ++ Command.m 2 str_u STR_IN_PROGRESS :: [Command.n 5])))
    (by decide) (by decide) (by intro time h; simp at h) (by decide) rfl (by decide)
    (by decide) rfl (by decide) (by decide) rfl

/-- C3 fails as stated: the clock is 5 when task 1 starts, two `n 2147483647`
commands wrap the 32-bit clock round to 3, task 2 starts at 3 and is put
after task 1 in the start-time index. -/
theorem C3_counterexample :
    main zeroed wrap_cmds = some (reached wrap_cmds, printed wrap_cmds) ∧
    (0 : Int) < (reached wrap_cmds).tasks.amount_started - 1 ∧
    ((reached wrap_cmds).tasks.task ((reached wrap_cmds).tasks.ordered_by_start 0)).start = 5 ∧
    ((reached wrap_cmds).tasks.task
      ((reached wrap_cmds).tasks.ordered_by_start (0 + 1))).start = 3 ∧
    ¬ ((reached wrap_cmds).tasks.task ((reached wrap_cmds).tasks.ordered_by_start 0)).start ≤
      ((reached wrap_cmds).tasks.task
        ((reached wrap_cmds).tasks.ordered_by_start (0 + 1))).start := by
  refine ⟨rfl, ?_, ?_, ?_, ?_⟩ <;> decide

/-- C3 (as amended): as long as the accepted `n` commands add up to less than `2 ^ 32`,
so that the 32-bit clock has not wrapped, the start-time index is in
non-decreasing order of start time in the state that the program reaches. -/
theorem C3_start_index_sorted_without_wrap (kanban : Kanban) (cmds : List Command)
    (h : clock_sum cmds < 2 ^ 32) :
    ∃ r, main kanban cmds = some r ∧
      (∀ i, 0 ≤ i → i < r.1.tasks.amount_started - 1 →
        (r.1.tasks.task (r.1.tasks.ordered_by_start i)).start ≤
          (r.1.tasks.task (r.1.tasks.ordered_by_start (i + 1))).start) ∧
      (∀ i j, 0 ≤ i → i < j → j < r.1.tasks.amount_started →
        (r.1.tasks.task (r.1.tasks.ordered_by_start i)).start ≤
          (r.1.tasks.task (r.1.tasks.ordered_by_start j)).start) := by
  obtain ⟨r, hr, _⟩ := main_inv kanban cmds
  have hs := run_start_sorted cmds (setup kanban) r (setup_inv kanban)
    (setup_start_sorted kanban) (by show 0 + clock_sum cmds < 2 ^ 32; omega) hr
  exact ⟨r, hr, fun i h0 h1 => hs.sorted i (i + 1) h0 (by omega) (by omega), hs.sorted⟩

/-- C3 (amended) on the fruit input, whose clock advances by 5. -/
theorem C3_start_index_sorted_witness :
    clock_sum fruit_cmds < 2 ^ 32 ∧
    ∃ r, main zeroed fruit_cmds = some r ∧
      (∀ i, 0 ≤ i → i < r.1.tasks.amount_started - 1 →
        (r.1.tasks.task (r.1.tasks.ordered_by_start i)).start ≤
          (r.1.tasks.task (r.1.tasks.ordered_by_start (i + 1))).start) ∧
      (∀ i j, 0 ≤ i → i < j → j < r.1.tasks.amount_started →
        (r.1.tasks.task (r.1.tasks.ordered_by_start i)).start ≤
          (r.1.tasks.task (r.1.tasks.ordered_by_start j)).start) :=
  ⟨by decide, C3_start_index_sorted_without_wrap zeroed fruit_cmds (by decide)⟩

/-- C4: in every state that the program reaches, the first `amount` entries of
the description index are a permutation of the task indices `0 .. amount - 1`. -/
theorem C4_description_index_permutation (kanban : Kanban) (cmds : List Command) :
    ∃ r, main kanban cmds = some r ∧
      (∀ i, 0 ≤ i → i < r.1.tasks.amount →
        0 ≤ r.1.tasks.ordered_by_description i ∧
        r.1.tasks.ordered_by_description i < r.1.tasks.amount) ∧
      (∀ i j, 0 ≤ i → i < r.1.tasks.amount → 0 ≤ j → j < r.1.tasks.amount →
        r.1.tasks.ordered_by_description i = r.1.tasks.ordered_by_description j → i = j) ∧
      (∀ t, 0 ≤ t → t < r.1.tasks.amount →
        ∃ i, 0 ≤ i ∧ i < r.1.tasks.amount ∧ r.1.tasks.ordered_by_description i = t) ∧
      List.Perm (live r.1.tasks.ordered_by_description r.1.tasks.amount)
        ((List.range r.1.tasks.amount.toNat).map (fun (t : Nat) => (t : Int))) := by
  obtain ⟨r, hr, hi⟩ := main_inv kanban cmds
  have hinj : ∀ i j, 0 ≤ i → i < r.1.tasks.amount → 0 ≤ j → j < r.1.tasks.amount →
      r.1.tasks.ordered_by_description i = r.1.tasks.ordered_by_description j → i = j := by
    intro i j hi0 hi1 hj0 hj1 h
    rcases lt_trichotomy i j with hlt | heq | hgt
    · have := hi.descr_sorted i j hi0 hlt hj1
      rw [h, strcmp_self] at this
      omega
    · exact heq
    · have := hi.descr_sorted j i hj0 hgt hi1
      rw [h, strcmp_self] at this
      omega
  refine ⟨r, hr, hi.descr_range, hinj, hi.descr_onto, ?_⟩
  rw [List.perm_ext_iff_of_nodup (live_nodup _ _ hinj)
    (List.Nodup.map_on (fun x _ y _ h => by omega) (List.nodup_range _))]
  intro v
  rw [live_mem, List.mem_map]
  constructor
  · rintro ⟨i, h0, h1, hv⟩
    have := hi.descr_range i h0 h1
    rw [hv] at this
    exact ⟨v.toNat, by rw [List.mem_range]; omega, by omega⟩
  · rintro ⟨t, ht, hv⟩
    rw [List.mem_range] at ht
    exact hi.descr_onto v (by omega) (by omega)

/-- C5: in every state that the program reaches, the first `amount_started`
entries of the start-time index hold no task twice, and a task index below
`amount` is among them exactly when the activity of the task is not "TO DO". -/
theorem C5_start_index_membership (kanban : Kanban) (cmds : List Command) :
    ∃ r, main kanban cmds = some r ∧
      (∀ i j, 0 ≤ i → i < j → j < r.1.tasks.amount_started →
        r.1.tasks.ordered_by_start i ≠ r.1.tasks.ordered_by_start j) ∧
      (∀ t, 0 ≤ t → t < r.1.tasks.amount →
        ((∃ i, 0 ≤ i ∧ i < r.1.tasks.amount_started ∧ r.1.tasks.ordered_by_start i = t) ↔
          strcmp (r.1.tasks.task t).activity STR_TO_DO ≠ 0)) := by
  obtain ⟨r, hr, hi⟩ := main_inv kanban cmds
  refine ⟨r, hr, hi.start_inj, ?_⟩
  intro t h0 h1
  constructor
  · rintro ⟨i, hi0, hi1, hit⟩
    have := hi.start_active i hi0 hi1
    rw [hit] at this
    exact this
  · exact hi.start_onto t h0 h1

/-- C6: a `move_task` command on a task whose activity is not "TO DO",
whatever its user and activity arguments and whether it is accepted or not,
leaves the start of that task, the start-time index, `amount_started` and
`first_at_current_time` as they were. -/
theorem C6_started_move_keeps_start_index (k : Kanban) (id : Int) (user activity : CString)
    (h : strcmp (k.tasks.task (id - 1)).activity STR_TO_DO ≠ 0) :
    ∃ r, move_task k id user activity = some r ∧
      (r.state.tasks.task (id - 1)).start = (k.tasks.task (id - 1)).start ∧
      r.state.tasks.ordered_by_start = k.tasks.ordered_by_start ∧
      r.state.tasks.amount_started = k.tasks.amount_started ∧
      r.state.tasks.first_at_current_time = k.tasks.first_at_current_time := by
  by_cases hv : (is_move_valid k id user activity).1 = 0
  · exact ⟨_, move_task_reject k id user activity hv, rfl, rfl, rfl, rfl⟩
  · exact ⟨_, move_task_started k id user activity hv h,
      (moved_started_task k.tasks id user activity (id - 1)).2.1, rfl, rfl, rfl⟩

/-- C6 at task 1 of the fruit board, which is "IN PROGRESS", moved to "DONE". -/
theorem C6_started_move_witness :
    strcmp ((reached fruit_cmds).tasks.task (1 - 1)).activity STR_TO_DO ≠ 0 ∧
    ∃ r, move_task (reached fruit_cmds) 1 str_u STR_DONE = some r ∧
      (r.state.tasks.task (1 - 1)).start = ((reached fruit_cmds).tasks.task (1 - 1)).start ∧
      r.state.tasks.ordered_by_start = (reached fruit_cmds).tasks.ordered_by_start ∧
      r.state.tasks.amount_started = (reached fruit_cmds).tasks.amount_started ∧
      r.state.tasks.first_at_current_time = (reached fruit_cmds).tasks.first_at_current_time :=
  ⟨by decide, C6_started_move_keeps_start_index (reached fruit_cmds) 1 str_u STR_DONE (by decide)⟩

/-- C7: the ids that a run reports for its accepted `new_task` commands are
1, 2, 3, ... in order, as many as there are tasks at the end; and in the state
reached an accepted `new_task` reports `amount + 1`, the value of `amount`
after the append, and stores its record in cell `id - 1`, keeping the cells of
the earlier tasks, while a rejected one reports no id and changes nothing. -/
theorem C7_append_only_identity (kanban : Kanban) (cmds : List Command) (duration : Int)
    (description user : CString) :
    ∃ r r2, main kanban cmds = some r ∧
      reported_ids r.2 = (List.range r.1.tasks.amount.toNat).map (fun (i : Nat) => (i : Int) + 1) ∧
      new_task r.1.tasks duration description user = some r2 ∧
      if (is_new_task_valid r.1.tasks (fresh_task duration description user)).1 ≠ 0 then
        r2.out = [Output.new_task (r.1.tasks.amount + 1)] ∧
        r2.state.amount = r.1.tasks.amount + 1 ∧
        r2.state.task (r.1.tasks.amount + 1 - 1) = fresh_task duration description user ∧
        ∀ x, x < r.1.tasks.amount → r2.state.task x = r.1.tasks.task x
      else r2.state = r.1.tasks ∧ reported_ids r2.out = [] := by
  obtain ⟨r, hr, hi⟩ := main_inv kanban cmds
  obtain ⟨_, hids⟩ := run_reported_ids cmds (setup kanban) r (setup_inv kanban) hr
  have hids2 : reported_ids r.2 =
      (List.range r.1.tasks.amount.toNat).map (fun (i : Nat) => (i : Int) + 1) := by
    rw [hids]
    have e : (setup kanban).tasks.amount = 0 := rfl
    rw [e]
    simp only [sub_zero, zero_add]
    apply List.map_congr_left
    intro i _
    omega
  by_cases hv : (is_new_task_valid r.1.tasks (fresh_task duration description user)).1 = 0
  · refine ⟨r, _, hr, hids2, new_task_reject r.1.tasks duration description user hv, ?_⟩
    rw [if_neg (by simpa using hv)]
    exact ⟨rfl, reported_ids_is_new_task_valid _ _⟩
  · refine ⟨r, _, hr, hids2,
      new_task_accept r.1.tasks duration description user hv hi.amount_nonneg, ?_⟩
    rw [if_pos hv]
    refine ⟨rfl, rfl, ?_, ?_⟩
    · show store r.1.tasks.task r.1.tasks.amount _ (r.1.tasks.amount + 1 - 1) = _
      have e : r.1.tasks.amount + 1 - 1 = r.1.tasks.amount := by omega
      rw [e, store_eq]
    · intro x hx
      exact store_ne _ _ _ _ (by omega)

/-- C8 fails as stated: with tasks "a", "c" indexed `[0, 1]` and the new task
"b" (id 3), the index being sorted, `binary_insert` writes at position 1, whose
entry "c" is strictly greater than "b"; the leftmost position whose entry is
not strictly greater is 0. -/
theorem C8_counterexample :
    (∀ i j, 0 ≤ i → i ≤ j → j ≤ 1 →
      strcmp (abc_list.task (abc_list.ordered_by_description i)).description
        (abc_list.task (abc_list.ordered_by_description j)).description ≤ 0) ∧
    binary_insert_pos abc_list abc_list.ordered_by_description 3 0 1 = 1 ∧
    (binary_insert abc_list abc_list.ordered_by_description 3 0 1).map (fun o => live o 3) =
      some [0, 3 - 1, 1] ∧
    strcmp (abc_list.task (abc_list.ordered_by_description 1)).description
      (abc_list.task (3 - 1)).description > 0 ∧
    ¬ leftmost_not_greater abc_list abc_list.ordered_by_description 3 0 1
      (binary_insert_pos abc_list abc_list.ordered_by_description 3 0 1) ∧
    leftmost_not_greater abc_list abc_list.ordered_by_description 3 0 1 0 := by
  refine ⟨?_, by decide, by decide, by decide, ?_, ?_⟩
  · intro i j h0 hij hj
    have hi : i = 0 ∨ i = 1 := by omega
    have hj : j = 0 ∨ j = 1 := by omega
    rcases hi with rfl | rfl <;> rcases hj with rfl | rfl <;> first | decide | omega
  · rintro ⟨_, _, h, _⟩
    exact h (by decide)
  · exact ⟨by decide, by decide, by decide, fun q h0 h1 => by omega⟩

/-- C8 (as amended): on a range `[lo, hi]` with `lo ≤ hi + 1` that is sorted by
description, `binary_insert` writes `id - 1` at the leftmost position of the
range whose entry has a description strictly greater than the new one, at
`hi + 1` when there is none; every entry from that position on is greater. -/
theorem C8_insert_position_leftmost_greater (l : TaskList) (order : Int → Int)
    (id lo hi : Int) (h : lo ≤ hi + 1)
    (hs : ∀ i j, lo ≤ i → i ≤ j → j ≤ hi →
      strcmp (l.task (order i)).description (l.task (order j)).description ≤ 0) :
    ∃ order2, binary_insert l order id lo hi = some order2 ∧
      order2 (binary_insert_pos l order id lo hi) = id - 1 ∧
      leftmost_greater l order id lo hi (binary_insert_pos l order id lo hi) ∧
      ∀ q, binary_insert_pos l order id lo hi ≤ q → q ≤ hi →
        strcmp (l.task (order q)).description (l.task (id - 1)).description > 0 := by
  obtain ⟨h1, h2, _, _⟩ := binary_insert_pos_local l order id lo hi h
  obtain ⟨hleft, hright⟩ := binary_insert_pos_sorted l order id lo hi h hs
  refine ⟨_, binary_insert_eq l order id lo hi h, insert_at_self _ _ _ _, ?_, hright⟩
  exact ⟨h1, h2, fun hp => hright _ (le_refl _) hp, fun q hq0 hq1 => not_lt.mpr (hleft q hq0 hq1)⟩

/-- C8 (amended) at the call that inserts "b" after "a" and before "c". -/
theorem C8_insert_position_witness :
    ∃ order2, binary_insert abc_list abc_list.ordered_by_description 3 0 1 = some order2 ∧
      order2 (binary_insert_pos abc_list abc_list.ordered_by_description 3 0 1) = 3 - 1 ∧
      leftmost_greater abc_list abc_list.ordered_by_description 3 0 1
        (binary_insert_pos abc_list abc_list.ordered_by_description 3 0 1) ∧
      ∀ q, binary_insert_pos abc_list abc_list.ordered_by_description 3 0 1 ≤ q → q ≤ 1 →
        strcmp (abc_list.task (abc_list.ordered_by_description q)).description
          (abc_list.task (3 - 1)).description > 0 :=
  C8_insert_position_leftmost_greater abc_list abc_list.ordered_by_description 3 0 1
    (by decide)
    (by
      intro i j h0 hij hj
      have hi : i = 0 ∨ i = 1 := by omega
      have hj : j = 0 ∨ j = 1 := by omega
      rcases hi with rfl | rfl <;> rcases hj with rfl | rfl <;> first | decide | omega)

/-- C9: a call of `binary_insert` with `0 ≤ lo ≤ hi + 1` returns; with `p`
the position chosen, `lo ≤ p ≤ hi + 1`, the new vector holds `id - 1` at `p`,
the old entries below `p` in place and the old entries `p .. hi` one place to
the right, and nothing else changes: the live prefix grows by one entry and
erasing position `p` from it gives the old prefix. -/
theorem C9_binary_insert_shift_and_write (l : TaskList) (order : Int → Int)
    (id lo hi : Int) (h0 : 0 ≤ lo) (h : lo ≤ hi + 1) :
    ∃ order2, binary_insert l order id lo hi = some order2 ∧
      lo ≤ binary_insert_pos l order id lo hi ∧ binary_insert_pos l order id lo hi ≤ hi + 1 ∧
      order2 (binary_insert_pos l order id lo hi) = id - 1 ∧
      (∀ i, i < binary_insert_pos l order id lo hi → order2 i = order i) ∧
      (∀ i, binary_insert_pos l order id lo hi ≤ i → i ≤ hi → order2 (i + 1) = order i) ∧
      (∀ i, hi + 1 < i → order2 i = order i) ∧
      (live order2 (hi + 1 + 1)).length = (live order (hi + 1)).length + 1 ∧
      (live order2 (hi + 1 + 1)).eraseIdx (binary_insert_pos l order id lo hi).toNat =
        live order (hi + 1) := by
  obtain ⟨h1, h2, _, _⟩ := binary_insert_pos_local l order id lo hi h
  refine ⟨_, binary_insert_eq l order id lo hi h, h1, h2, insert_at_self _ _ _ _,
    fun i hi1 => insert_at_below _ _ _ _ _ hi1, ?_,
    fun i hi1 => insert_at_above _ _ _ _ _ hi1 h2, ?_, ?_⟩
  · intro i hi1 hi2
    have := insert_at_old order (binary_insert_pos l order id lo hi) (id - 1) hi i hi2
    rw [if_neg (by omega)] at this
    exact this
  · rw [live_length, live_length]
    omega
  · have e : hi + 1 + 1 = hi + 2 := by omega
    rw [e]
    exact insert_at_erase order _ (id - 1) hi (by omega) h2

/-- C9 at the call that inserts "b" between "a" and "c". -/
theorem C9_binary_insert_witness :
    (0 : Int) ≤ 0 ∧ (0 : Int) ≤ 1 + 1 ∧
    ∃ order2, binary_insert abc_list abc_list.ordered_by_description 3 0 1 = some order2 ∧
      0 ≤ binary_insert_pos abc_list abc_list.ordered_by_description 3 0 1 ∧
      binary_insert_pos abc_list abc_list.ordered_by_description 3 0 1 ≤ 1 + 1 ∧
      order2 (binary_insert_pos abc_list abc_list.ordered_by_description 3 0 1) = 3 - 1 ∧
      (∀ i, i < binary_insert_pos abc_list abc_list.ordered_by_description 3 0 1 →
        order2 i = abc_list.ordered_by_description i) ∧
      (∀ i, binary_insert_pos abc_list abc_list.ordered_by_description 3 0 1 ≤ i → i ≤ 1 →
        order2 (i + 1) = abc_list.ordered_by_description i) ∧
      (∀ i, 1 + 1 < i → order2 i = abc_list.ordered_by_description i) ∧
      (live order2 (1 + 1 + 1)).length = (live abc_list.ordered_by_description (1 + 1)).length + 1 ∧
      (live order2 (1 + 1 + 1)).eraseIdx
        (binary_insert_pos abc_list abc_list.ordered_by_description 3 0 1).toNat =
        live abc_list.ordered_by_description (1 + 1) :=
  ⟨by decide, by decide,
    C9_binary_insert_shift_and_write abc_list abc_list.ordered_by_description 3 0 1
      (by decide) (by decide)⟩

/-- C10: a call of `binary_insert` with an empty range, `lo > hi`, that
reaches one place past `hi`, writes `id - 1` at position `lo` and changes no
other entry, the shift length being zero.  The calls that the program makes
are such calls: in every state that the program reaches, the call of an
accepted `new_task` and the call of an accepted `move_task` of a task in
"TO DO" have `lo ≤ hi + 1`, and the effect is this one whenever their range is
empty. -/
theorem C10_empty_range_insertion :
    (∀ (l : TaskList) (order : Int → Int) (id lo hi : Int), lo > hi → lo ≤ hi + 1 →
      empty_range_write l order id lo hi) ∧
    (∀ (kanban : Kanban) (cmds : List Command), ∃ r, main kanban cmds = some r ∧
      (∀ (duration : Int) (description user : CString),
        (is_new_task_valid r.1.tasks (fresh_task duration description user)).1 ≠ 0 →
        0 ≤ (append_task r.1.tasks (fresh_task duration description user)).amount - 2 + 1 ∧
        (0 > (append_task r.1.tasks (fresh_task duration description user)).amount - 2 →
          empty_range_write (append_task r.1.tasks (fresh_task duration description user))
            (append_task r.1.tasks (fresh_task duration description user)).ordered_by_description
            (append_task r.1.tasks (fresh_task duration description user)).amount 0
            ((append_task r.1.tasks (fresh_task duration description user)).amount - 2))) ∧
      (∀ (id : Int) (user activity : CString),
        (is_move_valid r.1 id user activity).1 ≠ 0 →
        strcmp (r.1.tasks.task (id - 1)).activity STR_TO_DO = 0 →
        r.1.tasks.first_at_current_time ≤ r.1.tasks.amount_started - 1 + 1 ∧
        (r.1.tasks.first_at_current_time > r.1.tasks.amount_started - 1 →
          empty_range_write (stamped r.1.tasks id r.1.now) r.1.tasks.ordered_by_start id
            r.1.tasks.first_at_current_time (r.1.tasks.amount_started - 1)))) := by
  constructor
  · intro l order id lo hi h1 h2
    exact binary_insert_empty_range l order id lo hi (by omega)
  · intro kanban cmds
    obtain ⟨r, hr, hi⟩ := main_inv kanban cmds
    refine ⟨r, hr, ?_, ?_⟩
    · intro duration description user _
      have hn := hi.amount_nonneg
      have ea : (append_task r.1.tasks (fresh_task duration description user)).amount =
        r.1.tasks.amount + 1 := rfl
      rw [ea]
      exact ⟨by omega, fun h => binary_insert_empty_range _ _ _ _ _ (by omega)⟩
    · intro id user activity _ _
      have hf := hi.first_le
      exact ⟨by omega, fun h => binary_insert_empty_range _ _ _ _ _ (by omega)⟩

/-- C10 at the two empty ranges of a run: the call of `new_task` for the first
task "a" of an empty board, `lo = 0`, `hi = -1`, and the call of `move_task`
for task 1 after `window_pre`, the first task to leave "TO DO". -/
theorem C10_empty_range_witness :
    (is_new_task_valid (reached []).tasks (fresh_task 1 str_a [])).1 ≠ 0 ∧
    (0 : Int) > (append_task (reached []).tasks (fresh_task 1 str_a [])).amount - 2 ∧
    empty_range_write (append_task (reached []).tasks (fresh_task 1 str_a []))
      (append_task (reached []).tasks (fresh_task 1 str_a [])).ordered_by_description
      (append_task (reached []).tasks (fresh_task 1 str_a [])).amount 0
      ((append_task (reached []).tasks (fresh_task 1 str_a [])).amount - 2) ∧
    (is_move_valid (reached window_pre) 1 str_u STR_IN_PROGRESS).1 ≠ 0 ∧
    strcmp ((reached window_pre).tasks.task (1 - 1)).activity STR_TO_DO = 0 ∧
    (reached window_pre).tasks.first_at_current_time >
      (reached window_pre).tasks.amount_started - 1 ∧
    empty_range_write (stamped (reached window_pre).tasks 1 (reached window_pre).now)
      (reached window_pre).tasks.ordered_by_start 1
      (reached window_pre).tasks.first_at_current_time
      ((reached window_pre).tasks.amount_started - 1) := by
  obtain ⟨r1, hr1, hn1, _⟩ := C10_empty_range_insertion.2 zeroed []
  obtain ⟨r2, hr2, _, hm2⟩ := C10_empty_range_insertion.2 zeroed window_pre
  have e1 : r1 = (reached [], printed []) := (Option.some.inj hr1).symm
  have e2 : r2 = (reached window_pre, printed window_pre) := (Option.some.inj hr2).symm
  subst e1 e2
  exact ⟨by decide, by decide, (hn1 1 str_a [] (by decide)).2 (by decide),
    by decide, by decide, by decide,
    (hm2 1 str_u STR_IN_PROGRESS (by decide) (by decide)).2 (by decide)⟩

/-- C11: in a state that the program reaches, an accepted `move_task` of a
task in "TO DO" stamps its start with the clock, inserts `id - 1` into the
start-time index by `binary_insert` with the range
`[first_at_current_time, amount_started - 1]` and raises `amount_started` by
one; every accepted move sets the user and the activity of the task to the
strings given and changes no other task record. -/
theorem C11_activation_postcondition (kanban : Kanban) (cmds : List Command) (s : Kanban)
    (out : List Output) (h : main kanban cmds = some (s, out))
    (id : Int) (user activity : CString)
    (hv : (is_move_valid s id user activity).1 ≠ 0) :
    ∃ r, move_task s id user activity = some r ∧
      (strcmp (s.tasks.task (id - 1)).activity STR_TO_DO = 0 →
        (r.state.tasks.task (id - 1)).start = s.now ∧
        binary_insert (stamped s.tasks id s.now) s.tasks.ordered_by_start id
          s.tasks.first_at_current_time (s.tasks.amount_started - 1) =
          some r.state.tasks.ordered_by_start ∧
        r.state.tasks.amount_started = s.tasks.amount_started + 1) ∧
      (r.state.tasks.task (id - 1)).user = strcpy user ∧
      strcmp (r.state.tasks.task (id - 1)).user user = 0 ∧
      (r.state.tasks.task (id - 1)).activity = strcpy activity ∧
      strcmp (r.state.tasks.task (id - 1)).activity activity = 0 ∧
      (∀ x, x ≠ id - 1 → r.state.tasks.task x = s.tasks.task x) := by
  have hs : Inv s := main_reached_inv kanban cmds (s, out) h
  by_cases ht : strcmp (s.tasks.task (id - 1)).activity STR_TO_DO = 0
  · refine ⟨_, move_task_to_do s id user activity hv ht hs.first_le, ?_, ?_, ?_, ?_, ?_, ?_⟩
    · intro _
      refine ⟨?_, ?_, rfl⟩
      · show (store s.tasks.task (id - 1) _ (id - 1)).start = s.now
        rw [store_eq]
      · exact binary_insert_eq (stamped s.tasks id s.now) s.tasks.ordered_by_start id
          s.tasks.first_at_current_time (s.tasks.amount_started - 1)
          (by have := hs.first_le; omega)
    · show (store s.tasks.task (id - 1) _ (id - 1)).user = _
      rw [store_eq]
    · show strcmp (store s.tasks.task (id - 1) _ (id - 1)).user user = 0
      rw [store_eq]
      exact strcmp_strcpy_self user
    · show (store s.tasks.task (id - 1) _ (id - 1)).activity = _
      rw [store_eq]
    · show strcmp (store s.tasks.task (id - 1) _ (id - 1)).activity activity = 0
      rw [store_eq]
      exact strcmp_strcpy_self activity
    · intro x hx
      exact store_ne _ _ _ _ hx
  · refine ⟨_, move_task_started s id user activity hv ht, ?_, ?_, ?_, ?_, ?_, ?_⟩
    · intro h0
      exact absurd h0 ht
    · show (store s.tasks.task (id - 1) _ (id - 1)).user = _
      rw [store_eq]
    · show strcmp (store s.tasks.task (id - 1) _ (id - 1)).user user = 0
      rw [store_eq]
      exact strcmp_strcpy_self user
    · show (store s.tasks.task (id - 1) _ (id - 1)).activity = _
      rw [store_eq]
    · show strcmp (store s.tasks.task (id - 1) _ (id - 1)).activity activity = 0
      rw [store_eq]
      exact strcmp_strcpy_self activity
    · intro x hx
      exact store_ne _ _ _ _ hx

/-- C11 on the board with task "a" in "TO DO", moved to "IN PROGRESS". -/
theorem C11_activation_witness :
    (is_move_valid (reached to_do_cmds) 1 str_u STR_IN_PROGRESS).1 ≠ 0 ∧
    strcmp ((reached to_do_cmds).tasks.task (1 - 1)).activity STR_TO_DO = 0 ∧
    ∃ r, move_task (reached to_do_cmds) 1 str_u STR_IN_PROGRESS = some r ∧
      (strcmp ((reached to_do_cmds).tasks.task (1 - 1)).activity STR_TO_DO = 0 →
        (r.state.tasks.task (1 - 1)).start = (reached to_do_cmds).now ∧
        binary_insert (stamped (reached to_do_cmds).tasks 1 (reached to_do_cmds).now)
          (reached to_do_cmds).tasks.ordered_by_start 1
          (reached to_do_cmds).tasks.first_at_current_time
          ((reached to_do_cmds).tasks.amount_started - 1) =
          some r.state.tasks.ordered_by_start ∧
        r.state.tasks.amount_started = (reached to_do_cmds).tasks.amount_started + 1) ∧
      (r.state.tasks.task (1 - 1)).user = strcpy str_u ∧
      strcmp (r.state.tasks.task (1 - 1)).user str_u = 0 ∧
      (r.state.tasks.task (1 - 1)).activity = strcpy STR_IN_PROGRESS ∧
      strcmp (r.state.tasks.task (1 - 1)).activity STR_IN_PROGRESS = 0 ∧
      (∀ x, x ≠ 1 - 1 → r.state.tasks.task x = (reached to_do_cmds).tasks.task x) :=
  ⟨by decide, by decide,
    C11_activation_postcondition zeroed to_do_cmds (reached to_do_cmds) (printed to_do_cmds)
      rfl 1 str_u STR_IN_PROGRESS (by decide)⟩

/-- C12 fails as stated: with the clock at `4294967295` an accepted
`advance_time` of 1 sets the 32-bit clock to 0 and reports 0, not
`now + 1`. -/
theorem C12_counterexample :
    main zeroed clock_max_cmds = some (reached clock_max_cmds, printed clock_max_cmds) ∧
    (reached clock_max_cmds).now = 4294967295 ∧
    (0 : Int) ≤ 1 ∧
    (advance_time (reached clock_max_cmds) 1).state.now = 0 ∧
    (advance_time (reached clock_max_cmds) 1).out = [Output.time 0] ∧
    (advance_time (reached clock_max_cmds) 1).state.now ≠ (reached clock_max_cmds).now + 1 := by
  refine ⟨rfl, ?_, ?_, ?_, ?_, ?_⟩ <;> decide

/-- C12 (as amended): for `delta ≥ 0`, `advance_time` sets the clock to `now + delta`
reduced modulo `2 ^ 32`, which is `now + delta` when that is below `2 ^ 32`,
sets `first_at_current_time` to `amount_started`, reports the new clock and
leaves the tasks, both indices, `amount`, `amount_started`, the users and the
activities as they were. -/
theorem C12_advance_time_postcondition (k : Kanban) (delta : Int) (h : 0 ≤ delta) :
    ((advance_time k delta).state.now : Int) = ((k.now : Int) + delta) % 2 ^ 32 ∧
    ((k.now : Int) + delta < 2 ^ 32 →
      ((advance_time k delta).state.now : Int) = (k.now : Int) + delta) ∧
    (advance_time k delta).state.tasks.first_at_current_time = k.tasks.amount_started ∧
    (advance_time k delta).out = [Output.time (advance_time k delta).state.now] ∧
    (advance_time k delta).ret = KEEP_GOING ∧
    (advance_time k delta).state.tasks.task = k.tasks.task ∧
    (advance_time k delta).state.tasks.ordered_by_description =
      k.tasks.ordered_by_description ∧
    (advance_time k delta).state.tasks.ordered_by_start = k.tasks.ordered_by_start ∧
    (advance_time k delta).state.tasks.amount = k.tasks.amount ∧
    (advance_time k delta).state.tasks.amount_started = k.tasks.amount_started ∧
    (advance_time k delta).state.users = k.users ∧
    (advance_time k delta).state.activities = k.activities := by
  rw [advance_time_accept k delta h]
  refine ⟨?_, ?_, rfl, rfl, rfl, rfl, rfl, rfl, rfl, rfl, rfl, rfl⟩
  · show (((k.now + delta.toNat) % 2 ^ 32 : Nat) : Int) = _
    omega
  · intro hlt
    show (((k.now + delta.toNat) % 2 ^ 32 : Nat) : Int) = _
    omega

/-- C12 (amended) on the fruit board, whose clock is 5, advanced by 7. -/
theorem C12_advance_time_witness :
    (0 : Int) ≤ 7 ∧
    ((advance_time (reached fruit_cmds) 7).state.now : Int) =
      (((reached fruit_cmds).now : Int) + 7) % 2 ^ 32 ∧
    (advance_time (reached fruit_cmds) 7).state.now = 12 ∧
    (advance_time (reached fruit_cmds) 7).state.tasks.first_at_current_time =
      (reached fruit_cmds).tasks.amount_started :=
  ⟨by decide, (C12_advance_time_postcondition (reached fruit_cmds) 7 (by decide)).1,
    by decide, (C12_advance_time_postcondition (reached fruit_cmds) 7 (by decide)).2.2.1⟩

/-- C13: in a state that the program reaches, `display_activity` on an
existing activity prints, in index order, the lines of the entries of the
chosen index (the description index over `amount` entries for "TO DO", the
start-time index over `amount_started` entries otherwise) whose task is in
the activity; every task in the activity is listed exactly once and no other
task is listed. -/
theorem C13_filtered_ordered_view (kanban : Kanban) (cmds : List Command) (s : Kanban)
    (out : List Output) (h : main kanban cmds = some (s, out)) (activity : CString)
    (ha : is_existing_activity s.activities activity ≠ 0) :
    (strcmp activity STR_TO_DO = 0 →
      (display_activity s activity).out =
        ((live s.tasks.ordered_by_description s.tasks.amount).filter
          (in_activity s.tasks activity)).map (display_line s.tasks)) ∧
    (strcmp activity STR_TO_DO ≠ 0 →
      (display_activity s activity).out =
        ((live s.tasks.ordered_by_start s.tasks.amount_started).filter
          (in_activity s.tasks activity)).map (display_line s.tasks)) ∧
    (display_activity s activity).out = (listed s activity).map (display_line s.tasks) ∧
    (display_activity s activity).state = s ∧
    (listed s activity).Nodup ∧
    (∀ t, t ∈ listed s activity ↔
      0 ≤ t ∧ t < s.tasks.amount ∧ strcmp (s.tasks.task t).activity activity = 0) ∧
    (∀ t, 0 ≤ t → t < s.tasks.amount → strcmp (s.tasks.task t).activity activity = 0 →
      List.count (display_line s.tasks t) (display_activity s activity).out = 1) ∧
    (∀ o ∈ (display_activity s activity).out, ∃ t, 0 ≤ t ∧ t < s.tasks.amount ∧
      strcmp (s.tasks.task t).activity activity = 0 ∧ o = display_line s.tasks t) := by
  have hs : Inv s := main_reached_inv kanban cmds (s, out) h
  have hout : (display_activity s activity).out = (listed s activity).map (display_line s.tasks) := by
    rw [display_activity_eq s activity ha]
  have hnd := listed_nodup s hs activity
  have hmem := mem_listed s hs activity
  refine ⟨?_, ?_, hout, ?_, hnd, hmem, ?_, ?_⟩
  · intro h0
    have h1 : strcmp activity STR_TO_DO = EQUAL := h0
    rw [hout, listed, if_pos h1]
  · intro h0
    have h1 : ¬ strcmp activity STR_TO_DO = EQUAL := h0
    rw [hout, listed, if_neg h1]
  · rw [display_activity_eq s activity ha]
  · intro t h0 h1 h2
    rw [hout]
    apply List.count_eq_one_of_mem
    · exact List.Nodup.map_on (fun x _ y _ hxy => display_line_injective s.tasks x y hxy) hnd
    · exact List.mem_map.2 ⟨t, (hmem t).2 ⟨h0, h1, h2⟩, rfl⟩
  · intro o ho
    rw [hout, List.mem_map] at ho
    obtain ⟨t, ht, hto⟩ := ho
    obtain ⟨h0, h1, h2⟩ := (hmem t).1 ht
    exact ⟨t, h0, h1, h2, hto.symm⟩

/-- C13 on the fruit board and the activity "TO DO": task 2, "apple", the only
task in "TO DO", is listed. -/
theorem C13_filtered_ordered_view_witness :
    is_existing_activity (reached fruit_cmds).activities STR_TO_DO ≠ 0 ∧
    (display_activity (reached fruit_cmds) STR_TO_DO).out =
      [Output.display 2 0 str_apple] ∧
    (display_activity (reached fruit_cmds) STR_TO_DO).out =
      (listed (reached fruit_cmds) STR_TO_DO).map (display_line (reached fruit_cmds).tasks) ∧
    (listed (reached fruit_cmds) STR_TO_DO).Nodup :=
  ⟨by decide, by decide,
    (C13_filtered_ordered_view zeroed fruit_cmds (reached fruit_cmds) (printed fruit_cmds) rfl
      STR_TO_DO (by decide)).2.2.1,
    (C13_filtered_ordered_view zeroed fruit_cmds (reached fruit_cmds) (printed fruit_cmds) rfl
      STR_TO_DO (by decide)).2.2.2.2.1⟩

/-- C14 fails as stated: task 1 starts at clock 0 and is moved to "DONE" at
clock `2147483648`; the duration printed is `-2147483648`, the 32-bit `int`
that the unsigned difference is stored in, not `now - start`. -/
theorem C14_counterexample :
    main zeroed long_cmds = some (reached long_cmds, printed long_cmds) ∧
    (is_move_valid (reached long_cmds) 1 str_u STR_DONE).1 ≠ 0 ∧
    strcmp STR_DONE STR_DONE = 0 ∧
    (reached long_cmds).now = 2147483648 ∧
    ((reached long_cmds).tasks.task (1 - 1)).start = 0 ∧
    (∃ slack, (move_task (reached long_cmds) 1 str_u STR_DONE).map (fun r => r.out) =
      some [Output.move_done (-2147483648) slack]) ∧
    (-2147483648 : Int) ≠ 2147483648 - 0 := by
  refine ⟨rfl, by decide, by decide, by decide, by decide, ⟨_, rfl⟩, by decide⟩

/-- C14 (as amended): in a state that the program reaches, an accepted move to "DONE"
prints one line; its duration is `now - start` reduced to a 32-bit `int`
(the start taken after the stamping of this move), so it is `now - start`
when that lies in `[-2^31, 2^31)`; and when the duration minus the expected
duration of the task lies in that range, the slack printed is this
difference.  A task of duration 4 started at clock 0 and moved to "DONE" at
clock 6 gives duration 6 and slack 2. -/
theorem C14_elapsed_and_slack (kanban : Kanban) (cmds : List Command) (s : Kanban)
    (out : List Output) (h : main kanban cmds = some (s, out))
    (id : Int) (user activity : CString)
    (hv : (is_move_valid s id user activity).1 ≠ 0)
    (hd : strcmp activity STR_DONE = 0) :
    (∃ r d sl, move_task s id user activity = some r ∧
      r.out = [Output.move_done d sl] ∧
      d = wrap_int ((s.now : Int) - ((r.state.tasks.task (id - 1)).start : Int)) ∧
      (-(2 ^ 31) ≤ (s.now : Int) - ((r.state.tasks.task (id - 1)).start : Int) →
        (s.now : Int) - ((r.state.tasks.task (id - 1)).start : Int) < 2 ^ 31 →
        d = (s.now : Int) - ((r.state.tasks.task (id - 1)).start : Int)) ∧
      (-(2 ^ 31) ≤ d - (s.tasks.task (id - 1)).duration →
        d - (s.tasks.task (id - 1)).duration < 2 ^ 31 →
        sl = d - (s.tasks.task (id - 1)).duration) ∧
      (r.state.tasks.task (id - 1)).duration = (s.tasks.task (id - 1)).duration) ∧
    (move_task (reached slack_cmds) 1 str_u STR_DONE).map (fun r => r.out) =
      some [Output.move_done 6 2] := by
  refine ⟨?_, by decide⟩
  have hs : Inv s := main_reached_inv kanban cmds (s, out) h
  have hb : StartBound s := main_start_bound kanban cmds (s, out) h
  obtain ⟨hid1, hid2, _⟩ := (is_move_valid_iff s id user activity).1 hv
  by_cases ht : strcmp (s.tasks.task (id - 1)).activity STR_TO_DO = 0
  · have hstart : ((moved_to_do s.tasks id s.now user activity).task (id - 1)).start = s.now := by
      rw [(moved_to_do_task s.tasks id s.now user activity (id - 1)).2.2.1, if_pos rfl]
    have hdur := (moved_to_do_task s.tasks id s.now user activity (id - 1)).2.1
    refine ⟨_, _, _, move_task_to_do s id user activity hv ht hs.first_le,
      move_report_done _ _ _ _ hd, ?_, ?_, ?_, hdur⟩
    · show _ = wrap_int ((s.now : Int) -
        (((moved_to_do s.tasks id s.now user activity).task (id - 1)).start : Int))
      rw [hstart]
      exact to_int_sub s.now s.now hs.now_lt
    · intro h0 h1
      show _ = (s.now : Int) -
        (((moved_to_do s.tasks id s.now user activity).task (id - 1)).start : Int)
      rw [hstart, to_int_sub s.now s.now hs.now_lt]
      exact wrap_int_of_range _ (by omega) (by omega)
    · intro h0 h1
      exact wrap_int_of_range _ h0 h1
  · have hstart := (moved_started_task s.tasks id user activity (id - 1)).2.1
    have hdur := (moved_started_task s.tasks id user activity (id - 1)).2.2.1
    have hsb := hb (id - 1) (by omega) (by omega)
    refine ⟨_, _, _, move_task_started s id user activity hv ht,
      move_report_done _ _ _ _ hd, ?_, ?_, ?_, hdur⟩
    · show _ = wrap_int ((s.now : Int) -
        (((moved_started s.tasks id user activity).task (id - 1)).start : Int))
      rw [hstart]
      exact to_int_sub s.now _ hsb
    · intro h0 h1
      have h0 : -(2 ^ 31) ≤ (s.now : Int) -
        (((moved_started s.tasks id user activity).task (id - 1)).start : Int) := h0
      have h1 : (s.now : Int) -
        (((moved_started s.tasks id user activity).task (id - 1)).start : Int) < 2 ^ 31 := h1
      show _ = (s.now : Int) -
        (((moved_started s.tasks id user activity).task (id - 1)).start : Int)
      rw [hstart] at h0 h1 ⊢
      rw [to_int_sub s.now _ hsb]
      exact wrap_int_of_range _ h0 h1
    · intro h0 h1
      exact wrap_int_of_range _ h0 h1

/-- C14 (amended) at the scenario: duration 4, start 0, "DONE" at clock 6. -/
theorem C14_elapsed_and_slack_witness :
    (is_move_valid (reached slack_cmds) 1 str_u STR_DONE).1 ≠ 0 ∧
    strcmp STR_DONE STR_DONE = 0 ∧
    (move_task (reached slack_cmds) 1 str_u STR_DONE).map (fun r => r.out) =
      some [Output.move_done 6 2] :=
  ⟨by decide, by decide,
    (C14_elapsed_and_slack zeroed slack_cmds (reached slack_cmds) (printed slack_cmds) rfl
      1 str_u STR_DONE (by decide) (by decide)).2⟩

/-- C15 fails as stated: the move of task 1 from "TO DO" to "IN PROGRESS" is
accepted and leaves the initial stage, and prints nothing; the move of a task
from "IN PROGRESS" to "DONE" does not leave the initial stage, and prints
duration and slack. -/
theorem C15_counterexample :
    (is_move_valid (reached to_do_cmds) 1 str_u STR_IN_PROGRESS).1 ≠ 0 ∧
    strcmp ((reached to_do_cmds).tasks.task (1 - 1)).activity STR_TO_DO = 0 ∧
    (move_task (reached to_do_cmds) 1 str_u STR_IN_PROGRESS).map (fun r => r.out) =
      some [] ∧
    (is_move_valid (reached slack_cmds) 1 str_u STR_DONE).1 ≠ 0 ∧
    strcmp ((reached slack_cmds).tasks.task (1 - 1)).activity STR_TO_DO ≠ 0 ∧
    (move_task (reached slack_cmds) 1 str_u STR_DONE).map (fun r => r.out) =
      some [Output.move_done 6 2] := by
  refine ⟨?_, ?_, ?_, ?_, ?_, ?_⟩ <;> decide

/-- C15 (as amended): in a state that the program reaches, an accepted `move_task`
prints the duration and the slack exactly when the target activity is
"DONE", whether or not the task leaves "TO DO", and prints nothing
otherwise. -/
theorem C15_report_iff_done (kanban : Kanban) (cmds : List Command) (s : Kanban)
    (out : List Output) (h : main kanban cmds = some (s, out))
    (id : Int) (user activity : CString)
    (hv : (is_move_valid s id user activity).1 ≠ 0) :
    ∃ r, move_task s id user activity = some r ∧
      (strcmp activity STR_DONE = 0 → ∃ d sl, r.out = [Output.move_done d sl]) ∧
      (strcmp activity STR_DONE ≠ 0 → r.out = []) := by
  have hs : Inv s := main_reached_inv kanban cmds (s, out) h
  by_cases ht : strcmp (s.tasks.task (id - 1)).activity STR_TO_DO = 0
  · exact ⟨_, move_task_to_do s id user activity hv ht hs.first_le,
      fun hd => ⟨_, _, move_report_done _ _ _ _ hd⟩, fun hd => move_report_other _ _ _ _ hd⟩
  · exact ⟨_, move_task_started s id user activity hv ht,
      fun hd => ⟨_, _, move_report_done _ _ _ _ hd⟩, fun hd => move_report_other _ _ _ _ hd⟩

/-- C15 (amended) on the board with task "a" in "TO DO", moved to "DONE". -/
theorem C15_report_witness :
    (is_move_valid (reached to_do_cmds) 1 str_u STR_DONE).1 ≠ 0 ∧
    ∃ r, move_task (reached to_do_cmds) 1 str_u STR_DONE = some r ∧
      (strcmp STR_DONE STR_DONE = 0 → ∃ d sl, r.out = [Output.move_done d sl]) ∧
      (strcmp STR_DONE STR_DONE ≠ 0 → r.out = []) :=
  ⟨by decide, C15_report_iff_done zeroed to_do_cmds (reached to_do_cmds) (printed to_do_cmds)
    rfl 1 str_u STR_DONE (by decide)⟩

/-- C16 fails as stated: with the clock at `4294967294` an accepted
`advance_time` of `2147483647` leaves the 32-bit clock at `2147483645`, below
its old value. -/
theorem C16_counterexample :
    main zeroed clock_high_cmds = some (reached clock_high_cmds, printed clock_high_cmds) ∧
    (reached clock_high_cmds).now = 4294967294 ∧
    (is_time_valid 2147483647).1 = 1 ∧
    (advance_time (reached clock_high_cmds) 2147483647).state.now = 2147483645 ∧
    ¬ (reached clock_high_cmds).now ≤
      (advance_time (reached clock_high_cmds) 2147483647).state.now := by
  refine ⟨rfl, ?_, ?_, ?_, ?_⟩ <;> decide

/-- C16 (as amended): the clock starts at 0; after a run it is the sum of the accepted
advances modulo `2 ^ 32`; no command other than `n` changes it, nor does a
rejected `n`; and an accepted `advance_time(delta)` with
`now + delta < 2 ^ 32` sets it to `now + delta`, not below the old value. -/
theorem C16_clock_monotone_without_wrap (kanban : Kanban) (cmds : List Command)
    (s : Kanban) (out : List Output) (h : main kanban cmds = some (s, out))
    (k : Kanban) (delta : Int) (hd : 0 ≤ delta) (hw : k.now + delta.toNat < 2 ^ 32) :
    (setup kanban).now = 0 ∧
    s.now = clock_sum cmds % 2 ^ 32 ∧
    (∀ cmd, (∀ time, cmd ≠ Command.n time) →
      ∃ r, select s cmd = some r ∧ r.state.now = s.now) ∧
    (∀ time, time < 0 → (advance_time k time).state.now = k.now) ∧
    (advance_time k delta).state.now = k.now + delta.toNat ∧
    k.now ≤ (advance_time k delta).state.now := by
  have hs : Inv s := main_reached_inv kanban cmds (s, out) h
  have hn := run_now cmds (setup kanban) (s, out) (setup_inv kanban) h
  have e0 : (setup kanban).now = 0 := rfl
  rw [e0, Nat.zero_add] at hn
  refine ⟨rfl, hn, ?_, ?_, ?_, ?_⟩
  · intro cmd hc
    obtain ⟨r, hr, _, he, _⟩ := select_effect s hs cmd
    exact ⟨r, hr, effect_now_eq s cmd r he hc⟩
  · intro time ht
    rw [advance_time_reject k time ht]
  · rw [advance_time_accept k delta hd]
    exact Nat.mod_eq_of_lt hw
  · rw [advance_time_accept k delta hd]
    show k.now ≤ (k.now + delta.toNat) % 2 ^ 32
    rw [Nat.mod_eq_of_lt hw]
    omega

/-- C16 (amended) on the fruit input and an advance of 7 from its final board. -/
theorem C16_clock_monotone_witness :
    (0 : Int) ≤ 7 ∧ (reached fruit_cmds).now + (7 : Int).toNat < 2 ^ 32 ∧
    (reached fruit_cmds).now = clock_sum fruit_cmds % 2 ^ 32 ∧
    (advance_time (reached fruit_cmds) 7).state.now = (reached fruit_cmds).now + (7 : Int).toNat ∧
    (reached fruit_cmds).now ≤ (advance_time (reached fruit_cmds) 7).state.now :=
  ⟨by decide, by decide,
    (C16_clock_monotone_without_wrap zeroed fruit_cmds (reached fruit_cmds)
      (printed fruit_cmds) rfl (reached fruit_cmds) 7 (by decide) (by decide)).2.1,
    (C16_clock_monotone_without_wrap zeroed fruit_cmds (reached fruit_cmds)
      (printed fruit_cmds) rfl (reached fruit_cmds) 7 (by decide) (by decide)).2.2.2.2.1,
    (C16_clock_monotone_without_wrap zeroed fruit_cmds (reached fruit_cmds)
      (printed fruit_cmds) rfl (reached fruit_cmds) 7 (by decide) (by decide)).2.2.2.2.2⟩

/-- C18: for `delta < 0`, `is_time_valid` returns 0 and `advance_time` leaves
the whole board as it was and prints "invalid time". -/
theorem C18_negative_advance_rejected (k : Kanban) (delta : Int) (h : delta < 0) :
    (is_time_valid delta).1 = 0 ∧
    (advance_time k delta).state = k ∧
    (advance_time k delta).state.now = k.now ∧
    (advance_time k delta).state.tasks.first_at_current_time =
      k.tasks.first_at_current_time ∧
    (advance_time k delta).out = [Output.invalid_time] ∧
    (advance_time k delta).ret = KEEP_GOING := by
  rw [advance_time_reject k delta h]
  refine ⟨?_, rfl, rfl, rfl, rfl, rfl⟩
  simp [is_time_valid, h]

/-- C18 on the fruit board and `delta = -3`. -/
theorem C18_negative_advance_witness :
    (-3 : Int) < 0 ∧
    (is_time_valid (-3)).1 = 0 ∧
    (advance_time (reached fruit_cmds) (-3)).state = reached fruit_cmds ∧
    (advance_time (reached fruit_cmds) (-3)).state.now = (reached fruit_cmds).now ∧
    (advance_time (reached fruit_cmds) (-3)).state.tasks.first_at_current_time =
      (reached fruit_cmds).tasks.first_at_current_time ∧
    (advance_time (reached fruit_cmds) (-3)).out = [Output.invalid_time] ∧
    (advance_time (reached fruit_cmds) (-3)).ret = KEEP_GOING :=
  ⟨by decide, C18_negative_advance_rejected (reached fruit_cmds) (-3) (by decide)⟩

/-- C19: `is_move_valid` returns 1 exactly when `1 ≤ id ≤ amount`, the target
activity differs from the current activity of the task, the target is not
"TO DO", the user is in the user list and the activity is in the activity
list; it returns 0 otherwise, and then `move_task` leaves the board as it
was. -/
theorem C19_move_validation (k : Kanban) (id : Int) (user activity : CString) :
    ((is_move_valid k id user activity).1 = 1 ↔
      1 ≤ id ∧ id ≤ k.tasks.amount ∧
      strcmp (k.tasks.task (id - 1)).activity activity ≠ 0 ∧
      strcmp activity STR_TO_DO ≠ 0 ∧
      (∃ i : Int, 0 ≤ i ∧ i < k.users.amount ∧ strcmp user (k.users.user i) = 0) ∧
      (∃ i : Int, 0 ≤ i ∧ i < k.activities.amount ∧
        strcmp activity (k.activities.activity i) = 0)) ∧
    ((is_move_valid k id user activity).1 = 0 ∨ (is_move_valid k id user activity).1 = 1) ∧
    ((is_move_valid k id user activity).1 = 0 →
      ∃ r, move_task k id user activity = some r ∧ r.state = k ∧ r.ret = KEEP_GOING) := by
  have hbit := is_move_valid_bit k id user activity
  have hiff := is_move_valid_iff k id user activity
  rw [is_existing_user_ne_zero, is_existing_activity_ne_zero] at hiff
  refine ⟨?_, hbit, ?_⟩
  · constructor
    · intro h1
      exact hiff.1 (by rw [h1]; decide)
    · intro h
      have := hiff.2 h
      rcases hbit with h0 | h1
      · exact absurd h0 this
      · exact h1
  · intro h0
    exact ⟨_, move_task_reject k id user activity h0, rfl, rfl⟩

/-- C20: `is_new_task_valid` returns 1 exactly when `amount < AMT_TASKS`
(10000), no existing task has the description of the new one and the duration
is positive, and 0 otherwise; the errors are tested in the order too many
tasks, duplicate description, invalid duration; and when it returns 0,
`new_task` leaves the task list as it was. -/
theorem C20_new_task_validation (l : TaskList) (t : Task) (duration : Int)
    (description user : CString) :
    ((is_new_task_valid l t).1 = 1 ↔
      l.amount < AMT_TASKS ∧
      (∀ i : Int, 0 ≤ i → i < l.amount →
        strcmp t.description (l.task i).description ≠ 0) ∧
      0 < t.duration) ∧
    AMT_TASKS = 10000 ∧
    ((is_new_task_valid l t).1 = 0 ∨ (is_new_task_valid l t).1 = 1) ∧
    (AMT_TASKS ≤ l.amount → is_new_task_valid l t = (0, [Output.too_many_tasks])) ∧
    (l.amount < AMT_TASKS →
      (∃ i : Int, 0 ≤ i ∧ i < l.amount ∧ strcmp t.description (l.task i).description = 0) →
      is_new_task_valid l t = (0, [Output.duplicate_description])) ∧
    (l.amount < AMT_TASKS →
      (∀ i : Int, 0 ≤ i → i < l.amount →
        strcmp t.description (l.task i).description ≠ 0) →
      t.duration ≤ 0 → is_new_task_valid l t = (0, [Output.invalid_duration])) ∧
    ((is_new_task_valid l (fresh_task duration description user)).1 = 0 →
      ∃ r, new_task l duration description user = some r ∧ r.state = l ∧
        r.state.task = l.task ∧ r.state.amount = l.amount ∧
        r.state.ordered_by_description = l.ordered_by_description ∧
        reported_ids r.out = []) := by
  have hbit := is_new_task_valid_bit l t
  have hiff := is_new_task_valid_iff l t
  rw [is_task_description_duplicate_eq_zero] at hiff
  refine ⟨?_, rfl, hbit, ?_, ?_, ?_, ?_⟩
  · constructor
    · intro h1
      exact hiff.1 (by rw [h1]; decide)
    · intro h
      have := hiff.2 h
      rcases hbit with h0 | h1
      · exact absurd h0 this
      · exact h1
  · intro h
    have : l.amount ≥ AMT_TASKS := h
    simp only [is_new_task_valid, this, if_true]
  · intro h1 h2
    have h3 : ¬ l.amount ≥ AMT_TASKS := by omega
    have h4 : is_task_description_duplicate l t ≠ 0 := by
      intro h5
      obtain ⟨i, hi0, hi1, hi2⟩ := h2
      exact (is_task_description_duplicate_eq_zero l t).1 h5 i hi0 hi1 hi2
    simp only [is_new_task_valid, h3, if_false, h4, ne_eq, not_false_eq_true, if_true]
  · intro h1 h2 h5
    have h3 : ¬ l.amount ≥ AMT_TASKS := by omega
    have h4 : is_task_description_duplicate l t = 0 :=
      (is_task_description_duplicate_eq_zero l t).2 h2
    simp only [is_new_task_valid, h3, if_false, h4, ne_eq, not_true_eq_false, h5, if_true]
  · intro h0
    exact ⟨_, new_task_reject l duration description user h0, rfl, rfl, rfl, rfl,
      reported_ids_is_new_task_valid _ _⟩

/-- C21: a call of `binary_insert` with `0 ≤ start ≤ end + 1` on a range sorted
non-decreasingly by description leaves its loop, with a position `p` in
`[start, end + 1]` such that the entries of `[start, p)` have a description
not greater than the new one and the entries of `[p, end]` a strictly greater
one; the call returns, and the range `[start, end + 1]` of the new vector is
sorted by description. -/
theorem C21_binary_insert_upper_bound (l : TaskList) (order : Int → Int) (id lo hi : Int)
    (h0 : 0 ≤ lo) (h : lo ≤ hi + 1)
    (hs : ∀ i j, lo ≤ i → i ≤ j → j ≤ hi →
      strcmp (l.task (order i)).description (l.task (order j)).description ≤ 0) :
    ¬ (binary_insert_loop l order id (hi - lo + 1).toNat lo hi).2 ≥
      (binary_insert_loop l order id (hi - lo + 1).toNat lo hi).1 ∧
    0 ≤ binary_insert_pos l order id lo hi ∧
    lo ≤ binary_insert_pos l order id lo hi ∧
    binary_insert_pos l order id lo hi ≤ hi + 1 ∧
    (∀ i, lo ≤ i → i < binary_insert_pos l order id lo hi →
      strcmp (l.task (order i)).description (l.task (id - 1)).description ≤ 0) ∧
    (∀ i, binary_insert_pos l order id lo hi ≤ i → i ≤ hi →
      strcmp (l.task (order i)).description (l.task (id - 1)).description > 0) ∧
    ∃ order2, binary_insert l order id lo hi = some order2 ∧
      order2 (binary_insert_pos l order id lo hi) = id - 1 ∧
      ∀ i j, lo ≤ i → i ≤ j → j ≤ hi + 1 →
        strcmp (l.task (order2 i)).description (l.task (order2 j)).description ≤ 0 := by
  obtain ⟨h1, h2, _, _⟩ := binary_insert_pos_local l order id lo hi h
  obtain ⟨hleft, hright⟩ := binary_insert_pos_sorted l order id lo hi h hs
  refine ⟨binary_insert_loop_exit l order id lo hi, by omega, h1, h2, hleft, hright,
    _, binary_insert_eq l order id lo hi h, insert_at_self _ _ _ _, ?_⟩
  intro i j hi0 hij hj
  rcases eq_or_lt_of_le hij with heq | hlt
  · rw [heq, strcmp_self]
  · exact insert_at_pairs
      (fun a b => strcmp (l.task a).description (l.task b).description ≤ 0)
      order lo _ (id - 1) hi h1 h2
      (fun i j hi0 hij hj => hs i j hi0 (le_of_lt hij) hj)
      hleft
      (fun i hi0 hi1 => by
        have := hright i hi0 hi1
        show strcmp _ _ ≤ 0
        rw [strcmp_swap (l.task (order i)).description (l.task (id - 1)).description]
        omega)
      i j hi0 hlt hj

/-- C21 at the call that inserts "b" between "a" and "c". -/
theorem C21_binary_insert_upper_bound_witness :
    binary_insert_pos abc_list abc_list.ordered_by_description 3 0 1 = 1 ∧
    ∃ order2, binary_insert abc_list abc_list.ordered_by_description 3 0 1 = some order2 ∧
      order2 (binary_insert_pos abc_list abc_list.ordered_by_description 3 0 1) = 3 - 1 ∧
      ∀ i j, 0 ≤ i → i ≤ j → j ≤ 1 + 1 →
        strcmp (abc_list.task (order2 i)).description
          (abc_list.task (order2 j)).description ≤ 0 :=
  ⟨by decide,
    (C21_binary_insert_upper_bound abc_list abc_list.ordered_by_description 3 0 1
      (by decide) (by decide)
      (by
        intro i j h0 hij hj
        have hi : i = 0 ∨ i = 1 := by omega
        have hj : j = 0 ∨ j = 1 := by omega
        rcases hi with rfl | rfl <;> rcases hj with rfl | rfl <;>
          first | decide | omega)).2.2.2.2.2.2⟩

/-- C23 fails as stated: task 1 ("b") leaves "TO DO" at clock 0, the accepted
command `n 0` moves the window floor without moving the clock, task 2 ("a")
leaves "TO DO" at clock 0 and is put after task 1: two adjacent entries with
equal start time, whose descriptions are not in increasing order. -/
theorem C23_counterexample :
    main zeroed zero_advance_cmds =
      some (reached zero_advance_cmds, printed zero_advance_cmds) ∧
    (is_time_valid 0).1 = 1 ∧
    (0 : Int) + 1 < (reached zero_advance_cmds).tasks.amount_started ∧
    (reached zero_advance_cmds).tasks.ordered_by_start 0 = 1 - 1 ∧
    (reached zero_advance_cmds).tasks.ordered_by_start (0 + 1) = 2 - 1 ∧
    ((reached zero_advance_cmds).tasks.task
      ((reached zero_advance_cmds).tasks.ordered_by_start 0)).start =
      ((reached zero_advance_cmds).tasks.task
        ((reached zero_advance_cmds).tasks.ordered_by_start (0 + 1))).start ∧
    ¬ strcmp ((reached zero_advance_cmds).tasks.task
        ((reached zero_advance_cmds).tasks.ordered_by_start 0)).description
      ((reached zero_advance_cmds).tasks.task
        ((reached zero_advance_cmds).tasks.ordered_by_start (0 + 1))).description < 0 := by
  refine ⟨rfl, ?_, ?_, ?_, ?_, ?_, ?_⟩ <;> decide

/-- C23 (as amended): after an input without the command `n 0`, whose accepted
advances add up to less than `2 ^ 32` and whose strings fit the arrays they
are scanned into, every description stored lies inside its own array,
adjacent entries of the start-time index with equal start time stand in
strictly increasing order of description, and the index is sorted by the pair
(start, description). -/
theorem C23_start_index_sorted_by_start_then_description (kanban : Kanban)
    (cmds : List Command) (hz : ∀ c ∈ cmds, c ≠ Command.n 0)
    (hw : clock_sum cmds < 2 ^ 32) (hfit : ∀ c ∈ cmds, fits c = true) :
    ∃ r, main kanban cmds = some r ∧ DescriptionsFit r.1.tasks ∧
      (∀ i, 0 ≤ i → i + 1 < r.1.tasks.amount_started →
        (r.1.tasks.task (r.1.tasks.ordered_by_start i)).start =
          (r.1.tasks.task (r.1.tasks.ordered_by_start (i + 1))).start →
        strcmp (r.1.tasks.task (r.1.tasks.ordered_by_start i)).description
          (r.1.tasks.task (r.1.tasks.ordered_by_start (i + 1))).description < 0) ∧
      (∀ i j, 0 ≤ i → i < j → j < r.1.tasks.amount_started →
        (r.1.tasks.task (r.1.tasks.ordered_by_start i)).start <
          (r.1.tasks.task (r.1.tasks.ordered_by_start j)).start ∨
        ((r.1.tasks.task (r.1.tasks.ordered_by_start i)).start =
          (r.1.tasks.task (r.1.tasks.ordered_by_start j)).start ∧
        strcmp (r.1.tasks.task (r.1.tasks.ordered_by_start i)).description
          (r.1.tasks.task (r.1.tasks.ordered_by_start j)).description < 0)) := by
  obtain ⟨r, hr, _⟩ := main_inv kanban cmds
  obtain ⟨hs, hp⟩ := run_pair_sorted cmds (setup kanban) r (setup_inv kanban)
    (setup_start_sorted kanban) (setup_pair_sorted kanban) hz
    (by show 0 + clock_sum cmds < 2 ^ 32; omega) hr
  refine ⟨r, hr, main_descriptions_fit kanban cmds hfit r hr,
    fun i h0 h1 => hp.ties i (i + 1) h0 (by omega) h1, ?_⟩
  intro i j h0 hij hj
  rcases Nat.lt_or_eq_of_le (hs.sorted i j h0 hij hj) with hlt | heq
  · exact Or.inl hlt
  · exact Or.inr ⟨heq, hp.ties i j h0 hij hj heq⟩

/-- C23 (amended) on the input `window_cmds`, two moves at clock 0 and no `n`
command: the index holds task 2 ("a") before task 1 ("b"). -/
theorem C23_start_index_sorted_witness :
    (∀ c ∈ window_cmds, c ≠ Command.n 0) ∧ clock_sum window_cmds < 2 ^ 32 ∧
    (∀ c ∈ window_cmds, fits c = true) ∧
    ∃ r, main zeroed window_cmds = some r ∧ DescriptionsFit r.1.tasks ∧
      (∀ i, 0 ≤ i → i + 1 < r.1.tasks.amount_started →
        (r.1.tasks.task (r.1.tasks.ordered_by_start i)).start =
          (r.1.tasks.task (r.1.tasks.ordered_by_start (i + 1))).start →
        strcmp (r.1.tasks.task (r.1.tasks.ordered_by_start i)).description
          (r.1.tasks.task (r.1.tasks.ordered_by_start (i + 1))).description < 0) ∧
      (∀ i j, 0 ≤ i → i < j → j < r.1.tasks.amount_started →
        (r.1.tasks.task (r.1.tasks.ordered_by_start i)).start <
          (r.1.tasks.task (r.1.tasks.ordered_by_start j)).start ∨
        ((r.1.tasks.task (r.1.tasks.ordered_by_start i)).start =
          (r.1.tasks.task (r.1.tasks.ordered_by_start j)).start ∧
        strcmp (r.1.tasks.task (r.1.tasks.ordered_by_start i)).description
          (r.1.tasks.task (r.1.tasks.ordered_by_start j)).description < 0)) :=
  ⟨by decide, by decide, by decide,
    C23_start_index_sorted_by_start_then_description zeroed window_cmds (by decide)
      (by decide) (by decide)⟩

/-- C24: in every state that the program reaches,
`0 ≤ first_at_current_time ≤ amount_started ≤ amount ≤ AMT_TASKS` and the
live entries of both indices are task indices below `amount`; the call of
`binary_insert` that an accepted `new_task` makes and the call that an
accepted `move_task` of a task in "TO DO" makes are safe in the sense of
`SafeCall`, and their result is the index of the state that the handler
returns. -/
theorem C24_index_bounds_safety (kanban : Kanban) (cmds : List Command) :
    ∃ r, main kanban cmds = some r ∧
      0 ≤ r.1.tasks.first_at_current_time ∧
      r.1.tasks.first_at_current_time ≤ r.1.tasks.amount_started ∧
      r.1.tasks.amount_started ≤ r.1.tasks.amount ∧
      r.1.tasks.amount ≤ AMT_TASKS ∧
      (∀ i, 0 ≤ i → i < r.1.tasks.amount →
        0 ≤ r.1.tasks.ordered_by_description i ∧
        r.1.tasks.ordered_by_description i < r.1.tasks.amount) ∧
      (∀ i, 0 ≤ i → i < r.1.tasks.amount_started →
        0 ≤ r.1.tasks.ordered_by_start i ∧ r.1.tasks.ordered_by_start i < r.1.tasks.amount) ∧
      (∀ (duration : Int) (description user : CString),
        (is_new_task_valid r.1.tasks (fresh_task duration description user)).1 ≠ 0 →
        SafeCall (append_task r.1.tasks (fresh_task duration description user))
          (append_task r.1.tasks (fresh_task duration description user)).ordered_by_description
          r.1.tasks.amount
          (append_task r.1.tasks (fresh_task duration description user)).amount 0
          ((append_task r.1.tasks (fresh_task duration description user)).amount - 2) ∧
        ∃ order2 res,
          binary_insert (append_task r.1.tasks (fresh_task duration description user))
            (append_task r.1.tasks (fresh_task duration description user)).ordered_by_description
            (append_task r.1.tasks (fresh_task duration description user)).amount 0
            ((append_task r.1.tasks (fresh_task duration description user)).amount - 2) =
            some order2 ∧
          new_task r.1.tasks duration description user = some res ∧
          res.state.ordered_by_description = order2) ∧
      (∀ (id : Int) (user activity : CString),
        (is_move_valid r.1 id user activity).1 ≠ 0 →
        strcmp (r.1.tasks.task (id - 1)).activity STR_TO_DO = 0 →
        SafeCall (stamped r.1.tasks id r.1.now) r.1.tasks.ordered_by_start
          r.1.tasks.amount_started id r.1.tasks.first_at_current_time
          (r.1.tasks.amount_started - 1) ∧
        ∃ order2 res,
          binary_insert (stamped r.1.tasks id r.1.now) r.1.tasks.ordered_by_start id
            r.1.tasks.first_at_current_time (r.1.tasks.amount_started - 1) = some order2 ∧
          move_task r.1 id user activity = some res ∧
          res.state.tasks.ordered_by_start = order2) := by
  obtain ⟨r, hr, hi⟩ := main_inv kanban cmds
  refine ⟨r, hr, hi.first_nonneg, hi.first_le, started_le_amount r.1 hi, hi.amount_le,
    hi.descr_range, hi.start_range, ?_, ?_⟩
  · intro duration description user hv
    refine ⟨safe_call_new_task r.1 hi duration description user hv, _, _, ?_,
      new_task_accept r.1.tasks duration description user hv hi.amount_nonneg, rfl⟩
    have hn := hi.amount_nonneg
    have e1 : (append_task r.1.tasks (fresh_task duration description user)).amount - 2 =
      r.1.tasks.amount - 1 := by
      show r.1.tasks.amount + 1 - 2 = _
      omega
    have e2 : (append_task r.1.tasks (fresh_task duration description user)).amount =
      r.1.tasks.amount + 1 := rfl
    have e3 : r.1.tasks.amount + 1 - 1 = r.1.tasks.amount := by omega
    rw [e1, e2, binary_insert_eq _ _ _ _ _ (by omega), e3]
    rfl
  · intro id user activity hv ht
    exact ⟨safe_call_move_task r.1 hi id user activity hv ht, _, _,
      binary_insert_eq _ _ _ _ _ (by have := hi.first_le; omega),
      move_task_to_do r.1 id user activity hv ht hi.first_le, rfl⟩

end IAED
